import Mathlib

/-!
# Blade: equirectangular panorama to cube-map faces (`convert.js`)

A shallow embedding of the worker script `src/convert.js`.

Number model.  JavaScript numbers are modelled by an arbitrary linearly ordered
field `α` with a floor function (`ℚ` for evaluation, `ℝ` for the statements that
involve `Math.sin`, `Math.acos`, ...); the arithmetic operations are exact, so the
rounding of binary64 arithmetic is not part of the model.  The conversions made by
stores into typed arrays are part of it: `toUint8Clamped` for `Uint8ClampedArray`,
`toFloat32` for `Float32Array`.  The functions of the built-in `Math` object
that are not field operations are collected in the record `JSMath` and passed
as a parameter; `realMath` is their interpretation over `ℝ`.

Typed arrays (`Uint8ClampedArray`) are lists of natural numbers; a read outside
the array yields `none` (JavaScript `undefined`), a write outside is ignored.  The
`Float32Array` scratch buffers of the kernel resampler are lists of numbers of `α`,
each of them a binary32 value: every store rounds with `toFloat32`.

Values that are not numbers arise in two places only and are modelled there: an
`undefined` operand (a read outside the source array) makes the channel value `none`,
which is stored as `0`; a zero vector length `r` makes the latitude `NaN`, and the
sampler is then called through `sampleNaN`.

Exceptions (`JsError`) are returned in `Except`.  Property lookups on the two object
literals follow the prototype chain (`Property`).
-/

namespace Blade

/-! ## Utility functions -/

section Utility

variable {α : Type} [LinearOrderedField α] [FloorRing α]

/-- The source's `const clamp = (x, min, max) => Math.min(max, Math.max(x, min))`. -/
def clamp {β : Type} [LinearOrder β] (x lo hi : β) : β := min hi (max x lo)

/-- Truncation toward zero, the integer quotient used by the JavaScript `%` operator. -/
def jsTrunc (x : α) : ℤ := if 0 ≤ x then ⌊x⌋ else ⌈x⌉

/-- JavaScript `x % n` on numbers: the remainder has the sign of the dividend. -/
def jsRem (x n : α) : α := x - n * (jsTrunc (x / n) : α)

/-- The source's `const mod = (x, n) => ((x % n) + n) % n`. -/
def mod (x n : α) : α := jsRem (jsRem x n + n) n

/-- JavaScript `Math.round`: the nearest integer, ties toward `+∞`. -/
def jsRound (x : α) : ℤ := ⌊x + 1 / 2⌋

/-- Conversion of an integer-valued number on a store into a `Uint8ClampedArray`. -/
def toUint8Clamped (v : ℤ) : ℕ := (max 0 (min v 255)).toNat

/-- IEEE 754 `roundTiesToEven` to an integer: the nearest integer, a tie going to the
even one. -/
def roundTiesToEven (x : α) : ℤ :=
  if Int.fract x < 1 / 2 then ⌊x⌋
  else if 1 / 2 < Int.fract x then ⌊x⌋ + 1
  else if ⌊x⌋ % 2 = 0 then ⌊x⌋ else ⌊x⌋ + 1

/-- Conversion of a number on a store into a `Float32Array`: the nearest binary32 value,
ties to even.  With `e` the binary exponent of `x`, not below `-126` (the subnormal
range), the binary32 values around `x` are the multiples of `2 ^ (e - 23)`.  Beyond the
binary32 range a store yields `±Infinity`, which the number model does not have; the
numbers stored by the script have absolute value below `2 ^ 7`. -/
def toFloat32 (x : α) : α :=
  let e : ℤ := max (Int.log 2 |x|) (-126)
  let ulp : α := 2 ^ (e - 23)
  (roundTiesToEven (x / ulp) : α) * ulp

end Utility

/-- The members of the built-in `Math` object used by the script that are not
field operations. -/
structure JSMath (α : Type) where
  /-- The constant `Math.PI`. -/
  PI : α
  /-- The function `Math.sqrt`. -/
  sqrt : α → α
  /-- The function `Math.atan2(y, x)`. -/
  atan2 : α → α → α
  /-- The function `Math.acos`. -/
  acos : α → α
  /-- The function `Math.sin`. -/
  sin : α → α

/-- The `Math` object over the real numbers. -/
noncomputable def realMath : JSMath ℝ where
  PI := Real.pi
  sqrt := Real.sqrt
  atan2 := fun y x => Complex.arg ⟨x, y⟩
  acos := Real.arccos
  sin := Real.sin

/-! ## Cube face orientations -/

/-- The object `cube = { x, y, z }` the orientation functions write to. -/
structure Vec3 (α : Type) where
  x : α
  y : α
  z : α
deriving DecidableEq, Repr

/-- Result of reading a property `obj[key]` of an object literal: one of the
literal's own members, a member inherited from `Object.prototype`, or `undefined`. -/
inductive Property (F : Type) where
  | own (f : F)
  | inherited (key : String)
  | undefined

/-- The property names every object literal inherits from `Object.prototype`. -/
def objectPrototypeKeys : List String :=
  ["constructor", "__defineGetter__", "__defineSetter__", "hasOwnProperty",
   "__lookupGetter__", "__lookupSetter__", "isPrototypeOf", "propertyIsEnumerable",
   "toString", "valueOf", "__proto__", "toLocaleString"]

/-- Lookup of a key that is not an own member of an object literal. -/
def Property.notOwn {F : Type} (key : String) : Property F :=
  if key ∈ objectPrototypeKeys then .inherited key else .undefined

section Orientation

variable {α : Type} [LinearOrderedField α]

namespace faceOrientations

/-- Source: `pz: (out, x, y) => { out.x = -1; out.y = -x; out.z = -y; }`. -/
def pz (out : Vec3 α) (x y : α) : Vec3 α := { out with x := -1, y := -x, z := -y }

/-- Source: `nz: (out, x, y) => { out.x = 1; out.y = x; out.z = -y; }`. -/
def nz (out : Vec3 α) (x y : α) : Vec3 α := { out with x := 1, y := x, z := -y }

/-- Source: `px: (out, x, y) => { out.x = x; out.y = -1; out.z = -y; }`. -/
def px (out : Vec3 α) (x y : α) : Vec3 α := { out with x := x, y := -1, z := -y }

/-- Source: `nx: (out, x, y) => { out.x = -x; out.y = 1; out.z = -y; }`. -/
def nx (out : Vec3 α) (x y : α) : Vec3 α := { out with x := -x, y := 1, z := -y }

/-- Source: `py: (out, x, y) => { out.x = -y; out.y = -x; out.z = 1; }`. -/
def py (out : Vec3 α) (x y : α) : Vec3 α := { out with x := -y, y := -x, z := 1 }

/-- Source: `ny: (out, x, y) => { out.x = y; out.y = -x; out.z = -1; }`. -/
def ny (out : Vec3 α) (x y : α) : Vec3 α := { out with x := y, y := -x, z := -1 }

end faceOrientations

/-- An orientation function `(out, x, y) => { ... }`, returning the updated `out`. -/
abbrev Orientation (α : Type) := Vec3 α → α → α → Vec3 α

/-- The table `faceOrientations`, read as `faceOrientations[face]`. -/
def faceOrientations (face : String) : Property (Orientation α) :=
  if face = "pz" then .own faceOrientations.pz
  else if face = "nz" then .own faceOrientations.nz
  else if face = "px" then .own faceOrientations.px
  else if face = "nx" then .own faceOrientations.nx
  else if face = "py" then .own faceOrientations.py
  else if face = "ny" then .own faceOrientations.ny
  else Property.notOwn face

/-- The three coordinate axes of the direction vector. -/
inductive Axis where
  | X
  | Y
  | Z
deriving DecidableEq, Repr

/-- Component of a vector along an axis. -/
def Vec3.get (v : Vec3 α) : Axis → α
  | .X => v.x
  | .Y => v.y
  | .Z => v.z

/-- The vector `v` has component `s` along `a`, and no component is larger in
absolute value. -/
def Vec3.DominantIs (v : Vec3 α) (a : Axis) (s : α) : Prop :=
  v.get a = s ∧ ∀ b : Axis, |v.get b| ≤ |v.get a|

/-- The axis and sign a face name announces: `p`/`n` for the sign and the letter for the axis. -/
def namedDominant (face : String) : Option (Axis × ℤ) :=
  if face = "px" then some (.X, 1)
  else if face = "nx" then some (.X, -1)
  else if face = "py" then some (.Y, 1)
  else if face = "ny" then some (.Y, -1)
  else if face = "pz" then some (.Z, 1)
  else if face = "nz" then some (.Z, -1)
  else none

/-- The axis and sign the orientation function of a face actually fixes. -/
def codeDominant (face : String) : Option (Axis × ℤ) :=
  if face = "pz" then some (.X, -1)
  else if face = "nz" then some (.X, 1)
  else if face = "px" then some (.Y, -1)
  else if face = "nx" then some (.Y, 1)
  else if face = "py" then some (.Z, 1)
  else if face = "ny" then some (.Z, -1)
  else none

end Orientation

/-! ## Images and typed arrays -/

/-- Exceptions the script can raise. -/
inductive JsError where
  /-- `IndexSizeError`: `new ImageData(sw, sh)` with `sw` or `sh` zero. -/
  | indexSizeError
  /-- `TypeError`: a call of a value that is not a function, or a built-in rejecting its arguments. -/
  | typeError
  /-- `RangeError`: `TypedArray.prototype.set` with a source that does not fit at the offset. -/
  | rangeError
deriving DecidableEq, Repr

/-- The browser's `ImageData`: `width`, `height` and the RGBA bytes `data`. -/
structure ImageData where
  width : ℕ
  height : ℕ
  data : List ℕ
deriving DecidableEq, Repr

/-- What every `ImageData` object satisfies: positive dimensions, `4·width·height`
entries, each of them a byte. -/
def ImageData.WellFormed (img : ImageData) : Prop :=
  0 < img.width ∧ 0 < img.height ∧ img.data.length = 4 * img.width * img.height ∧
    ∀ b ∈ img.data, b ≤ 255

instance (img : ImageData) : Decidable img.WellFormed := by
  unfold ImageData.WellFormed; infer_instance

/-- The constructor `new ImageData(sw, sh)`: a zero-filled image; a zero dimension is rejected. -/
def ImageData.create (sw sh : ℕ) : Except JsError ImageData :=
  if sw = 0 ∨ sh = 0 then .error .indexSizeError
  else .ok { width := sw, height := sh, data := List.replicate (4 * sw * sh) 0 }

/-- Element read `data[i]` of a typed array; `none` stands for `undefined`. -/
def getByte (data : List ℕ) (i : ℤ) : Option ℕ :=
  if 0 ≤ i then data[i.toNat]? else none

/-- The byte a `Uint8ClampedArray` keeps for a stored value, where `none` is a value
that is not a number (kept as `0`). -/
def storedByte (v : Option ℤ) : ℕ :=
  match v with
  | some n => toUint8Clamped n
  | none => 0

/-- Element store `data[i] = v` into a `Uint8ClampedArray`; a store outside the array
is ignored. -/
def setByte (data : List ℕ) (i : ℕ) (v : Option ℤ) : List ℕ :=
  data.set i (storedByte v)

/-- The view `data.subarray(begin, end)`: negative indices count from the end and
both are clamped to the array. -/
def subarray (data : List ℕ) (b e : ℤ) : List ℕ :=
  let len : ℤ := data.length
  let rb := if b < 0 then max (len + b) 0 else min b len
  let re := if e < 0 then max (len + e) 0 else min e len
  (data.drop rb.toNat).take (re - rb).toNat

/-- The call `target.set(source, offset)`. -/
def typedArraySet (target source : List ℕ) (offset : ℕ) : Except JsError (List ℕ) :=
  if target.length < source.length + offset then .error .rangeError
  else .ok (target.take offset ++ source ++ target.drop (offset + source.length))

/-- The source's `const readIndex = (x, y) => 4 * (y * width + x)`. -/
def readIndex (width : ℕ) (x y : ℤ) : ℤ := 4 * (y * width + x)

/-! ## Pixel copying strategies -/

section Copiers

variable {α : Type} [LinearOrderedField α] [FloorRing α]

/-- A function `(xFrom, yFrom, to) => { ... }` (the offset `to` is written `toIdx`) returned by a strategy, with the
destination bytes `write.data` passed in and returned. -/
structure Sampler (α : Type) where
  /-- The call `copyPixel(xFrom, yFrom, to)` with numbers `xFrom`, `yFrom`. -/
  sample : List ℕ → α → α → ℕ → Except JsError (List ℕ)
  /-- The call `copyPixel(xFrom, yFrom, to)` when `yFrom` is `NaN`. -/
  sampleNaN : List ℕ → ℕ → Except JsError (List ℕ)

namespace createPixelCopier

/-- Source, `nearest`: the index
`readIndex(clamp(Math.round(xFrom), 0, width - 1), clamp(Math.round(yFrom), 0, height - 1))`. -/
def nearestIndex (read : ImageData) (xFrom yFrom : α) : ℤ :=
  readIndex read.width
    (clamp (jsRound xFrom) 0 ((read.width : ℤ) - 1))
    (clamp (jsRound yFrom) 0 ((read.height : ℤ) - 1))

/-- Source, `nearest`: `write.data.set(data.subarray(nearest, nearest + 3), to)`.
With `yFrom` not a number so is `nearest`, and `subarray(NaN, NaN)` is empty. -/
def nearest (read : ImageData) : Sampler α where
  sample := fun write xFrom yFrom toIdx =>
    let nearest := nearestIndex read xFrom yFrom
    typedArraySet write (subarray read.data nearest (nearest + 3)) toIdx
  sampleNaN := fun write toIdx => typedArraySet write [] toIdx

/-- Source, `bilinear`: the value `Math.ceil(p0 * (1 - yf) + p1 * yf)` of one channel;
`none` when one of the four reads is `undefined`. -/
def bilinearChannel (read : ImageData) (xFrom yFrom : α) (channel : ℕ) : Option ℤ :=
  let xl := clamp ⌊xFrom⌋ 0 ((read.width : ℤ) - 1)
  let xr := clamp ⌈xFrom⌉ 0 ((read.width : ℤ) - 1)
  let xf := xFrom - (xl : α)
  let yl := clamp ⌊yFrom⌋ 0 ((read.height : ℤ) - 1)
  let yr := clamp ⌈yFrom⌉ 0 ((read.height : ℤ) - 1)
  let yf := yFrom - (yl : α)
  let p00 := readIndex read.width xl yl
  let p10 := readIndex read.width xr yl
  let p01 := readIndex read.width xl yr
  let p11 := readIndex read.width xr yr
  do
    let d00 ← getByte read.data (p00 + channel)
    let d10 ← getByte read.data (p10 + channel)
    let d01 ← getByte read.data (p01 + channel)
    let d11 ← getByte read.data (p11 + channel)
    let p0 := (d00 : α) * (1 - xf) + (d10 : α) * xf
    let p1 := (d01 : α) * (1 - xf) + (d11 : α) * xf
    pure ⌈p0 * (1 - yf) + p1 * yf⌉

/-- Source, `bilinear`: the loop `for (let channel = 0; channel < 3; channel++)`
storing each channel at `to + channel`. -/
def bilinear (read : ImageData) : Sampler α where
  sample := fun write xFrom yFrom toIdx =>
    .ok ((List.range 3).foldl
      (fun w channel => setByte w (toIdx + channel) (bilinearChannel read xFrom yFrom channel)) write)
  sampleNaN := fun write toIdx =>
    .ok ((List.range 3).foldl (fun w channel => setByte w (toIdx + channel) none) write)

end createPixelCopier

/-! ## Kernel-based resampling -/

/-- Source, `createKernelResampler`: the numbers `kernel(from - (start + i))` computed
for `i < 2 * filterSize`, `start = Math.floor(from) - filterSize + 1`, before they are
stored. -/
def kernelTaps (filterSize : ℕ) (kernel : α → α) (coord : α) : List α :=
  let start : ℤ := ⌊coord⌋ - filterSize + 1
  (List.range (2 * filterSize)).map
    (fun (i : ℕ) => kernel (coord - ((start + (i : ℤ) : ℤ) : α)))

/-- Source, `createKernelResampler`: the precomputed kernel values of one axis, as held
by the `Float32Array` after the stores `xKernel[i] = kernel(xFrom - (xStart + i))`. -/
def kernelValues (filterSize : ℕ) (kernel : α → α) (coord : α) : List α :=
  (kernelTaps filterSize kernel coord).map toFloat32

/-- Source, `createKernelResampler`: `xKernel.reduce((sum, val) => sum + val, 0)`. -/
def kernelSum (values : List α) : α := values.foldl (fun sum val => sum + val) 0

/-- Source, `createKernelResampler`: the kernel values after `xKernel[i] /= xSum`, the
quotient being stored back into the `Float32Array`.  The sum is never zero for the two
kernels of the script (`bicubic_values_sum`, `lanczos_values_sum`), so the division by
zero of the field is not reached. -/
def kernelWeights (filterSize : ℕ) (kernel : α → α) (coord : α) : List α :=
  let values := kernelValues filterSize kernel coord
  values.map (fun v => toFloat32 (v / kernelSum values))

/-- Source, `createKernelResampler`: the inner loop over `j`, accumulating
`p += data[index + channel] * xKernel[j]` along the row `y`. -/
def kernelRow (read : ImageData) (filterSize : ℕ) (xKernel : List α) (xStart : ℤ) (y : ℤ)
    (channel : ℕ) : Option α :=
  (List.range (2 * filterSize)).foldl
    (fun p (j : ℕ) => do
      let x := clamp (xStart + (j : ℤ)) 0 ((read.width : ℤ) - 1)
      let index := readIndex read.width x y
      let d ← getByte read.data (index + channel)
      let p ← p
      pure (p + (d : α) * xKernel.getD j 0))
    (some 0)

/-- Source, `createKernelResampler`: the loop over `i`, accumulating `q += p * yKernel[i]`,
followed by `Math.round(q)`. -/
def kernelChannel (read : ImageData) (filterSize : ℕ) (kernel : α → α) (xFrom yFrom : α)
    (channel : ℕ) : Option ℤ :=
  let xStart : ℤ := ⌊xFrom⌋ - filterSize + 1
  let yStart : ℤ := ⌊yFrom⌋ - filterSize + 1
  let xKernel := kernelWeights filterSize kernel xFrom
  let yKernel := kernelWeights filterSize kernel yFrom
  let q : Option α := (List.range (2 * filterSize)).foldl
    (fun q (i : ℕ) => do
      let y := clamp (yStart + (i : ℤ)) 0 ((read.height : ℤ) - 1)
      let p ← kernelRow read filterSize xKernel xStart y channel
      let q ← q
      pure (q + p * yKernel.getD i 0))
    (some 0)
  q.map jsRound

/-- Source: `function createKernelResampler(read, write, filterSize, kernel)`. -/
def createKernelResampler (read : ImageData) (filterSize : ℕ) (kernel : α → α) : Sampler α where
  sample := fun write xFrom yFrom toIdx =>
    .ok ((List.range 3).foldl
      (fun w channel =>
        setByte w (toIdx + channel) (kernelChannel read filterSize kernel xFrom yFrom channel)) write)
  sampleNaN := fun write toIdx =>
    .ok ((List.range 3).foldl (fun w channel => setByte w (toIdx + channel) none) write)

namespace createPixelCopier

/-- Source, `bicubic`: the kernel with `b = -0.5`. -/
def bicubicKernel (x : α) : α :=
  let b : α := -(1 / 2)
  let x := |x|
  let x2 := x * x
  let x3 := x * x2
  if x ≤ 1 then (b + 2) * x3 - (b + 3) * x2 + 1
  else b * x3 - 5 * b * x2 + 8 * b * x - 4 * b

/-- Source, `bicubic`: `createKernelResampler(read, write, 2, kernel)`. -/
def bicubic (read : ImageData) : Sampler α :=
  createKernelResampler read 2 bicubicKernel

/-- Source, `lanczos`: the kernel with `filterSize = 5`. -/
def lanczosKernel (M : JSMath α) (x : α) : α :=
  let filterSize : α := 5
  if x = 0 then 1
  else
    let xp := M.PI * x
    filterSize * M.sin xp * M.sin (xp / filterSize) / (xp * xp)

/-- Source, `lanczos`: `createKernelResampler(read, write, filterSize, kernel)`. -/
def lanczos (M : JSMath α) (read : ImageData) : Sampler α :=
  createKernelResampler read 5 (lanczosKernel M)

end createPixelCopier

/-- The table `createPixelCopier`, read as `createPixelCopier[interpolation]`. -/
def createPixelCopier (M : JSMath α) (interpolation : String) :
    Property (ImageData → Sampler α) :=
  if interpolation = "nearest" then .own createPixelCopier.nearest
  else if interpolation = "bilinear" then .own createPixelCopier.bilinear
  else if interpolation = "bicubic" then .own createPixelCopier.bicubic
  else if interpolation = "lanczos" then .own (createPixelCopier.lanczos M)
  else Property.notOwn interpolation

end Copiers

/-! ## Main rendering function -/

section Render

variable {α : Type} [LinearOrderedField α] [FloorRing α]

/-- The argument object of `renderFace`.  `interpolation = none` is an absent
property (the default `'lanczos'` applies); `maxWidth = none` is an absent property
or the value `Infinity` (the default), `some m` a finite cap. -/
structure RenderRequest (α : Type) where
  data : ImageData
  face : String
  rotation : α
  interpolation : Option String
  maxWidth : Option ℕ

/-- The message `renderFace` posts: `{ data, width, height, isPreview }`. -/
structure RenderResult where
  data : ImageData
  width : ℕ
  height : ℕ
  isPreview : Bool
deriving DecidableEq, Repr

/-- The value bound to `copyPixel`: a sampler, or a value that is not a function. -/
inductive CopyPixel (α : Type) where
  | fn (s : Sampler α)
  | notCallable

/-- Source, `renderFace`:
`createPixelCopier[interpolation]?.(readData, writeData) || createPixelCopier.nearest(readData, writeData)`.
An own member is called and its sampler is truthy.  `undefined` short-circuits `?.`
and `||` falls back.  Of the inherited members, `__proto__` is not a function and
`__defineGetter__`, `__defineSetter__` reject the arguments (the call raises);
`constructor`, `toString`, `toLocaleString`, `valueOf` return an object or a string
(truthy, not a function); the remaining ones return `false` or `undefined`. -/
def selectCopier (M : JSMath α) (interpolation : String) (readData : ImageData) :
    Except JsError (CopyPixel α) :=
  match createPixelCopier M interpolation with
  | .own make => .ok (.fn (make readData))
  | .undefined => .ok (.fn (createPixelCopier.nearest readData))
  | .inherited key =>
    if key ∈ ["__proto__", "__defineGetter__", "__defineSetter__"] then .error .typeError
    else if key ∈ ["constructor", "toString", "toLocaleString", "valueOf"] then .ok .notCallable
    else .ok (.fn (createPixelCopier.nearest readData))

/-- Source, `renderFace`: the call `orientation(cube, x, y)`.  Calling `undefined`
raises; of the inherited members only `constructor` and `toString` accept the call
(with `this` undefined), and they leave `cube` as it is. -/
def callOrientation (orientation : Property (Orientation α)) (cube : Vec3 α) (x y : α) :
    Except JsError (Vec3 α) :=
  match orientation with
  | .own f => .ok (f cube x y)
  | .inherited key => if key ∈ ["constructor", "toString"] then .ok cube else .error .typeError
  | .undefined => .error .typeError

/-- Source, `renderFace`: `mod(Math.atan2(cube.y, cube.x) + rotation, 2 * Math.PI)`. -/
def longitude (M : JSMath α) (cube : Vec3 α) (rotation : α) : α :=
  mod (M.atan2 cube.y cube.x + rotation) (2 * M.PI)

/-- Source, `renderFace`: the body of the loop over `x`, on the state `(cube, writeData.data)`.
When `r` is zero, `cube.z / r` is not a number and neither are `lat` and `yFrom`. -/
def renderPixel (M : JSMath α) (readData : ImageData) (rotation : α)
    (orientation : Property (Orientation α)) (copyPixel : CopyPixel α)
    (faceWidth faceHeight : ℕ) (y x : ℕ) (st : Vec3 α × List ℕ) :
    Except JsError (Vec3 α × List ℕ) := do
  let widthRatio : α := 2 / (faceWidth : α)
  let heightRatio : α := 2 / (faceHeight : α)
  let lonFactor : α := (readData.width : α) / (2 * M.PI)
  let latFactor : α := (readData.height : α) / M.PI
  let toIdx := 4 * (y * faceWidth + x)
  let data := st.2.set (toIdx + 3) 255
  let cube ← callOrientation orientation st.1
    (widthRatio * ((x : α) + 1 / 2) - 1) (heightRatio * ((y : α) + 1 / 2) - 1)
  let r := M.sqrt (cube.x * cube.x + cube.y * cube.y + cube.z * cube.z)
  let lon := longitude M cube rotation
  match copyPixel with
  | .notCallable => .error .typeError
  | .fn s =>
    if r = 0 then do
      let data ← s.sampleNaN data toIdx
      pure (cube, data)
    else do
      let lat := M.acos (cube.z / r)
      let data ← s.sample data (lon * lonFactor - 1 / 2) (lat * latFactor - 1 / 2) toIdx
      pure (cube, data)

/-- Source, `renderFace`: the loops `for y < faceHeight` and `for x < faceWidth`. -/
def renderLoop (M : JSMath α) (readData : ImageData) (rotation : α)
    (orientation : Property (Orientation α)) (copyPixel : CopyPixel α)
    (faceWidth faceHeight : ℕ) (st : Vec3 α × List ℕ) : Except JsError (Vec3 α × List ℕ) :=
  (List.range faceHeight).foldlM
    (fun st y => (List.range faceWidth).foldlM
      (fun st x =>
        renderPixel M readData rotation orientation copyPixel faceWidth faceHeight y x st) st)
    st

/-- Source, `renderFace`: `Math.min(maxWidth, Math.floor(readData.width / 4))`. -/
def faceSize (maxWidth : Option ℕ) (width : ℕ) : ℕ :=
  match maxWidth with
  | none => width / 4
  | some m => min m (width / 4)

/-- Source: `function renderFace({ data: readData, face, rotation, interpolation = 'lanczos',
maxWidth = Infinity })`; the result is the message posted. -/
def renderFace (M : JSMath α) (req : RenderRequest α) : Except JsError RenderResult := do
  let readData := req.data
  let interpolation := req.interpolation.getD "lanczos"
  let faceWidth := faceSize req.maxWidth readData.width
  let faceHeight := faceWidth
  let writeData ← ImageData.create faceWidth faceHeight
  let orientation : Property (Orientation α) := faceOrientations req.face
  let cube : Vec3 α := { x := 0, y := 0, z := 0 }
  let copyPixel ← selectCopier M interpolation readData
  let st ← renderLoop M readData req.rotation orientation copyPixel faceWidth faceHeight
    (cube, writeData.data)
  pure {
    data := { writeData with data := st.2 }
    width := faceWidth
    height := faceHeight
    isPreview := req.maxWidth.isSome }

end Render

/-! ## Predicates used in the statements -/

/-- The face names whose value in `faceOrientations` can be called as
`orientation(cube, x, y)`: the six faces, and the inherited `constructor` and `toString`. -/
def faceCallable (face : String) : Prop :=
  face ∈ ["pz", "nz", "px", "nx", "py", "ny", "constructor", "toString"]

instance (face : String) : Decidable (faceCallable face) := by
  unfold faceCallable; infer_instance

/-- The interpolation names for which the selection of `copyPixel` yields a function:
every name but the seven inherited ones that raise or yield a value that is not a function. -/
def copierAvailable (interpolation : String) : Prop :=
  interpolation ∉ ["__proto__", "__defineGetter__", "__defineSetter__",
    "constructor", "toString", "toLocaleString", "valueOf"]

instance (interpolation : String) : Decidable (copierAvailable interpolation) := by
  unfold copierAvailable; infer_instance

/-- A sampler that, called with an offset `toIdx` whose three bytes lie in the
destination, returns normally, keeps the length of the destination and changes at
most the bytes `toIdx`, `toIdx + 1`, `toIdx + 2`. -/
def Sampler.Framed {α : Type} (s : Sampler α) : Prop :=
  (∀ (write : List ℕ) (xFrom yFrom : α) (toIdx : ℕ), toIdx + 3 ≤ write.length →
    ∃ buf, s.sample write xFrom yFrom toIdx = .ok buf ∧ buf.length = write.length ∧
      ∀ i, i < toIdx ∨ toIdx + 3 ≤ i → buf[i]? = write[i]?) ∧
  (∀ (write : List ℕ) (toIdx : ℕ), toIdx + 3 ≤ write.length →
    ∃ buf, s.sampleNaN write toIdx = .ok buf ∧ buf.length = write.length ∧
      ∀ i, i < toIdx ∨ toIdx + 3 ≤ i → buf[i]? = write[i]?)

/-- The byte of channel `c` of the pixel `(x, y)` of an image. -/
def ImageData.channel (img : ImageData) (x y : ℤ) (c : ℕ) : ℕ :=
  img.data.getD (4 * (y.toNat * img.width + x.toNat) + c) 0

/-- A sampler every call of which (with an offset `toIdx` whose three bytes lie in the
destination) returns normally, stores the byte `v` at `toIdx`, `toIdx + 1`, `toIdx + 2`
and leaves the rest of the destination as it is. -/
def Sampler.Writes {α : Type} (s : Sampler α) (v : ℕ) : Prop :=
  ∀ (write : List ℕ) (xFrom yFrom : α) (toIdx : ℕ), toIdx + 3 ≤ write.length →
    ∃ buf, s.sample write xFrom yFrom toIdx = .ok buf ∧ buf.length = write.length ∧
      (∀ i, i < toIdx ∨ toIdx + 3 ≤ i → buf[i]? = write[i]?) ∧
      ∀ c, c < 3 → buf[toIdx + c]? = some v

/-- A uniformly gray image: the three colour channels of every pixel are `128`. -/
def ImageData.IsGray (img : ImageData) : Prop :=
  ∀ k, k < img.width * img.height → ∀ c, c < 3 → img.data[4 * k + c]? = some 128

/-! ## Source indices read by the strategies -/

section Reads

variable {α : Type} [LinearOrderedField α] [FloorRing α]

/-- Source, `nearest`: the source indices viewed by `data.subarray(nearest, nearest + 3)`
and copied by `write.data.set` (`nearestReads_link` relates them to `nearest`). -/
def createPixelCopier.nearestReads (read : ImageData) (xFrom yFrom : α) : List ℤ :=
  let nearest := createPixelCopier.nearestIndex read xFrom yFrom
  [nearest, nearest + 1, nearest + 2]

/-- Source, `bilinear`: the source indices `p00 + channel`, `p10 + channel`,
`p01 + channel`, `p11 + channel` read in the loop over `channel < 3`
(`bilinearReads_link` relates them to `bilinearChannel`). -/
def createPixelCopier.bilinearReads (read : ImageData) (xFrom yFrom : α) : List ℤ :=
  let xl := clamp ⌊xFrom⌋ 0 ((read.width : ℤ) - 1)
  let xr := clamp ⌈xFrom⌉ 0 ((read.width : ℤ) - 1)
  let yl := clamp ⌊yFrom⌋ 0 ((read.height : ℤ) - 1)
  let yr := clamp ⌈yFrom⌉ 0 ((read.height : ℤ) - 1)
  let p00 := readIndex read.width xl yl
  let p10 := readIndex read.width xr yl
  let p01 := readIndex read.width xl yr
  let p11 := readIndex read.width xr yr
  (List.range 3).flatMap (fun (channel : ℕ) =>
    [p00 + (channel : ℤ), p10 + (channel : ℤ), p01 + (channel : ℤ), p11 + (channel : ℤ)])

/-- Source, `createKernelResampler`: the source indices `index + channel` read in the
loops over `channel < 3`, `i < twoFilterSize` and `j < twoFilterSize`
(`kernelReads_link` relates them to `kernelChannel`). -/
def kernelReads (read : ImageData) (filterSize : ℕ) (xFrom yFrom : α) : List ℤ :=
  let xStart : ℤ := ⌊xFrom⌋ - filterSize + 1
  let yStart : ℤ := ⌊yFrom⌋ - filterSize + 1
  (List.range 3).flatMap (fun (channel : ℕ) =>
    (List.range (2 * filterSize)).flatMap (fun (i : ℕ) =>
      (List.range (2 * filterSize)).map (fun (j : ℕ) =>
        readIndex read.width (clamp (xStart + (j : ℤ)) 0 ((read.width : ℤ) - 1))
          (clamp (yStart + (i : ℤ)) 0 ((read.height : ℤ) - 1)) + (channel : ℤ))))

/-- An index of the form `4 * (y * width + x) + c` with `(x, y)` inside the image and
`c` a colour channel. -/
def InImage (width height : ℕ) (idx : ℤ) : Prop :=
  ∃ x y c : ℕ, x ≤ width - 1 ∧ y ≤ height - 1 ∧ c < 3 ∧
    idx = ((4 * (y * width + x) + c : ℕ) : ℤ)

end Reads

/-- A point with at least two coordinates of absolute value `1`: on an edge or at a
corner of the cube `[-1,1]³`. -/
def Vec3.OnEdge {α : Type} [LinearOrderedField α] (v : Vec3 α) : Prop :=
  (|v.x| = 1 ∧ |v.y| = 1) ∨ (|v.x| = 1 ∧ |v.z| = 1) ∨ (|v.y| = 1 ∧ |v.z| = 1)

/-- A sampler every call of which, when it returns normally, keeps the length of the
destination and changes at most the bytes `toIdx`, `toIdx + 1`, `toIdx + 2`, for any
offset `toIdx` and any source. -/
def Sampler.Frames {α : Type} (s : Sampler α) : Prop :=
  (∀ (write : List ℕ) (xFrom yFrom : α) (toIdx : ℕ) (buf : List ℕ),
    s.sample write xFrom yFrom toIdx = .ok buf →
      buf.length = write.length ∧ ∀ i, i < toIdx ∨ toIdx + 3 ≤ i → buf[i]? = write[i]?) ∧
  (∀ (write : List ℕ) (toIdx : ℕ) (buf : List ℕ),
    s.sampleNaN write toIdx = .ok buf →
      buf.length = write.length ∧ ∀ i, i < toIdx ∨ toIdx + 3 ≤ i → buf[i]? = write[i]?)

/-! ## Worker message handler -/

/-- A message the worker posts: the result object of `renderFace`, or `{ error }`. -/
inductive WorkerMessage where
  | result (r : RenderResult)
  | error (message : String)
deriving DecidableEq, Repr

/-- Source: `onmessage = function({ data }) { try { renderFace(data); } catch (error) {
postMessage({ error: error.message }); } }`; the value is the list of messages posted.
`message` is the text the engine gives to an exception (`error.message`). -/
def onmessage {α : Type} [LinearOrderedField α] [FloorRing α] (M : JSMath α)
    (message : JsError → String) (data : RenderRequest α) : List WorkerMessage :=
  match renderFace M data with
  | .ok r => [WorkerMessage.result r]
  | .error e => [WorkerMessage.error (message e)]

/-- The bilinear value of one channel as the specification words it: the ceiling of the
blend of the four corner samples (floor and ceiling of each coordinate, clamped
independently) with the weights `(1-xf)(1-yf)`, `xf(1-yf)`, `(1-xf)yf`, `xf·yf`, where
`xf = xFrom - floor(xFrom)` and `yf = yFrom - floor(yFrom)`. -/
def bilinearSpec {α : Type} [LinearOrderedField α] [FloorRing α] (read : ImageData)
    (xFrom yFrom : α) (c : ℕ) : ℤ :=
  let xl := clamp ⌊xFrom⌋ 0 ((read.width : ℤ) - 1)
  let xr := clamp ⌈xFrom⌉ 0 ((read.width : ℤ) - 1)
  let yl := clamp ⌊yFrom⌋ 0 ((read.height : ℤ) - 1)
  let yr := clamp ⌈yFrom⌉ 0 ((read.height : ℤ) - 1)
  let xf := xFrom - (⌊xFrom⌋ : α)
  let yf := yFrom - (⌊yFrom⌋ : α)
  ⌈(read.channel xl yl c : α) * ((1 - xf) * (1 - yf)) +
    (read.channel xr yl c : α) * (xf * (1 - yf)) +
    (read.channel xl yr c : α) * ((1 - xf) * yf) +
    (read.channel xr yr c : α) * (xf * yf)⌉

/-- The bicubic kernel as the specification words it, with `B = -0.5`: for `|x| ≤ 1`,
`(B+2)|x|³ - (B+3)|x|² + 1`; for `1 < |x| ≤ 2`, `B|x|³ - 5B|x|² + 8B|x| - 4B`; else `0`. -/
def bicubicKernelSpec {α : Type} [LinearOrderedField α] (x : α) : α :=
  let B : α := -(1 / 2)
  if |x| ≤ 1 then (B + 2) * |x| ^ 3 - (B + 3) * |x| ^ 2 + 1
  else if |x| ≤ 2 then B * |x| ^ 3 - 5 * B * |x| ^ 2 + 8 * B * |x| - 4 * B
  else 0

/-! ## Example images -/

/-- A source image of width 400 and height 200, all bytes zero. -/
def image400 : ImageData := { width := 400, height := 200, data := List.replicate 320000 0 }

/-- A source image of width 3 and height 1, all bytes zero. -/
def image3 : ImageData := { width := 3, height := 1, data := List.replicate 12 0 }

/-- A source image of width 4 and height 1, all bytes zero. -/
def image4 : ImageData := { width := 4, height := 1, data := List.replicate 16 0 }

/-- A gray source image of width 4 and height 1 (with various alpha bytes). -/
def imageGray : ImageData :=
  { width := 4, height := 1,
    data := [128, 128, 128, 255, 128, 128, 128, 0, 128, 128, 128, 7, 128, 128, 128, 255] }

/-- A source image of two pixels, `(0, 0, 0)` and `(100, 100, 100)`. -/
def imageStep : ImageData := { width := 2, height := 1, data := [0, 0, 0, 255, 100, 100, 100, 255] }

/-! # Theorems -/

/-! ## `mod` -/

section ModLemmas

variable {α : Type} [LinearOrderedField α] [FloorRing α]

theorem jsRem_of_nonneg {x n : α} (hn : 0 < n) (hx : 0 ≤ x) :
    0 ≤ jsRem x n ∧ jsRem x n < n := by
  have hq : 0 ≤ x / n := div_nonneg hx hn.le
  have hx' : x = n * (x / n) := by field_simp
  unfold jsRem jsTrunc
  rw [if_pos hq]
  have h1 := Int.floor_le (x / n)
  have h2 := Int.lt_floor_add_one (x / n)
  constructor
  · nlinarith
  · nlinarith

theorem jsRem_abs_lt {x n : α} (hn : 0 < n) : -n < jsRem x n ∧ jsRem x n < n := by
  rcases le_or_lt 0 x with hx | hx
  · have := jsRem_of_nonneg hn hx
    exact ⟨by linarith, this.2⟩
  · have hq : ¬ (0 ≤ x / n) := not_le.mpr (div_neg_of_neg_of_pos hx hn)
    have hx' : x = n * (x / n) := by field_simp
    unfold jsRem jsTrunc
    rw [if_neg hq]
    have h1 := Int.le_ceil (x / n)
    have h2 := Int.ceil_lt_add_one (x / n)
    constructor
    · nlinarith
    · nlinarith

theorem mod_nonneg_lt {n : α} (hn : 0 < n) (v : α) : 0 ≤ mod v n ∧ mod v n < n := by
  unfold mod
  have h := jsRem_abs_lt (x := v) hn
  exact jsRem_of_nonneg hn (by linarith)

end ModLemmas

/-- C9: for every real `v`, `mod(v, 2π)`, which is `((v % 2π) + 2π) % 2π` with the
truncated remainder `%`, lies in `[0, 2π)`; hence so does the longitude computed by
`renderFace`, for every direction vector and rotation. -/
theorem mod_two_pi_range (v : ℝ) :
    mod v (2 * realMath.PI) = jsRem (jsRem v (2 * realMath.PI) + 2 * realMath.PI) (2 * realMath.PI) ∧
    (0 ≤ mod v (2 * realMath.PI) ∧ mod v (2 * realMath.PI) < 2 * realMath.PI) ∧
    ∀ (cube : Vec3 ℝ) (rotation : ℝ),
      0 ≤ longitude realMath cube rotation ∧ longitude realMath cube rotation < 2 * realMath.PI := by
  have hpi : (0 : ℝ) < 2 * realMath.PI := by
    show (0 : ℝ) < 2 * Real.pi
    linarith [Real.pi_pos]
  exact ⟨rfl, mod_nonneg_lt hpi v, fun cube rotation => mod_nonneg_lt hpi _⟩

/-! ## Face orientations -/

section OrientationTheorems

variable {α : Type} [LinearOrderedField α]

/-- C2, as stated, fails: the face named `pz` announces the axis `Z` with sign `+1`,
but at the face centre its direction vector is `(-1, 0, 0)`: the `z` component is `0`. -/
theorem pz_centre_not_positive_z :
    namedDominant "pz" = some (Axis.Z, 1) ∧
    faceOrientations.pz ({ x := 0, y := 0, z := 0 } : Vec3 ℚ) 0 0 = { x := -1, y := 0, z := 0 } ∧
    ¬ Vec3.DominantIs (faceOrientations.pz ({ x := 0, y := 0, z := 0 } : Vec3 ℚ) 0 0) Axis.Z 1 := by
  refine ⟨by decide, by simp [faceOrientations.pz], ?_⟩
  intro h
  have := h.1
  simp [faceOrientations.pz, Vec3.get] at this

/-- C2, amended: each of the six orientation functions fixes one component of the
direction vector to `+1` or `-1`, the same for every face-local `(x, y)` in
`[-1,1] × [-1,1]`, and no component is larger in absolute value; the axis and sign
are those of `codeDominant`: `pz ↦ -X`, `nz ↦ +X`, `px ↦ -Y`, `nx ↦ +Y`, `py ↦ +Z`,
`ny ↦ -Z`. -/
theorem faceOrientations_dominant (face : String) (f : Orientation α) (a : Axis) (s : ℤ)
    (hf : faceOrientations face = Property.own f) (hd : codeDominant face = some (a, s))
    (out : Vec3 α) (x y : α) (hx : |x| ≤ 1) (hy : |y| ≤ 1) :
    Vec3.DominantIs (f out x y) a (s : α) := by
  unfold faceOrientations at hf
  unfold codeDominant at hd
  split_ifs at hf hd <;>
    (obtain ⟨rfl, rfl⟩ : a = _ ∧ s = _ := by simpa using hd.symm
     obtain rfl : _ = f := by simpa using hf
     refine ⟨by simp [Vec3.get, faceOrientations.pz, faceOrientations.nz, faceOrientations.px,
       faceOrientations.nx, faceOrientations.py, faceOrientations.ny], ?_⟩
     intro b
     cases b <;>
       simp [Vec3.get, faceOrientations.pz, faceOrientations.nz, faceOrientations.px,
         faceOrientations.nx, faceOrientations.py, faceOrientations.ny, hx, hy])

theorem faceOrientations_dominant_witness :
    |(1 / 2 : ℚ)| ≤ 1 ∧ |(-1 : ℚ)| ≤ 1 ∧
    Vec3.DominantIs (faceOrientations.pz ({ x := 0, y := 0, z := 0 } : Vec3 ℚ) (1 / 2) (-1))
      Axis.X ((-1 : ℤ) : ℚ) :=
  have hx : |(1 / 2 : ℚ)| ≤ 1 := by rw [abs_le]; constructor <;> norm_num
  have hy : |(-1 : ℚ)| ≤ 1 := by rw [abs_le]; constructor <;> norm_num
  ⟨hx, hy, faceOrientations_dominant "pz" faceOrientations.pz Axis.X (-1)
    (by simp [faceOrientations]) (by simp [codeDominant]) _ _ _ hx hy⟩

end OrientationTheorems

/-! ## Typed arrays and index arithmetic -/

theorem clamp_bounds {lo hi : ℤ} (h : lo ≤ hi) (x : ℤ) : lo ≤ clamp x lo hi ∧ clamp x lo hi ≤ hi := by
  unfold clamp
  constructor
  · exact le_min h (le_max_right _ _)
  · exact min_le_left _ _

theorem clamp_of_mem {lo hi x : ℤ} (h1 : lo ≤ x) (h2 : x ≤ hi) : clamp x lo hi = x := by
  unfold clamp
  rw [max_eq_left h1, min_eq_right h2]

theorem getByte_of_nonneg (data : List ℕ) {i : ℤ} (h : 0 ≤ i) : getByte data i = data[i.toNat]? := by
  unfold getByte
  rw [if_pos h]

/-- The index of channel `c` of pixel `(x, y)`, for integers inside the image. -/
theorem readIndex_toNat (width : ℕ) {x y : ℤ} (hx : 0 ≤ x) (hy : 0 ≤ y) (c : ℕ) :
    0 ≤ readIndex width x y + c ∧
    (readIndex width x y + c).toNat = 4 * (y.toNat * width + x.toNat) + c := by
  obtain ⟨a, rfl⟩ := Int.eq_ofNat_of_zero_le hx
  obtain ⟨b, rfl⟩ := Int.eq_ofNat_of_zero_le hy
  unfold readIndex
  constructor
  · positivity
  · simp only [Int.toNat_ofNat]
    have : (4 * ((b : ℤ) * (width : ℤ) + (a : ℤ)) + (c : ℤ)) = ((4 * (b * width + a) + c : ℕ) : ℤ) := by
      push_cast; ring
    rw [this, Int.toNat_ofNat]

theorem pixel_index_lt {w h x y c : ℕ} (hx : x < w) (hy : y < h) (hc : c < 4) :
    4 * (y * w + x) + c < 4 * w * h := by
  have h1 : y * w + x < h * w := by
    calc y * w + x < y * w + w := by omega
      _ = (y + 1) * w := by ring
      _ ≤ h * w := Nat.mul_le_mul_right w hy
  have h2 : 4 * w * h = 4 * (h * w) := by ring
  omega

theorem subarray_three (data : List ℕ) {b : ℤ} (hb : 0 ≤ b) (he : b + 3 ≤ data.length) :
    subarray data b (b + 3) = (data.drop b.toNat).take 3 := by
  unfold subarray
  have h1 : ¬ b < 0 := not_lt.mpr hb
  have h2 : ¬ b + 3 < 0 := by omega
  simp only [h1, h2, if_false]
  have hb' : b ≤ (data.length : ℤ) := by omega
  rw [min_eq_left he, min_eq_left hb']
  have : (b + 3 - b).toNat = 3 := by
    have : b + 3 - b = 3 := by ring
    rw [this]; rfl
  rw [this]

theorem typedArraySet_spec (target source : List ℕ) (offset : ℕ)
    (h : source.length + offset ≤ target.length) :
    ∃ buf, typedArraySet target source offset = .ok buf ∧ buf.length = target.length ∧
      (∀ c, c < source.length → buf[offset + c]? = source[c]?) ∧
      (∀ i, i < offset ∨ offset + source.length ≤ i → buf[i]? = target[i]?) := by
  unfold typedArraySet
  rw [if_neg (not_lt.mpr h)]
  refine ⟨_, rfl, ?_, ?_, ?_⟩
  · simp only [List.length_append, List.length_take, List.length_drop]
    omega
  · intro c hc
    have hlen : (List.take offset target).length = offset := by
      rw [List.length_take]; omega
    rw [List.append_assoc, List.getElem?_append_right (by omega), hlen,
      List.getElem?_append_left (by omega)]
    congr 1
    omega
  · intro i hi
    have hlen : (List.take offset target).length = offset := by
      rw [List.length_take]; omega
    rcases hi with hi | hi
    · rw [List.append_assoc, List.getElem?_append_left (by omega), List.getElem?_take_of_lt hi]
    · rw [List.getElem?_append_right (by simp only [List.length_append, hlen]; omega)]
      simp only [List.length_append, hlen, List.getElem?_drop]
      congr 1
      omega

/-! ## Nearest neighbour -/

section NearestTheorems

variable {α : Type} [LinearOrderedField α] [FloorRing α]

theorem jsRound_natCast (x : ℕ) : jsRound (x : α) = (x : ℤ) := by
  unfold jsRound
  rw [Int.floor_eq_iff]
  constructor
  · push_cast; linarith
  · push_cast; linarith

/-- The pixel the nearest strategy reads lies inside a well-formed image. -/
theorem nearestIndex_spec (read : ImageData) (hwf : read.WellFormed) (xFrom yFrom : α) :
    (clamp ⌊xFrom + 1 / 2⌋ 0 ((read.width : ℤ) - 1)).toNat < read.width ∧
    (clamp ⌊yFrom + 1 / 2⌋ 0 ((read.height : ℤ) - 1)).toNat < read.height ∧
    0 ≤ createPixelCopier.nearestIndex read xFrom yFrom ∧
    (createPixelCopier.nearestIndex read xFrom yFrom).toNat =
      4 * ((clamp ⌊yFrom + 1 / 2⌋ 0 ((read.height : ℤ) - 1)).toNat * read.width +
        (clamp ⌊xFrom + 1 / 2⌋ 0 ((read.width : ℤ) - 1)).toNat) := by
  obtain ⟨hw, hh, -, -⟩ := hwf
  have hX := @clamp_bounds 0 ((read.width : ℤ) - 1) (by omega) ⌊xFrom + 1 / 2⌋
  have hY := @clamp_bounds 0 ((read.height : ℤ) - 1) (by omega) ⌊yFrom + 1 / 2⌋
  have h := readIndex_toNat read.width hX.1 hY.1 0
  simp only [Nat.cast_zero, add_zero] at h
  exact ⟨by omega, by omega, h.1, h.2⟩

theorem nearest_sample_eq (read : ImageData) (hwf : read.WellFormed) (write : List ℕ)
    (xFrom yFrom : α) (toIdx : ℕ) (hto : toIdx + 3 ≤ write.length) :
    (createPixelCopier.nearest read).sample write xFrom yFrom toIdx =
      .ok (write.take toIdx ++
        (read.data.drop (4 * ((clamp ⌊yFrom + 1 / 2⌋ 0 ((read.height : ℤ) - 1)).toNat * read.width +
          (clamp ⌊xFrom + 1 / 2⌋ 0 ((read.width : ℤ) - 1)).toNat))).take 3 ++
        write.drop (toIdx + 3)) ∧
    ((read.data.drop (4 * ((clamp ⌊yFrom + 1 / 2⌋ 0 ((read.height : ℤ) - 1)).toNat * read.width +
          (clamp ⌊xFrom + 1 / 2⌋ 0 ((read.width : ℤ) - 1)).toNat))).take 3).length = 3 := by
  obtain ⟨hX, hY, h0, hI⟩ := nearestIndex_spec read hwf xFrom yFrom
  have hlt := pixel_index_lt hX hY (show 3 < 4 by norm_num)
  have hlen : read.data.length = 4 * read.width * read.height := hwf.2.2.1
  have hsub := subarray_three read.data h0 (by omega)
  have hl3 : ((read.data.drop (4 * ((clamp ⌊yFrom + 1 / 2⌋ 0 ((read.height : ℤ) - 1)).toNat *
      read.width + (clamp ⌊xFrom + 1 / 2⌋ 0 ((read.width : ℤ) - 1)).toNat))).take 3).length = 3 := by
    rw [List.length_take, List.length_drop]; omega
  refine ⟨?_, hl3⟩
  show typedArraySet write (subarray read.data _ _) toIdx = _
  rw [hsub, hI]
  unfold typedArraySet
  rw [hl3, if_neg (by omega)]

/-- C7: for a well-formed source image and integer coordinates `(x, y)` inside it, the
nearest strategy called with `(xFrom, yFrom) = (x, y)` replaces the three destination
bytes at `to` by the three source bytes starting at `4 * (y * width + x)`, unmodified;
for any coordinates it copies the three bytes of the pixel
`(clamp(floor(xFrom + 0.5), 0, width - 1), clamp(floor(yFrom + 0.5), 0, height - 1))`. -/
theorem nearest_copies_pixel (read : ImageData) (hwf : read.WellFormed) (write : List ℕ)
    (toIdx : ℕ) (hto : toIdx + 3 ≤ write.length)
    (x y : ℕ) (hx : x < read.width) (hy : y < read.height) (xFrom yFrom : α) :
    ((createPixelCopier.nearest read).sample write (x : α) (y : α) toIdx =
      .ok (write.take toIdx ++ (read.data.drop (4 * (y * read.width + x))).take 3 ++
        write.drop (toIdx + 3)) ∧
     ((read.data.drop (4 * (y * read.width + x))).take 3).length = 3) ∧
    ((createPixelCopier.nearest read).sample write xFrom yFrom toIdx =
      .ok (write.take toIdx ++
        (read.data.drop (4 * ((clamp ⌊yFrom + 1 / 2⌋ 0 ((read.height : ℤ) - 1)).toNat * read.width +
          (clamp ⌊xFrom + 1 / 2⌋ 0 ((read.width : ℤ) - 1)).toNat))).take 3 ++
        write.drop (toIdx + 3)) ∧
     ((read.data.drop (4 * ((clamp ⌊yFrom + 1 / 2⌋ 0 ((read.height : ℤ) - 1)).toNat * read.width +
          (clamp ⌊xFrom + 1 / 2⌋ 0 ((read.width : ℤ) - 1)).toNat))).take 3).length = 3) := by
  refine ⟨?_, nearest_sample_eq read hwf write xFrom yFrom toIdx hto⟩
  have h := nearest_sample_eq read hwf write (x : α) (y : α) toIdx hto
  have hfx : ⌊(x : α) + 1 / 2⌋ = (x : ℤ) := jsRound_natCast x
  have hfy : ⌊(y : α) + 1 / 2⌋ = (y : ℤ) := jsRound_natCast y
  rw [hfx, hfy, clamp_of_mem (by omega) (by omega), clamp_of_mem (by omega) (by omega)] at h
  simpa using h

theorem nearest_copies_pixel_witness :
    (ImageData.mk 2 1 [10, 20, 30, 255, 40, 50, 60, 255]).WellFormed ∧
    (createPixelCopier.nearest (ImageData.mk 2 1 [10, 20, 30, 255, 40, 50, 60, 255])).sample
      [0, 0, 0, 255, 0, 0, 0, 255] ((1 : ℕ) : ℚ) ((0 : ℕ) : ℚ) 4 =
      .ok [0, 0, 0, 255, 40, 50, 60, 255] :=
  ⟨by decide,
   (nearest_copies_pixel (ImageData.mk 2 1 [10, 20, 30, 255, 40, 50, 60, 255]) (by decide)
      [0, 0, 0, 255, 0, 0, 0, 255] 4 (by decide) 1 0 (by decide) (by decide) (0 : ℚ) 0).1.1⟩

end NearestTheorems

/-! ## Stores of the three colour channels -/

theorem getByte_readIndex (data : List ℕ) (width : ℕ) {x y : ℤ} (hx : 0 ≤ x) (hy : 0 ≤ y)
    (c : ℕ) :
    getByte data (readIndex width x y + (c : ℤ)) = data[4 * (y.toNat * width + x.toNat) + c]? := by
  obtain ⟨h0, h1⟩ := readIndex_toNat width hx hy c
  rw [getByte_of_nonneg data h0, h1]

theorem set_three_eq (w : List ℕ) (t a b c : ℕ) (h : t + 3 ≤ w.length) :
    ((w.set t a).set (t + 1) b).set (t + 2) c = w.take t ++ [a, b, c] ++ w.drop (t + 3) := by
  apply List.ext_getElem?
  intro i
  have hlen : (List.take t w).length = t := by rw [List.length_take]; omega
  rcases Nat.lt_or_ge i t with h1 | h1
  · rw [List.append_assoc, List.getElem?_append_left (by omega), List.getElem?_take_of_lt h1]
    simp only [List.getElem?_set]
    rw [if_neg (by omega), if_neg (by omega), if_neg (by omega)]
  · rcases Nat.lt_or_ge i (t + 3) with h2 | h2
    · rw [List.append_assoc, List.getElem?_append_right (by omega), hlen,
        List.getElem?_append_left (by simp; omega)]
      simp only [List.getElem?_set, List.length_set]
      obtain rfl | rfl | rfl : i = t ∨ i = t + 1 ∨ i = t + 2 := by omega
      · simp; omega
      · simp; omega
      · simp; omega
    · rw [List.getElem?_append_right (by simp only [List.length_append, hlen]; simp; omega)]
      simp only [List.length_append, hlen, List.getElem?_drop, List.getElem?_set]
      rw [if_neg (by omega), if_neg (by omega), if_neg (by omega)]
      congr 1
      simp
      omega

theorem foldl_setByte_eq (write : List ℕ) (toIdx : ℕ) (f : ℕ → Option ℤ)
    (h : toIdx + 3 ≤ write.length) :
    (List.range 3).foldl (fun w channel => setByte w (toIdx + channel) (f channel)) write =
      write.take toIdx ++ [storedByte (f 0), storedByte (f 1), storedByte (f 2)] ++
        write.drop (toIdx + 3) := by
  have hr : List.range 3 = [0, 1, 2] := rfl
  rw [hr]
  simp only [List.foldl_cons, List.foldl_nil, setByte, add_zero]
  exact set_three_eq write toIdx _ _ _ h

theorem toUint8Clamped_natCast {b : ℕ} (h : b ≤ 255) : toUint8Clamped (b : ℤ) = b := by
  unfold toUint8Clamped
  rw [min_eq_left (by omega), max_eq_right (by omega), Int.toNat_ofNat]

/-! ## Bilinear -/

section BilinearTheorems

variable {α : Type} [LinearOrderedField α] [FloorRing α]

/-- Every pixel inside a well-formed image has its four bytes in the array. -/
theorem pixel_read_some (read : ImageData) (hwf : read.WellFormed) {x y : ℤ}
    (hx0 : 0 ≤ x) (hx1 : x ≤ (read.width : ℤ) - 1) (hy0 : 0 ≤ y) (hy1 : y ≤ (read.height : ℤ) - 1)
    (c : ℕ) (hc : c < 4) :
    ∃ d : ℕ, d ≤ 255 ∧ read.data[4 * (y.toNat * read.width + x.toNat) + c]? = some d ∧
      getByte read.data (readIndex read.width x y + (c : ℤ)) = some d := by
  have hlt : 4 * (y.toNat * read.width + x.toNat) + c < read.data.length := by
    rw [hwf.2.2.1]
    exact pixel_index_lt (by omega) (by omega) hc
  refine ⟨read.data[4 * (y.toNat * read.width + x.toNat) + c], ?_, ?_, ?_⟩
  · exact hwf.2.2.2 _ (List.getElem_mem _)
  · exact List.getElem?_eq_getElem hlt
  · rw [getByte_readIndex read.data read.width hx0 hy0 c]
    exact List.getElem?_eq_getElem hlt

/-- The value of one channel computed by the bilinear strategy on a well-formed image. -/
theorem bilinearChannel_eq (read : ImageData) (hwf : read.WellFormed) (xFrom yFrom : α)
    (c : ℕ) (hc : c < 4) :
    ∃ d00 d10 d01 d11 : ℕ,
      read.data[4 * ((clamp ⌊yFrom⌋ 0 ((read.height : ℤ) - 1)).toNat * read.width +
        (clamp ⌊xFrom⌋ 0 ((read.width : ℤ) - 1)).toNat) + c]? = some d00 ∧
      read.data[4 * ((clamp ⌊yFrom⌋ 0 ((read.height : ℤ) - 1)).toNat * read.width +
        (clamp ⌈xFrom⌉ 0 ((read.width : ℤ) - 1)).toNat) + c]? = some d10 ∧
      read.data[4 * ((clamp ⌈yFrom⌉ 0 ((read.height : ℤ) - 1)).toNat * read.width +
        (clamp ⌊xFrom⌋ 0 ((read.width : ℤ) - 1)).toNat) + c]? = some d01 ∧
      read.data[4 * ((clamp ⌈yFrom⌉ 0 ((read.height : ℤ) - 1)).toNat * read.width +
        (clamp ⌈xFrom⌉ 0 ((read.width : ℤ) - 1)).toNat) + c]? = some d11 ∧
      createPixelCopier.bilinearChannel read xFrom yFrom c =
        some ⌈((d00 : α) * (1 - (xFrom - ((clamp ⌊xFrom⌋ 0 ((read.width : ℤ) - 1) : ℤ) : α))) +
              (d10 : α) * (xFrom - ((clamp ⌊xFrom⌋ 0 ((read.width : ℤ) - 1) : ℤ) : α))) *
            (1 - (yFrom - ((clamp ⌊yFrom⌋ 0 ((read.height : ℤ) - 1) : ℤ) : α))) +
          ((d01 : α) * (1 - (xFrom - ((clamp ⌊xFrom⌋ 0 ((read.width : ℤ) - 1) : ℤ) : α))) +
              (d11 : α) * (xFrom - ((clamp ⌊xFrom⌋ 0 ((read.width : ℤ) - 1) : ℤ) : α))) *
            (yFrom - ((clamp ⌊yFrom⌋ 0 ((read.height : ℤ) - 1) : ℤ) : α))⌉ := by
  have hw : (0 : ℤ) ≤ (read.width : ℤ) - 1 := by have := hwf.1; omega
  have hh : (0 : ℤ) ≤ (read.height : ℤ) - 1 := by have := hwf.2.1; omega
  have hxl := clamp_bounds hw ⌊xFrom⌋
  have hxr := clamp_bounds hw ⌈xFrom⌉
  have hyl := clamp_bounds hh ⌊yFrom⌋
  have hyr := clamp_bounds hh ⌈yFrom⌉
  obtain ⟨d00, -, h00, g00⟩ := pixel_read_some read hwf hxl.1 hxl.2 hyl.1 hyl.2 c hc
  obtain ⟨d10, -, h10, g10⟩ := pixel_read_some read hwf hxr.1 hxr.2 hyl.1 hyl.2 c hc
  obtain ⟨d01, -, h01, g01⟩ := pixel_read_some read hwf hxl.1 hxl.2 hyr.1 hyr.2 c hc
  obtain ⟨d11, -, h11, g11⟩ := pixel_read_some read hwf hxr.1 hxr.2 hyr.1 hyr.2 c hc
  refine ⟨d00, d10, d01, d11, h00, h10, h01, h11, ?_⟩
  unfold createPixelCopier.bilinearChannel
  simp only [g00, g10, g01, g11, Option.bind_eq_bind, Option.some_bind, Option.pure_def]

theorem floor_natCast_add_half (x : ℕ) : ⌊(x : α) + 1 / 2⌋ = (x : ℤ) := jsRound_natCast x

theorem ceil_natCast_add_half (x : ℕ) : ⌈(x : α) + 1 / 2⌉ = (x : ℤ) + 1 := by
  rw [Int.ceil_eq_iff]
  constructor
  · push_cast; linarith
  · push_cast; linarith

/-- C10: for a well-formed source image with horizontally adjacent pixels `(x, y)` and
`(x + 1, y)` whose three colour channels are all `0` and all `100`, the bilinear
strategy called with `(xFrom, yFrom) = (x + 0.5, y)` computes `50` for each colour
channel and stores `50, 50, 50` at `to`. -/
theorem bilinear_midpoint (read : ImageData) (hwf : read.WellFormed) (write : List ℕ)
    (toIdx : ℕ) (hto : toIdx + 3 ≤ write.length) (x y : ℕ)
    (hx : x + 1 < read.width) (hy : y < read.height)
    (h0 : ∀ c, c < 3 → read.data[4 * (y * read.width + x) + c]? = some 0)
    (h100 : ∀ c, c < 3 → read.data[4 * (y * read.width + (x + 1)) + c]? = some 100) :
    (∀ c, c < 3 →
      createPixelCopier.bilinearChannel read ((x : α) + 1 / 2) (y : α) c = some 50) ∧
    (createPixelCopier.bilinear read).sample write ((x : α) + 1 / 2) (y : α) toIdx =
      .ok (write.take toIdx ++ [50, 50, 50] ++ write.drop (toIdx + 3)) := by
  have hch : ∀ c, c < 3 →
      createPixelCopier.bilinearChannel read ((x : α) + 1 / 2) (y : α) c = some 50 := by
    intro c hc
    obtain ⟨d00, d10, d01, d11, h00, h10, h01, h11, hv⟩ :=
      bilinearChannel_eq read hwf ((x : α) + 1 / 2) (y : α) c (by omega)
    have c1 : clamp (x : ℤ) 0 ((read.width : ℤ) - 1) = x := clamp_of_mem (by omega) (by omega)
    have c2 : clamp ((x : ℤ) + 1) 0 ((read.width : ℤ) - 1) = (x : ℤ) + 1 :=
      clamp_of_mem (by omega) (by omega)
    have c3 : clamp (y : ℤ) 0 ((read.height : ℤ) - 1) = y := clamp_of_mem (by omega) (by omega)
    have e1 : ((x : ℤ) + 1).toNat = x + 1 := by omega
    simp only [floor_natCast_add_half, ceil_natCast_add_half, Int.floor_natCast,
      Int.ceil_natCast, c1, c2, c3, Int.toNat_ofNat, e1] at h00 h10 h01 h11 hv
    rw [h0 c hc] at h00 h01
    rw [h100 c hc] at h10 h11
    obtain rfl : 0 = d00 := by simpa using h00
    obtain rfl : 0 = d01 := by simpa using h01
    obtain rfl : 100 = d10 := by simpa using h10
    obtain rfl : 100 = d11 := by simpa using h11
    rw [hv]
    congr 1
    rw [Int.ceil_eq_iff]
    push_cast
    constructor <;> norm_num
  refine ⟨hch, ?_⟩
  show Except.ok _ = _
  rw [foldl_setByte_eq write toIdx _ hto, hch 0 (by norm_num), hch 1 (by norm_num),
    hch 2 (by norm_num)]
  rfl

theorem bilinear_midpoint_witness :
    imageStep.WellFormed ∧
    (createPixelCopier.bilinear imageStep).sample [7, 7, 7, 255] (((0 : ℕ) : ℚ) + 1 / 2)
      ((0 : ℕ) : ℚ) 0 = .ok [50, 50, 50, 255] :=
  ⟨by decide,
   (bilinear_midpoint imageStep (by decide) [7, 7, 7, 255] 0 (by decide) 0 0 (by decide)
      (by decide) (by decide) (by decide)).2⟩

end BilinearTheorems

/-! ## The four strategies leave the rest of the destination alone -/

section Framed

variable {α : Type} [LinearOrderedField α] [FloorRing α]

theorem take_append_drop_frame (write mid : List ℕ) (toIdx : ℕ) (hmid : mid.length = 3)
    (hto : toIdx + 3 ≤ write.length) :
    (write.take toIdx ++ mid ++ write.drop (toIdx + 3)).length = write.length ∧
    (∀ c, c < 3 → (write.take toIdx ++ mid ++ write.drop (toIdx + 3))[toIdx + c]? = mid[c]?) ∧
    ∀ i, i < toIdx ∨ toIdx + 3 ≤ i →
      (write.take toIdx ++ mid ++ write.drop (toIdx + 3))[i]? = write[i]? := by
  obtain ⟨buf, hb, h1, h2, h3⟩ := typedArraySet_spec write mid toIdx (by omega)
  unfold typedArraySet at hb
  rw [if_neg (by omega), hmid] at hb
  rw [Except.ok.injEq] at hb
  subst hb
  refine ⟨h1, fun c hc => h2 c (by omega), fun i hi => h3 i (by omega)⟩

theorem foldl_setByte_framed (write : List ℕ) (toIdx : ℕ) (f : ℕ → Option ℤ)
    (hto : toIdx + 3 ≤ write.length) :
    ∃ buf, (Except.ok ((List.range 3).foldl
        (fun w channel => setByte w (toIdx + channel) (f channel)) write) : Except JsError _) =
          .ok buf ∧
      buf.length = write.length ∧ (∀ i, i < toIdx ∨ toIdx + 3 ≤ i → buf[i]? = write[i]?) := by
  refine ⟨_, rfl, ?_, ?_⟩
  · rw [foldl_setByte_eq write toIdx f hto]
    exact (take_append_drop_frame write
      [storedByte (f 0), storedByte (f 1), storedByte (f 2)] toIdx rfl hto).1
  · rw [foldl_setByte_eq write toIdx f hto]
    exact (take_append_drop_frame write
      [storedByte (f 0), storedByte (f 1), storedByte (f 2)] toIdx rfl hto).2.2

theorem nearest_framed (read : ImageData) (hwf : read.WellFormed) :
    (createPixelCopier.nearest read : Sampler α).Framed := by
  constructor
  · intro write xFrom yFrom toIdx hto
    obtain ⟨h1, h2⟩ := nearest_sample_eq read hwf write xFrom yFrom toIdx hto
    obtain ⟨g1, -, g3⟩ := take_append_drop_frame write _ toIdx h2 hto
    exact ⟨_, h1, g1, g3⟩
  · intro write toIdx hto
    obtain ⟨buf, hb, h1, -, h3⟩ := typedArraySet_spec write [] toIdx (by simp; omega)
    exact ⟨buf, hb, h1, fun i hi => h3 i (by simp at *; omega)⟩

theorem bilinear_framed (read : ImageData) : (createPixelCopier.bilinear read : Sampler α).Framed :=
  ⟨fun write _ _ toIdx hto => foldl_setByte_framed write toIdx _ hto,
   fun write toIdx hto => foldl_setByte_framed write toIdx _ hto⟩

theorem createKernelResampler_framed (read : ImageData) (filterSize : ℕ) (kernel : α → α) :
    (createKernelResampler read filterSize kernel).Framed :=
  ⟨fun write _ _ toIdx hto => foldl_setByte_framed write toIdx _ hto,
   fun write toIdx hto => foldl_setByte_framed write toIdx _ hto⟩

/-- With an available interpolation name the selection yields one of the four samplers. -/
theorem selectCopier_available (M : JSMath α) (interpolation : String) (read : ImageData)
    (h : copierAvailable interpolation) :
    ∃ s : Sampler α, selectCopier M interpolation read = .ok (.fn s) ∧
      (s = createPixelCopier.nearest read ∨ s = createPixelCopier.bilinear read ∨
       s = createPixelCopier.bicubic read ∨ s = createPixelCopier.lanczos M read) := by
  unfold copierAvailable at h
  simp only [List.mem_cons, List.mem_singleton, List.not_mem_nil, or_false, not_or] at h
  unfold selectCopier createPixelCopier
  split_ifs with h1 h2 h3 h4
  · exact ⟨_, rfl, Or.inl rfl⟩
  · exact ⟨_, rfl, Or.inr (Or.inl rfl)⟩
  · exact ⟨_, rfl, Or.inr (Or.inr (Or.inl rfl))⟩
  · exact ⟨_, rfl, Or.inr (Or.inr (Or.inr rfl))⟩
  · unfold Property.notOwn
    split_ifs with h5
    · simp only [List.mem_cons, List.mem_singleton, List.not_mem_nil, or_false]
      rw [if_neg (by tauto), if_neg (by tauto)]
      exact ⟨_, rfl, Or.inl rfl⟩
    · exact ⟨_, rfl, Or.inl rfl⟩

theorem selected_framed (M : JSMath α) (read : ImageData) (hwf : read.WellFormed) (s : Sampler α)
    (h : s = createPixelCopier.nearest read ∨ s = createPixelCopier.bilinear read ∨
       s = createPixelCopier.bicubic read ∨ s = createPixelCopier.lanczos M read) :
    s.Framed := by
  rcases h with rfl | rfl | rfl | rfl
  · exact nearest_framed read hwf
  · exact bilinear_framed read
  · exact createKernelResampler_framed read 2 _
  · exact createKernelResampler_framed read 5 _

end Framed

/-! ## The render loop -/

theorem callOrientation_callable {α : Type} [LinearOrderedField α] (face : String) (h : faceCallable face) (cube : Vec3 α)
    (x y : α) : ∃ cube', callOrientation (faceOrientations face) cube x y = .ok cube' := by
  unfold faceCallable at h
  simp only [List.mem_cons, List.mem_singleton, List.not_mem_nil, or_false] at h
  rcases h with rfl | rfl | rfl | rfl | rfl | rfl | rfl | rfl <;>
    exact ⟨_, by simp [callOrientation, faceOrientations, Property.notOwn, objectPrototypeKeys]; rfl⟩

section Loop

variable {α : Type} [LinearOrderedField α] [FloorRing α]

/-- An invariant carried through a loop `for (i = 0; i < n; i++)` whose body may raise. -/
theorem foldlM_range_inv {σ ε : Type} (f : σ → ℕ → Except ε σ) (I : ℕ → σ → Prop) (n : ℕ)
    (s0 : σ) (h0 : I 0 s0)
    (hstep : ∀ i s, i < n → I i s → ∃ s', f s i = .ok s' ∧ I (i + 1) s') :
    ∃ s, (List.range n).foldlM f s0 = .ok s ∧ I n s := by
  induction n with
  | zero => exact ⟨s0, rfl, h0⟩
  | succ n ih =>
    obtain ⟨s, hs, hI⟩ := ih (fun i s hi => hstep i s (by omega))
    obtain ⟨s', hs', hI'⟩ := hstep n s (by omega) hI
    refine ⟨s', ?_, hI'⟩
    rw [List.range_succ, List.foldlM_append, hs]
    show (List.foldlM f s [n]) = _
    rw [List.foldlM_cons, hs']
    rfl

/-- The loops of `renderFace`: if each pixel step returns normally, keeps the length,
changes only the four bytes of its pixel and establishes `P` there, then the loops
return normally and `P` holds at every pixel. -/
theorem renderLoop_spec (M : JSMath α) (read : ImageData) (rotation : α)
    (orientation : Property (Orientation α)) (copyPixel : CopyPixel α) (n : ℕ)
    (P : ℕ → List ℕ → Prop)
    (hP : ∀ k buf buf', (∀ c, c < 4 → buf'[4 * k + c]? = buf[4 * k + c]?) → P k buf → P k buf')
    (hstep : ∀ y x (st : Vec3 α × List ℕ), y < n → x < n → st.2.length = 4 * n * n →
      ∃ st', renderPixel M read rotation orientation copyPixel n n y x st = .ok st' ∧
        st'.2.length = 4 * n * n ∧
        (∀ i, i < 4 * (y * n + x) ∨ 4 * (y * n + x) + 4 ≤ i → st'.2[i]? = st.2[i]?) ∧
        P (y * n + x) st'.2)
    (st0 : Vec3 α × List ℕ) (hlen : st0.2.length = 4 * n * n) :
    ∃ st, renderLoop M read rotation orientation copyPixel n n st0 = .ok st ∧
      st.2.length = 4 * n * n ∧ ∀ k, k < n * n → P k st.2 := by
  unfold renderLoop
  have houter := foldlM_range_inv
    (fun st y => (List.range n).foldlM
      (fun st x => renderPixel M read rotation orientation copyPixel n n y x st) st)
    (fun y (st : Vec3 α × List ℕ) => st.2.length = 4 * n * n ∧ ∀ k, k < y * n → P k st.2)
    n st0 ⟨hlen, fun k hk => by simp at hk⟩ ?_
  · obtain ⟨st, h1, h2, h3⟩ := houter
    exact ⟨st, h1, h2, h3⟩
  · intro y st hy hI
    have hinner := foldlM_range_inv
      (fun st x => renderPixel M read rotation orientation copyPixel n n y x st)
      (fun x (st : Vec3 α × List ℕ) =>
        st.2.length = 4 * n * n ∧ ∀ k, k < y * n + x → P k st.2)
      n st ⟨hI.1, fun k hk => hI.2 k (by omega)⟩ ?_
    · obtain ⟨st', h1, h2, h3⟩ := hinner
      refine ⟨st', h1, h2, fun k hk => h3 k ?_⟩
      have : (y + 1) * n = y * n + n := by ring
      omega
    · intro x st1 hx hI1
      obtain ⟨st', h1, h2, h3, h4⟩ := hstep y x st1 hy hx hI1.1
      refine ⟨st', h1, h2, ?_⟩
      intro k hk
      rcases Nat.lt_or_ge k (y * n + x) with hlt | hge
      · exact hP k st1.2 st'.2 (fun c hc => h3 _ (Or.inl (by omega))) (hI1.2 k hlt)
      · obtain rfl : k = y * n + x := by omega
        exact h4

/-- Unfolding of `renderFace` once the image is allocated, the sampler selected and
the loops have returned. -/
theorem renderFace_of_loop (M : JSMath α) (req : RenderRequest α) (copyPixel : CopyPixel α)
    (st : Vec3 α × List ℕ)
    (hn : 1 ≤ faceSize req.maxWidth req.data.width)
    (hsel : selectCopier M (req.interpolation.getD "lanczos") req.data = .ok copyPixel)
    (hloop : renderLoop M req.data req.rotation (faceOrientations req.face) copyPixel
      (faceSize req.maxWidth req.data.width) (faceSize req.maxWidth req.data.width)
      ({ x := 0, y := 0, z := 0 },
        List.replicate (4 * faceSize req.maxWidth req.data.width *
          faceSize req.maxWidth req.data.width) 0) = .ok st) :
    renderFace M req = .ok {
      data := { width := faceSize req.maxWidth req.data.width,
                height := faceSize req.maxWidth req.data.width,
                data := st.2 }
      width := faceSize req.maxWidth req.data.width
      height := faceSize req.maxWidth req.data.width
      isPreview := req.maxWidth.isSome } := by
  unfold renderFace ImageData.create
  have h0 : ¬ (faceSize req.maxWidth req.data.width = 0 ∨
      faceSize req.maxWidth req.data.width = 0) := by omega
  simp only [h0, if_false]
  show (do
    let copyPixel ← selectCopier M (req.interpolation.getD "lanczos") req.data
    let st ← renderLoop M req.data req.rotation (faceOrientations req.face) copyPixel _ _ _
    pure _) = _
  rw [hsel]
  show (do
    let st ← renderLoop M req.data req.rotation (faceOrientations req.face) copyPixel _ _ _
    pure _) = _
  rw [hloop]
  rfl

theorem renderPixel_framed (M : JSMath α) (read : ImageData) (rotation : α)
    (orientation : Property (Orientation α)) (s : Sampler α) (hs : s.Framed)
    (horient : ∀ cube x y, ∃ cube', callOrientation orientation cube x y = .ok cube')
    (n y x : ℕ) (hy : y < n) (hx : x < n) (st : Vec3 α × List ℕ)
    (hlen : st.2.length = 4 * n * n) :
    ∃ st', renderPixel M read rotation orientation (.fn s) n n y x st = .ok st' ∧
      st'.2.length = 4 * n * n ∧
      (∀ i, i < 4 * (y * n + x) ∨ 4 * (y * n + x) + 4 ≤ i → st'.2[i]? = st.2[i]?) ∧
      st'.2[4 * (y * n + x) + 3]? = some 255 := by
  have hlt : 4 * (y * n + x) + 3 < 4 * n * n := pixel_index_lt hx hy (by norm_num)
  obtain ⟨cube', hc⟩ := horient st.1 (2 / (n : α) * ((x : α) + 1 / 2) - 1)
    (2 / (n : α) * ((y : α) + 1 / 2) - 1)
  have hlen' : (st.2.set (4 * (y * n + x) + 3) 255).length = 4 * n * n := by
    rw [List.length_set, hlen]
  have hset : ∀ i, i ≠ 4 * (y * n + x) + 3 →
      (st.2.set (4 * (y * n + x) + 3) 255)[i]? = st.2[i]? := by
    intro i hi
    rw [List.getElem?_set_ne (Ne.symm hi)]
  have halpha : (st.2.set (4 * (y * n + x) + 3) 255)[4 * (y * n + x) + 3]? = some 255 := by
    rw [List.getElem?_set_self]
    omega
  unfold renderPixel
  simp only [hc]
  by_cases hr : M.sqrt (cube'.x * cube'.x + cube'.y * cube'.y + cube'.z * cube'.z) = 0
  · obtain ⟨buf, hb, h1, h2⟩ := hs.2 (st.2.set (4 * (y * n + x) + 3) 255) (4 * (y * n + x))
      (by omega)
    refine ⟨(cube', buf), ?_, (by show buf.length = _; omega), ?_, ?_⟩
    · show (if _ then _ else _) = _
      rw [if_pos hr]
      show (do let data ← s.sampleNaN _ _; pure (cube', data)) = _
      rw [hb]
      rfl
    · intro i hi
      rw [h2 i (by omega), hset i (by omega)]
    · show buf[_]? = _
      rw [h2 _ (by omega), halpha]
  · obtain ⟨buf, hb, h1, h2⟩ := hs.1 (st.2.set (4 * (y * n + x) + 3) 255)
      (longitude M cube' rotation * ((read.width : α) / (2 * M.PI)) - 1 / 2)
      (M.acos (cube'.z / M.sqrt (cube'.x * cube'.x + cube'.y * cube'.y + cube'.z * cube'.z)) *
        ((read.height : α) / M.PI) - 1 / 2)
      (4 * (y * n + x)) (by omega)
    refine ⟨(cube', buf), ?_, (by show buf.length = _; omega), ?_, ?_⟩
    · show (if _ then _ else _) = _
      rw [if_neg hr]
      show (do let data ← s.sample _ _ _ _; pure (cube', data)) = _
      rw [hb]
      rfl
    · intro i hi
      rw [h2 i (by omega), hset i (by omega)]
    · show buf[_]? = _
      rw [h2 _ (by omega), halpha]

end Loop

/-! ## `renderFace`: result, size and preview flag -/

section RenderFace

variable {α : Type} [LinearOrderedField α] [FloorRing α]

/-- On a well-formed source, with a face size of at least one, a callable face and an
available interpolation, `renderFace` posts a square image of the face size whose
alpha bytes are all `255`. -/
theorem renderFace_ok (M : JSMath α) (req : RenderRequest α) (hwf : req.data.WellFormed)
    (hn : 1 ≤ faceSize req.maxWidth req.data.width) (hface : faceCallable req.face)
    (hint : copierAvailable (req.interpolation.getD "lanczos")) :
    ∃ data : List ℕ,
      renderFace M req = .ok {
        data := { width := faceSize req.maxWidth req.data.width,
                  height := faceSize req.maxWidth req.data.width,
                  data := data }
        width := faceSize req.maxWidth req.data.width
        height := faceSize req.maxWidth req.data.width
        isPreview := req.maxWidth.isSome } ∧
      data.length = 4 * faceSize req.maxWidth req.data.width *
        faceSize req.maxWidth req.data.width ∧
      ∀ k, k < faceSize req.maxWidth req.data.width * faceSize req.maxWidth req.data.width →
        data[4 * k + 3]? = some 255 := by
  obtain ⟨s, hsel, hs⟩ := selectCopier_available M (req.interpolation.getD "lanczos") req.data hint
  have hfr := selected_framed M req.data hwf s hs
  obtain ⟨st, hloop, hlen, hP⟩ := renderLoop_spec M req.data req.rotation
    (faceOrientations req.face) (.fn s) (faceSize req.maxWidth req.data.width)
    (fun k buf => buf[4 * k + 3]? = some 255)
    (fun k buf buf' h hb => by
      show buf'[4 * k + 3]? = some 255
      rw [h 3 (by norm_num)]; exact hb)
    (fun y x st hy hx hl =>
      renderPixel_framed M req.data req.rotation _ s hfr
        (callOrientation_callable req.face hface) _ y x hy hx st hl)
    ({ x := 0, y := 0, z := 0 },
      List.replicate (4 * faceSize req.maxWidth req.data.width *
        faceSize req.maxWidth req.data.width) 0) (by simp)
  exact ⟨st.2, renderFace_of_loop M req (.fn s) st hn hsel hloop, hlen, hP⟩

/-- Every result of `renderFace` has the face size as `width` and `height`, and the
preview flag tells whether a finite `maxWidth` was passed. -/
theorem renderFace_result (M : JSMath α) (req : RenderRequest α) (r : RenderResult)
    (h : renderFace M req = .ok r) :
    r.width = faceSize req.maxWidth req.data.width ∧
    r.height = faceSize req.maxWidth req.data.width ∧
    r.data.width = faceSize req.maxWidth req.data.width ∧
    r.data.height = faceSize req.maxWidth req.data.width ∧
    r.isPreview = req.maxWidth.isSome ∧
    1 ≤ faceSize req.maxWidth req.data.width := by
  unfold renderFace ImageData.create at h
  by_cases h0 : faceSize req.maxWidth req.data.width = 0 ∨
      faceSize req.maxWidth req.data.width = 0
  · simp only [h0, if_true] at h
    cases h
  · simp only [h0, if_false] at h
    cases hsel : selectCopier M (req.interpolation.getD "lanczos") req.data with
    | error e =>
      rw [hsel] at h
      cases h
    | ok cp =>
      rw [hsel] at h
      simp only [bind, Except.bind] at h
      split at h
      · cases h
      · have h' : r = _ := (Except.ok.inj h).symm
        subst h'
        exact ⟨rfl, rfl, rfl, rfl, rfl, by omega⟩

end RenderFace

/-! ## `renderFace`: the preview flag, the size and the interpolation fallback -/

section RenderFaceClaims

variable {α : Type} [LinearOrderedField α] [FloorRing α]

theorem image400_wellFormed : image400.WellFormed := by
  refine ⟨by decide, by decide, List.length_replicate _ _, ?_⟩
  intro b hb
  have := (List.mem_replicate.mp hb).2
  omega

/-- C1, as stated, fails: for a source of width 400 and `maxWidth = 500` the cap
exceeds the natural face size `100` and is not applied, yet `isPreview` is `true`. -/
theorem isPreview_cap_500 :
    ∃ r, renderFace realMath
        { data := image400, face := "pz", rotation := 0, interpolation := some "nearest",
          maxWidth := some 500 } = .ok r ∧
      r.width = 100 ∧ ¬ (500 < 400 / 4) ∧ r.isPreview = true := by
  obtain ⟨data, h, -⟩ := renderFace_ok realMath
    { data := image400, face := "pz", rotation := 0, interpolation := some "nearest",
      maxWidth := some 500 } image400_wellFormed (by decide) (by decide) (by decide)
  exact ⟨_, h, (by show faceSize (some 500) 400 = 100; decide), by decide, rfl⟩

/-- C1, amended: for every render request, the `isPreview` flag of the result of
`renderFace` is true iff a finite `maxWidth` was passed, whether or not it is smaller
than the natural face size `floor(sourceWidth / 4)`. -/
theorem renderFace_isPreview (M : JSMath α) (req : RenderRequest α) (r : RenderResult)
    (h : renderFace M req = .ok r) : (r.isPreview = true ↔ req.maxWidth ≠ none) := by
  rw [(renderFace_result M req r h).2.2.2.2.1]
  cases req.maxWidth <;> simp

theorem renderFace_isPreview_witness :
    ∃ r, renderFace realMath
        { data := image400, face := "pz", rotation := 0, interpolation := some "nearest",
          maxWidth := some 50 } = .ok r ∧
      (r.isPreview = true ↔ some 50 ≠ (none : Option ℕ)) := by
  obtain ⟨data, h, -⟩ := renderFace_ok realMath
    { data := image400, face := "pz", rotation := 0, interpolation := some "nearest",
      maxWidth := some 50 } image400_wellFormed (by decide) (by decide) (by decide)
  exact ⟨_, h, renderFace_isPreview realMath _ _ h⟩

/-- C4, as stated, fails: for a source of width 3 the face size is `floor(3 / 4) = 0`,
`new ImageData(0, 0)` is rejected and no destination image is produced. -/
theorem renderFace_width_three :
    image3.WellFormed ∧ faceSize none image3.width = 0 ∧
    renderFace realMath
      { data := image3, face := "pz", rotation := 0, interpolation := some "nearest",
        maxWidth := none } = .error .indexSizeError := by
  refine ⟨by decide, by decide, ?_⟩
  simp [renderFace, faceSize, ImageData.create, image3]
  rfl

/-- C4, amended: for every well-formed source of width `W` and every optional cap `M`
with `min(M, floor(W / 4)) ≥ 1` (`M` unbounded when absent), a callable face and an
available interpolation, `renderFace` produces a square destination image whose width
and height both equal `min(M, floor(W / 4))` and whose buffer has `4 * width * height`
bytes. -/
theorem renderFace_size (M : JSMath α) (req : RenderRequest α) (hwf : req.data.WellFormed)
    (hn : 1 ≤ faceSize req.maxWidth req.data.width) (hface : faceCallable req.face)
    (hint : copierAvailable (req.interpolation.getD "lanczos")) :
    ∃ r, renderFace M req = .ok r ∧
      r.width = (match req.maxWidth with
        | none => req.data.width / 4
        | some m => min m (req.data.width / 4)) ∧
      r.height = r.width ∧ r.data.width = r.width ∧ r.data.height = r.height ∧
      r.data.data.length = 4 * r.width * r.height := by
  obtain ⟨data, h, hlen, -⟩ := renderFace_ok M req hwf hn hface hint
  exact ⟨_, h, rfl, rfl, rfl, rfl, hlen⟩

theorem renderFace_size_witness :
    (∃ r, renderFace realMath
        { data := image400, face := "pz", rotation := 0, interpolation := none,
          maxWidth := none } = .ok r ∧
      r.width = 100 ∧ r.height = 100 ∧ r.data.data.length = 4 * 100 * 100) ∧
    (∃ r, renderFace realMath
        { data := image400, face := "pz", rotation := 0, interpolation := none,
          maxWidth := some 50 } = .ok r ∧
      r.width = 50 ∧ r.height = 50 ∧ r.data.data.length = 4 * 50 * 50) ∧
    (∃ r, renderFace realMath
        { data := image400, face := "pz", rotation := 0, interpolation := none,
          maxWidth := some 500 } = .ok r ∧
      r.width = 100 ∧ r.height = 100 ∧ r.data.data.length = 4 * 100 * 100) := by
  refine ⟨?_, ?_, ?_⟩
  · obtain ⟨r, h, h1, h2, -, -, h5⟩ := renderFace_size realMath
      { data := image400, face := "pz", rotation := 0, interpolation := none,
        maxWidth := none } image400_wellFormed (by decide) (by decide) (by decide)
    have hw : r.width = 100 := h1
    exact ⟨r, h, hw, by rw [h2, hw], by rw [h5, h2, hw]⟩
  · obtain ⟨r, h, h1, h2, -, -, h5⟩ := renderFace_size realMath
      { data := image400, face := "pz", rotation := 0, interpolation := none,
        maxWidth := some 50 } image400_wellFormed (by decide) (by decide) (by decide)
    have hw : r.width = 50 := h1
    exact ⟨r, h, hw, by rw [h2, hw], by rw [h5, h2, hw]⟩
  · obtain ⟨r, h, h1, h2, -, -, h5⟩ := renderFace_size realMath
      { data := image400, face := "pz", rotation := 0, interpolation := none,
        maxWidth := some 500 } image400_wellFormed (by decide) (by decide) (by decide)
    have hw : r.width = 100 := h1
    exact ⟨r, h, hw, by rw [h2, hw], by rw [h5, h2, hw]⟩

/-- A name with no member in `createPixelCopier` or `Object.prototype` is rendered
exactly as `'nearest'`. -/
theorem renderFace_unrecognised (M : JSMath α) (req : RenderRequest α) (name : String)
    (h1 : name ∉ ["nearest", "bilinear", "bicubic", "lanczos"])
    (h2 : name ∉ objectPrototypeKeys) :
    renderFace M { req with interpolation := some name } =
      renderFace M { req with interpolation := some "nearest" } := by
  simp only [List.mem_cons, List.mem_singleton, List.not_mem_nil, or_false, not_or] at h1
  have hsel : selectCopier M name req.data = selectCopier M "nearest" req.data := by
    simp [selectCopier, createPixelCopier, Property.notOwn, h1, h2]
  unfold renderFace
  simp only [Option.getD_some, hsel]

/-- C5, the code at the failing input: with the interpolation name `'constructor'`,
which is not one of the four strategies, `createPixelCopier[interpolation]` is the
inherited `Object`, whose result is not a function; the first call of `copyPixel`
raises a `TypeError`, while the same request with `'nearest'` returns an image. -/
theorem interpolation_constructor_raises :
    "constructor" ∉ ["nearest", "bilinear", "bicubic", "lanczos"] ∧
    image4.WellFormed ∧
    renderFace realMath
      { data := image4, face := "pz", rotation := 0, interpolation := some "constructor",
        maxWidth := none } = .error .typeError ∧
    ∃ r, renderFace realMath
      { data := image4, face := "pz", rotation := 0, interpolation := some "nearest",
        maxWidth := none } = .ok r := by
  refine ⟨by decide, by decide, ?_, ?_⟩
  · simp [renderFace, faceSize, ImageData.create, image4, selectCopier, createPixelCopier,
      Property.notOwn, objectPrototypeKeys, renderLoop, renderPixel, callOrientation,
      faceOrientations]
    rfl
  · obtain ⟨data, h, -⟩ := renderFace_ok realMath
      { data := image4, face := "pz", rotation := 0, interpolation := some "nearest",
        maxWidth := none } (by decide) (by decide) (by decide) (by decide)
    exact ⟨_, h⟩

end RenderFaceClaims

/-! ## Stores into a `Float32Array` -/

section Float32

variable {α : Type} [LinearOrderedField α] [FloorRing α]

theorem roundTiesToEven_error (x : α) : |((roundTiesToEven x : ℤ) : α) - x| ≤ 1 / 2 := by
  have h0 := Int.fract_nonneg x
  have h1 := Int.fract_lt_one x
  have hx : x = (⌊x⌋ : α) + Int.fract x := (Int.floor_add_fract x).symm
  unfold roundTiesToEven
  rw [abs_le]
  split_ifs with a b c
  · constructor <;> linarith
  · push_cast; constructor <;> linarith
  · constructor <;> linarith
  · push_cast; constructor <;> linarith

theorem roundTiesToEven_of_near (x : α) (n : ℤ) (h : |x - (n : α)| < 1 / 2) :
    roundTiesToEven x = n := by
  rw [abs_lt] at h
  unfold roundTiesToEven
  rcases le_or_lt (n : α) x with hle | hlt
  · have hf : ⌊x⌋ = n := by
      rw [Int.floor_eq_iff]
      constructor <;> linarith
    have hfr : Int.fract x = x - n := by
      unfold Int.fract
      rw [hf]
    rw [if_pos (by rw [hfr]; linarith), hf]
  · have hf : ⌊x⌋ = n - 1 := by
      rw [Int.floor_eq_iff]
      push_cast
      constructor <;> linarith
    have hfr : Int.fract x = x - n + 1 := by
      unfold Int.fract
      rw [hf]
      push_cast
      ring
    rw [if_neg (by rw [hfr]; linarith), if_pos (by rw [hfr]; linarith), hf]
    ring

/-- A tie goes to the even neighbour. -/
theorem roundTiesToEven_of_tie (x : α) (n : ℤ) (hn : n % 2 = 0) (h : |x - (n : α)| = 1 / 2) :
    roundTiesToEven x = n := by
  unfold roundTiesToEven
  rcases (abs_eq (by norm_num : (0 : α) ≤ 1 / 2)).mp h with h | h
  · have hf : ⌊x⌋ = n := by
      rw [Int.floor_eq_iff]
      constructor <;> linarith
    have hfr : Int.fract x = 1 / 2 := by
      unfold Int.fract
      rw [hf]
      exact h
    rw [hfr, if_neg (lt_irrefl _), if_neg (lt_irrefl _), hf, if_pos hn]
  · have hf : ⌊x⌋ = n - 1 := by
      rw [Int.floor_eq_iff]
      push_cast
      constructor <;> linarith
    have hfr : Int.fract x = 1 / 2 := by
      unfold Int.fract
      rw [hf]
      push_cast
      linarith
    rw [hfr, if_neg (lt_irrefl _), if_neg (lt_irrefl _), hf, if_neg (by omega)]
    ring

theorem roundTiesToEven_intCast (n : ℤ) : roundTiesToEven (n : α) = n :=
  roundTiesToEven_of_near _ n (by simp)

theorem toFloat32_zero : toFloat32 (0 : α) = 0 := by
  unfold toFloat32
  simp only [zero_div]
  have := @roundTiesToEven_intCast α _ _ 0
  rw [Int.cast_zero] at this
  rw [this]
  simp

theorem two_zpow_pos {β : Type} [LinearOrderedField β] (k : ℤ) : (0 : β) < 2 ^ k :=
  zpow_pos (by norm_num) k

theorem log_two_eq (x : α) (e : ℤ) (h1 : 2 ^ e ≤ |x|) (h2 : |x| < 2 ^ (e + 1)) :
    Int.log 2 |x| = e := by
  have hpos : (0 : α) < |x| := lt_of_lt_of_le (two_zpow_pos e) h1
  have a : e ≤ Int.log 2 |x| := by
    rw [← Int.zpow_le_iff_le_log (by norm_num) hpos]
    exact_mod_cast h1
  have b : Int.log 2 |x| < e + 1 := by
    rw [← Int.lt_zpow_iff_log_lt (by norm_num) hpos]
    exact_mod_cast h2
  omega

/-- Evaluation of the conversion at a number of the normal range, from its binade
`2 ^ e ≤ |x| < 2 ^ (e + 1)` and the rounded multiple of the unit in the last place. -/
theorem toFloat32_eval (x : α) (e n : ℤ) (he : -126 ≤ e) (h1 : 2 ^ e ≤ |x|)
    (h2 : |x| < 2 ^ (e + 1)) (hn : roundTiesToEven (x / 2 ^ (e - 23)) = n) :
    toFloat32 x = (n : α) * 2 ^ (e - 23) := by
  unfold toFloat32
  simp only
  rw [log_two_eq x e h1 h2, max_eq_left he, hn]

/-- A number `m * 2 ^ k` with `|m| < 2 ^ 24` and `k ≥ -149` is a binary32 value. -/
theorem toFloat32_representable (m k : ℤ) (hm : |m| < 2 ^ 24) (hk : -149 ≤ k) :
    toFloat32 ((m : α) * 2 ^ k) = (m : α) * 2 ^ k := by
  rcases eq_or_ne m 0 with rfl | hm0
  · simp [toFloat32_zero]
  have h2 : (2 : α) ≠ 0 := by norm_num
  have hpos : (0 : α) < |(m : α) * 2 ^ k| := by
    rw [abs_pos]
    exact mul_ne_zero (Int.cast_ne_zero.mpr hm0) (two_zpow_pos k).ne'
  have hlt : |(m : α) * 2 ^ k| < 2 ^ (24 + k) := by
    rw [abs_mul, abs_of_pos (@two_zpow_pos α _ k), zpow_add₀ h2]
    apply mul_lt_mul_of_pos_right _ (two_zpow_pos k)
    have : ((|m| : ℤ) : α) < ((2 ^ 24 : ℤ) : α) := Int.cast_lt.mpr hm
    rw [Int.cast_abs] at this
    push_cast at this
    exact_mod_cast this
  have hL : Int.log 2 |(m : α) * 2 ^ k| < 24 + k := by
    rw [← Int.lt_zpow_iff_log_lt (by norm_num) hpos]
    exact_mod_cast hlt
  unfold toFloat32
  simp only
  generalize Int.log 2 |(m : α) * 2 ^ k| = L at hL
  obtain ⟨j, hj⟩ : ∃ j : ℕ, (j : ℤ) = k - (max L (-126) - 23) :=
    ⟨(k - (max L (-126) - 23)).toNat, Int.toNat_of_nonneg (by omega)⟩
  have hq : (m : α) * 2 ^ k / 2 ^ (max L (-126) - 23) = ((m * 2 ^ j : ℤ) : α) := by
    rw [mul_div_assoc, ← zpow_sub₀ h2, ← hj, zpow_natCast]
    push_cast
    ring
  rw [hq, roundTiesToEven_intCast]
  push_cast
  rw [mul_assoc, ← zpow_natCast, hj, ← zpow_add₀ h2]
  congr 2
  ring

/-- The relative error of the conversion is at most `2 ^ -24`, up to the absolute error
`2 ^ -150` of the subnormal range. -/
theorem toFloat32_error (x : α) : |toFloat32 x - x| ≤ |x| / 2 ^ 24 + 1 / 2 ^ 150 := by
  rcases eq_or_ne x 0 with rfl | hx
  · rw [toFloat32_zero]
    simp
  have h2 : (2 : α) ≠ 0 := by norm_num
  have hpos : (0 : α) < |x| := abs_pos.mpr hx
  have hlog : (2 : α) ^ Int.log 2 |x| ≤ |x| := by
    have := @Int.zpow_log_le_self α _ _ 2 |x| (by norm_num) hpos
    exact_mod_cast this
  unfold toFloat32
  simp only
  generalize Int.log 2 |x| = L at hlog
  have hu := @two_zpow_pos α _ (max L (-126) - 23)
  have herr := roundTiesToEven_error (x / 2 ^ (max L (-126) - 23))
  have e1 : ((roundTiesToEven (x / 2 ^ (max L (-126) - 23)) : ℤ) : α) * 2 ^ (max L (-126) - 23) - x
      = (((roundTiesToEven (x / 2 ^ (max L (-126) - 23)) : ℤ) : α) -
          x / 2 ^ (max L (-126) - 23)) * 2 ^ (max L (-126) - 23) := by
    field_simp
  rw [e1, abs_mul, abs_of_pos hu]
  have hb : |((roundTiesToEven (x / 2 ^ (max L (-126) - 23)) : ℤ) : α) -
      x / 2 ^ (max L (-126) - 23)| * 2 ^ (max L (-126) - 23) ≤
      1 / 2 * 2 ^ (max L (-126) - 23) := mul_le_mul_of_nonneg_right herr hu.le
  refine le_trans hb ?_
  have hhalf : (1 : α) / 2 * 2 ^ (max L (-126) - 23) = 2 ^ (max L (-126)) / 2 ^ (24 : ℕ) := by
    rw [zpow_sub₀ h2, zpow_ofNat]
    ring
  rw [hhalf]
  rcases le_total L (-126) with hL | hL
  · rw [max_eq_right hL]
    have : (2 : α) ^ (-126 : ℤ) / 2 ^ (24 : ℕ) = 1 / 2 ^ 150 := by
      rw [zpow_neg, zpow_ofNat, inv_eq_one_div, div_div, ← pow_add]
    rw [this]
    have : (0 : α) ≤ |x| / 2 ^ 24 := by positivity
    linarith
  · rw [max_eq_left hL]
    have : (2 : α) ^ L / 2 ^ (24 : ℕ) ≤ |x| / 2 ^ 24 :=
      div_le_div_of_nonneg_right hlog (by positivity)
    have : (0 : α) ≤ 1 / 2 ^ 150 := by positivity
    linarith

end Float32

/-! ## Kernel resampler: sums -/

section KernelSums

variable {α : Type} [LinearOrderedField α]

theorem foldl_add_eq_sum (l : List α) (a : α) :
    l.foldl (fun sum val => sum + val) a = a + l.sum := by
  induction l generalizing a with
  | nil => simp
  | cons x xs ih => rw [List.foldl_cons, ih, List.sum_cons]; ring

theorem kernelSum_eq_sum (values : List α) : kernelSum values = values.sum := by
  unfold kernelSum
  rw [foldl_add_eq_sum, zero_add]

theorem sum_map_div (l : List α) (s : α) : (l.map (fun v => v / s)).sum = l.sum / s := by
  induction l with
  | nil => simp
  | cons x xs ih => rw [List.map_cons, List.sum_cons, ih, List.sum_cons, add_div]

theorem sum_map_mul_left (n : ℕ) (a : α) (f : ℕ → α) :
    ((List.range n).map (fun j => a * f j)).sum = a * ((List.range n).map f).sum := by
  induction n with
  | zero => simp
  | succ n ih =>
    rw [List.range_succ, List.map_append, List.map_append, List.sum_append, List.sum_append, ih]
    simp only [List.map_cons, List.map_nil, List.sum_cons, List.sum_nil, add_zero]
    ring

theorem sum_map_mul_right (n : ℕ) (a : α) (f : ℕ → α) :
    ((List.range n).map (fun j => f j * a)).sum = ((List.range n).map f).sum * a := by
  induction n with
  | zero => simp
  | succ n ih =>
    rw [List.range_succ, List.map_append, List.map_append, List.sum_append, List.sum_append, ih]
    simp only [List.map_cons, List.map_nil, List.sum_cons, List.sum_nil, add_zero]
    ring

theorem map_getD_range (l : List α) : (List.range l.length).map (fun j => l.getD j 0) = l := by
  apply List.ext_getElem?
  intro n
  rw [List.getElem?_map]
  rcases Nat.lt_or_ge n l.length with h | h
  · rw [List.getElem?_range h, Option.map_some', List.getD_eq_getElem?_getD,
      List.getElem?_eq_getElem h]
    rfl
  · rw [List.getElem?_eq_none (by simpa using h), List.getElem?_eq_none h]
    rfl

/-- A loop accumulating `p += g(j, d)` over reads `d` that all succeed. -/
theorem foldl_option_sum {β : Type} (rd : ℕ → Option β) (g : ℕ → β → α) (d : ℕ → β) (n : ℕ)
    (h : ∀ j, j < n → rd j = some (d j)) (a : α) :
    (List.range n).foldl
      (fun (p : Option α) (j : ℕ) => (rd j).bind fun x => p.bind fun p => some (p + g j x))
      (some a) = some (a + ((List.range n).map (fun j => g j (d j))).sum) := by
  induction n with
  | zero => simp
  | succ n ih =>
    rw [List.range_succ, List.foldl_append, ih (fun j hj => h j (by omega)), List.map_append,
      List.sum_append]
    simp only [List.foldl_cons, List.foldl_nil, h n (by omega), Option.some_bind, List.map_cons,
      List.map_nil, List.sum_cons, List.sum_nil, add_zero, add_assoc]

theorem getByte_channel (read : ImageData) (hwf : read.WellFormed) {x y : ℤ}
    (hx0 : 0 ≤ x) (hx1 : x ≤ (read.width : ℤ) - 1) (hy0 : 0 ≤ y) (hy1 : y ≤ (read.height : ℤ) - 1)
    (c : ℕ) (hc : c < 4) :
    getByte read.data (readIndex read.width x y + (c : ℤ)) = some (read.channel x y c) ∧
    read.data[4 * (y.toNat * read.width + x.toNat) + c]? = some (read.channel x y c) ∧
    read.channel x y c ≤ 255 := by
  obtain ⟨d, hd, h1, h2⟩ := pixel_read_some read hwf hx0 hx1 hy0 hy1 c hc
  have : read.channel x y c = d := by
    unfold ImageData.channel
    rw [List.getD_eq_getElem?_getD, h1]
    rfl
  rw [this]
  exact ⟨h2, h1, hd⟩

/-- The inner loop of the kernel resampler on a well-formed image. -/
theorem kernelRow_eq (read : ImageData) (hwf : read.WellFormed) (filterSize : ℕ)
    (xKernel : List α) (xStart : ℤ) {y : ℤ} (hy0 : 0 ≤ y) (hy1 : y ≤ (read.height : ℤ) - 1)
    (c : ℕ) (hc : c < 4) :
    kernelRow read filterSize xKernel xStart y c =
      some (((List.range (2 * filterSize)).map (fun (j : ℕ) =>
        (read.channel (clamp (xStart + (j : ℤ)) 0 ((read.width : ℤ) - 1)) y c : α) *
          xKernel.getD j 0)).sum) := by
  have hw : (0 : ℤ) ≤ (read.width : ℤ) - 1 := by have := hwf.1; omega
  have h := foldl_option_sum
    (fun (j : ℕ) => getByte read.data
      (readIndex read.width (clamp (xStart + (j : ℤ)) 0 ((read.width : ℤ) - 1)) y + (c : ℤ)))
    (fun j (d : ℕ) => (d : α) * xKernel.getD j 0)
    (fun (j : ℕ) => read.channel (clamp (xStart + (j : ℤ)) 0 ((read.width : ℤ) - 1)) y c)
    (2 * filterSize)
    (fun j _ => (getByte_channel read hwf (clamp_bounds hw _).1 (clamp_bounds hw _).2
      hy0 hy1 c hc).1) (0 : α)
  rw [zero_add] at h
  exact h

/-- Before they are stored, the quotients `v / xSum` sum to one as soon as the kernel
values do not sum to zero. -/
theorem kernelQuotients_sum (values : List α) (h : kernelSum values ≠ 0) :
    (values.map (fun v => v / kernelSum values)).sum = 1 := by
  rw [sum_map_div, ← kernelSum_eq_sum, div_self h]

theorem sum_abs_nonneg (l : List α) : 0 ≤ (l.map (fun v => |v|)).sum := by
  induction l with
  | nil => simp
  | cons x xs ih =>
    simp only [List.map_cons, List.sum_cons]
    have := abs_nonneg x
    linarith


theorem sum_abs_map_div (l : List α) {s : α} (hs : 0 < s) :
    ((l.map (fun v => v / s)).map (fun v => |v|)).sum = (l.map (fun v => |v|)).sum / s := by
  induction l with
  | nil => simp
  | cons x xs ih =>
    simp only [List.map_cons, List.sum_cons, ih, abs_div, abs_of_pos hs, add_div]

end KernelSums

section KernelGeneric

variable {α : Type} [LinearOrderedField α] [FloorRing α]

theorem kernelTaps_length (filterSize : ℕ) (kernel : α → α) (coord : α) :
    (kernelTaps filterSize kernel coord).length = 2 * filterSize := by
  simp [kernelTaps]

theorem kernelValues_length (filterSize : ℕ) (kernel : α → α) (coord : α) :
    (kernelValues filterSize kernel coord).length = 2 * filterSize := by
  simp [kernelValues, kernelTaps]

theorem kernelWeights_length (filterSize : ℕ) (kernel : α → α) (coord : α) :
    (kernelWeights filterSize kernel coord).length = 2 * filterSize := by
  simp [kernelWeights, kernelValues, kernelTaps]

/-- The value of one channel computed by the kernel resampler on a well-formed image. -/
theorem kernelChannel_eq (read : ImageData) (hwf : read.WellFormed) (filterSize : ℕ)
    (kernel : α → α) (xFrom yFrom : α) (c : ℕ) (hc : c < 4) :
    kernelChannel read filterSize kernel xFrom yFrom c =
      some (jsRound (((List.range (2 * filterSize)).map (fun (i : ℕ) =>
        ((List.range (2 * filterSize)).map (fun (j : ℕ) =>
          (read.channel (clamp (⌊xFrom⌋ - (filterSize : ℤ) + 1 + (j : ℤ)) 0 ((read.width : ℤ) - 1))
            (clamp (⌊yFrom⌋ - (filterSize : ℤ) + 1 + (i : ℤ)) 0 ((read.height : ℤ) - 1)) c : α) *
            (kernelWeights filterSize kernel xFrom).getD j 0)).sum *
          (kernelWeights filterSize kernel yFrom).getD i 0)).sum)) := by
  have hh : (0 : ℤ) ≤ (read.height : ℤ) - 1 := by have := hwf.2.1; omega
  have h := foldl_option_sum
    (fun (i : ℕ) => kernelRow read filterSize (kernelWeights filterSize kernel xFrom)
      (⌊xFrom⌋ - (filterSize : ℤ) + 1)
      (clamp (⌊yFrom⌋ - (filterSize : ℤ) + 1 + (i : ℤ)) 0 ((read.height : ℤ) - 1)) c)
    (fun i (p : α) => p * (kernelWeights filterSize kernel yFrom).getD i 0)
    (fun (i : ℕ) => ((List.range (2 * filterSize)).map (fun (j : ℕ) =>
          (read.channel (clamp (⌊xFrom⌋ - (filterSize : ℤ) + 1 + (j : ℤ)) 0 ((read.width : ℤ) - 1))
            (clamp (⌊yFrom⌋ - (filterSize : ℤ) + 1 + (i : ℤ)) 0 ((read.height : ℤ) - 1)) c : α) *
            (kernelWeights filterSize kernel xFrom).getD j 0)).sum)
    (2 * filterSize)
    (fun i _ => kernelRow_eq read hwf filterSize _ _ (clamp_bounds hh _).1 (clamp_bounds hh _).2
      c hc) (0 : α)
  rw [zero_add] at h
  unfold kernelChannel
  simp only
  rw [show ∀ (o : Option α) (v : α), o = some v → o.map jsRound = some (jsRound v) from
    fun o v ho => by rw [ho]; rfl]
  exact h

/-- The weights are the stored quotients. -/
theorem kernelWeights_eq_map (filterSize : ℕ) (kernel : α → α) (coord : α) :
    kernelWeights filterSize kernel coord =
      ((kernelValues filterSize kernel coord).map
        (fun v => v / kernelSum (kernelValues filterSize kernel coord))).map toFloat32 := by
  unfold kernelWeights
  simp only [List.map_map]
  rfl

/-- Storing a list of numbers moves its sum by at most the sum of the rounding errors. -/
theorem sum_map_toFloat32_error (l : List α) :
    |(l.map toFloat32).sum - l.sum| ≤
      (l.map (fun v => |v|)).sum / 2 ^ 24 + (l.length : α) / 2 ^ 150 := by
  induction l with
  | nil => simp
  | cons x xs ih =>
    simp only [List.map_cons, List.sum_cons, List.length_cons]
    have h1 := toFloat32_error x
    have h2 : toFloat32 x + (xs.map toFloat32).sum - (x + xs.sum) =
        (toFloat32 x - x) + ((xs.map toFloat32).sum - xs.sum) := by ring
    rw [h2]
    have h3 := abs_add (toFloat32 x - x) ((xs.map toFloat32).sum - xs.sum)
    push_cast
    have e : (|x| + (xs.map (fun v => |v|)).sum) / 2 ^ 24 + ((xs.length : α) + 1) / 2 ^ 150 =
        (|x| / 2 ^ 24 + 1 / 2 ^ 150) +
          ((xs.map (fun v => |v|)).sum / 2 ^ 24 + (xs.length : α) / 2 ^ 150) := by ring
    rw [e]
    linarith

theorem sum_abs_map_toFloat32_le (l : List α) :
    ((l.map toFloat32).map (fun v => |v|)).sum ≤
      (l.map (fun v => |v|)).sum +
        ((l.map (fun v => |v|)).sum / 2 ^ 24 + (l.length : α) / 2 ^ 150) := by
  induction l with
  | nil => simp
  | cons x xs ih =>
    simp only [List.map_cons, List.sum_cons, List.length_cons]
    have h1 := toFloat32_error x
    have h2 : |toFloat32 x| ≤ |x| + |toFloat32 x - x| := by
      have := abs_add x (toFloat32 x - x)
      rw [add_sub_cancel] at this
      exact this
    push_cast
    have e : (|x| + (xs.map (fun v => |v|)).sum) / 2 ^ 24 + ((xs.length : α) + 1) / 2 ^ 150 =
        (|x| / 2 ^ 24 + 1 / 2 ^ 150) +
          ((xs.map (fun v => |v|)).sum / 2 ^ 24 + (xs.length : α) / 2 ^ 150) := by ring
    rw [e]
    linarith

/-- Rounding analysis of the normalisation.  When the numbers computed by the kernel
have absolute values summing to at most `B` and sum to at least `s`, with `s` above the
rounding error `δ = B / 2 ^ 24 + 2 * filterSize / 2 ^ 150` of the stores, then the stored
values sum to within `δ` of the exact sum, their sum is at least `s - δ > 0`, their
absolute values sum to at most `B + δ`, and the stored weights sum to within
`(B + δ) / (s - δ) / 2 ^ 24 + 2 * filterSize / 2 ^ 150` of `1`. -/
theorem kernelWeights_sum_near (filterSize : ℕ) (kernel : α → α) (coord : α) (B s : α)
    (hB : ((kernelTaps filterSize kernel coord).map (fun v => |v|)).sum ≤ B)
    (hs : s ≤ (kernelTaps filterSize kernel coord).sum)
    (hd : B / 2 ^ 24 + ((2 * filterSize : ℕ) : α) / 2 ^ 150 < s) :
    |kernelSum (kernelValues filterSize kernel coord) - (kernelTaps filterSize kernel coord).sum| ≤
        B / 2 ^ 24 + ((2 * filterSize : ℕ) : α) / 2 ^ 150 ∧
    s - (B / 2 ^ 24 + ((2 * filterSize : ℕ) : α) / 2 ^ 150) ≤
        kernelSum (kernelValues filterSize kernel coord) ∧
    ((kernelValues filterSize kernel coord).map (fun v => |v|)).sum ≤
        B + (B / 2 ^ 24 + ((2 * filterSize : ℕ) : α) / 2 ^ 150) ∧
    |kernelSum (kernelWeights filterSize kernel coord) - 1| ≤
        (B + (B / 2 ^ 24 + ((2 * filterSize : ℕ) : α) / 2 ^ 150)) /
          (s - (B / 2 ^ 24 + ((2 * filterSize : ℕ) : α) / 2 ^ 150)) / 2 ^ 24 +
        ((2 * filterSize : ℕ) : α) / 2 ^ 150 := by
  have hT := sum_map_toFloat32_error (kernelTaps filterSize kernel coord)
  have hA := sum_abs_map_toFloat32_le (kernelTaps filterSize kernel coord)
  rw [kernelTaps_length] at hT hA
  have hB' : ((kernelTaps filterSize kernel coord).map (fun v => |v|)).sum / 2 ^ 24 ≤
      B / 2 ^ 24 := div_le_div_of_nonneg_right hB (by positivity)
  have hV : kernelValues filterSize kernel coord =
      (kernelTaps filterSize kernel coord).map toFloat32 := rfl
  rw [← hV] at hT hA
  rw [← kernelSum_eq_sum] at hT
  have h1 : |kernelSum (kernelValues filterSize kernel coord) -
      (kernelTaps filterSize kernel coord).sum| ≤
        B / 2 ^ 24 + ((2 * filterSize : ℕ) : α) / 2 ^ 150 := by linarith
  have h2 : s - (B / 2 ^ 24 + ((2 * filterSize : ℕ) : α) / 2 ^ 150) ≤
      kernelSum (kernelValues filterSize kernel coord) := by
    have := (abs_le.mp h1).1
    linarith
  have h3 : ((kernelValues filterSize kernel coord).map (fun v => |v|)).sum ≤
      B + (B / 2 ^ 24 + ((2 * filterSize : ℕ) : α) / 2 ^ 150) := by linarith
  refine ⟨h1, h2, h3, ?_⟩
  have hpos : 0 < s - (B / 2 ^ 24 + ((2 * filterSize : ℕ) : α) / 2 ^ 150) := by linarith
  have hS : 0 < kernelSum (kernelValues filterSize kernel coord) := lt_of_lt_of_le hpos h2
  have hW := sum_map_toFloat32_error ((kernelValues filterSize kernel coord).map
    (fun v => v / kernelSum (kernelValues filterSize kernel coord)))
  rw [← kernelWeights_eq_map, kernelQuotients_sum _ hS.ne', sum_abs_map_div _ hS,
    List.length_map, kernelValues_length, ← kernelSum_eq_sum] at hW
  have hq : ((kernelValues filterSize kernel coord).map (fun v => |v|)).sum /
      kernelSum (kernelValues filterSize kernel coord) ≤
      (B + (B / 2 ^ 24 + ((2 * filterSize : ℕ) : α) / 2 ^ 150)) /
        (s - (B / 2 ^ 24 + ((2 * filterSize : ℕ) : α) / 2 ^ 150)) :=
    div_le_div₀ (le_trans (sum_abs_nonneg _) h3) h3 hpos h2
  have hq' := div_le_div_of_nonneg_right hq (show (0 : α) ≤ 2 ^ 24 by positivity)
  linarith

theorem kernelTaps_two (kernel : α → α) (c : α) :
    kernelTaps 2 kernel c =
      [kernel (Int.fract c + 1), kernel (Int.fract c), kernel (Int.fract c - 1),
       kernel (Int.fract c - 2)] := by
  have hr : List.range (2 * 2) = [0, 1, 2, 3] := rfl
  unfold kernelTaps
  simp only [hr, List.map_cons, List.map_nil, Int.fract]
  push_cast
  ring_nf

theorem kernelValues_two (kernel : α → α) (c : α) :
    kernelValues 2 kernel c =
      [toFloat32 (kernel (Int.fract c + 1)), toFloat32 (kernel (Int.fract c)),
       toFloat32 (kernel (Int.fract c - 1)), toFloat32 (kernel (Int.fract c - 2))] := by
  unfold kernelValues
  rw [kernelTaps_two]
  rfl

/-- The four numbers computed by the bicubic kernel for a window: their values in terms
of the fractional part `t` of the coordinate. -/
theorem bicubic_taps {β : Type} [LinearOrderedField β] (t : β) (h0 : 0 ≤ t) (h1 : t < 1) :
    createPixelCopier.bicubicKernel (t + 1) = -(1 / 2) * t * (1 - t) ^ 2 ∧
    createPixelCopier.bicubicKernel t = 3 / 2 * t ^ 3 - 5 / 2 * t ^ 2 + 1 ∧
    createPixelCopier.bicubicKernel (t - 1) = 3 / 2 * (1 - t) ^ 3 - 5 / 2 * (1 - t) ^ 2 + 1 ∧
    createPixelCopier.bicubicKernel (t - 2) = -(1 / 2) * (1 - t) * t ^ 2 := by
  have e1 : |t + 1| = t + 1 := abs_of_nonneg (by linarith)
  have e2 : |t| = t := abs_of_nonneg h0
  have e3 : |t - 1| = 1 - t := by rw [abs_sub_comm]; exact abs_of_nonneg (by linarith)
  have e4 : |t - 2| = 2 - t := by rw [abs_sub_comm]; exact abs_of_nonneg (by linarith)
  unfold createPixelCopier.bicubicKernel
  simp only [e1, e2, e3, e4]
  rw [if_pos (show t ≤ 1 by linarith), if_pos (show 1 - t ≤ 1 by linarith),
    if_neg (show ¬ (2 - t ≤ 1) by linarith)]
  refine ⟨?_, by ring, by ring, by ring⟩
  by_cases ht : t + 1 ≤ 1
  · have : t = 0 := by linarith
    subst this
    rw [if_pos ht]
    norm_num
  · rw [if_neg ht]
    ring

/-- The bicubic kernel is a partition of unity over a window: the four numbers it
computes sum to one. -/
theorem bicubic_taps_sum (c : α) :
    (kernelTaps 2 createPixelCopier.bicubicKernel c).sum = 1 := by
  rw [kernelTaps_two]
  obtain ⟨a1, a2, a3, a4⟩ := bicubic_taps (Int.fract c) (Int.fract_nonneg c) (Int.fract_lt_one c)
  simp only [List.sum_cons, List.sum_nil, add_zero, a1, a2, a3, a4]
  ring

/-- The absolute values of the four numbers computed by the bicubic kernel sum to
`1 + t (1 - t)`, at most `5 / 4`. -/
theorem bicubic_abs_sum {β : Type} [LinearOrderedField β] (t : β) (h0 : 0 ≤ t) (h1 : t < 1) :
    |createPixelCopier.bicubicKernel (t + 1)| + (|createPixelCopier.bicubicKernel t| +
      (|createPixelCopier.bicubicKernel (t - 1)| + |createPixelCopier.bicubicKernel (t - 2)|)) ≤
      5 / 4 := by
  obtain ⟨a1, a2, a3, a4⟩ := bicubic_taps t h0 h1
  have ht : 0 ≤ 1 - t := by linarith
  have b1 : |createPixelCopier.bicubicKernel (t + 1)| = 1 / 2 * t * (1 - t) ^ 2 := by
    rw [a1, abs_of_nonpos]
    · ring
    · have : 0 ≤ t * (1 - t) ^ 2 := by positivity
      linarith
  have b4 : |createPixelCopier.bicubicKernel (t - 2)| = 1 / 2 * (1 - t) * t ^ 2 := by
    rw [a4, abs_of_nonpos]
    · ring
    · have : 0 ≤ (1 - t) * t ^ 2 := by positivity
      linarith
  have b2 : |createPixelCopier.bicubicKernel t| = 3 / 2 * t ^ 3 - 5 / 2 * t ^ 2 + 1 := by
    rw [a2]
    apply abs_of_nonneg
    have e : 3 / 2 * t ^ 3 - 5 / 2 * t ^ 2 + 1 = (1 - t) * (1 + t - 3 / 2 * t ^ 2) := by ring
    rw [e]
    apply mul_nonneg ht
    nlinarith [mul_nonneg h0 ht]
  have b3 : |createPixelCopier.bicubicKernel (t - 1)| =
      3 / 2 * (1 - t) ^ 3 - 5 / 2 * (1 - t) ^ 2 + 1 := by
    rw [a3]
    apply abs_of_nonneg
    have e : 3 / 2 * (1 - t) ^ 3 - 5 / 2 * (1 - t) ^ 2 + 1 =
        t * (1 + (1 - t) - 3 / 2 * (1 - t) ^ 2) := by ring
    rw [e]
    apply mul_nonneg h0
    nlinarith [mul_nonneg h0 ht]
  rw [b1, b2, b3, b4]
  nlinarith [mul_nonneg h0 ht, sq_nonneg (t - 1 / 2)]

theorem bicubic_taps_abs (c : α) :
    ((kernelTaps 2 createPixelCopier.bicubicKernel c).map (fun v => |v|)).sum ≤ 5 / 4 := by
  rw [kernelTaps_two]
  simp only [List.map_cons, List.map_nil, List.sum_cons, List.sum_nil, add_zero]
  exact bicubic_abs_sum (Int.fract c) (Int.fract_nonneg c) (Int.fract_lt_one c)

end KernelGeneric

/-! ## The Lanczos kernel over the reals -/

section Lanczos
open Real

theorem kernelTaps_five {α : Type} [LinearOrderedField α] [FloorRing α] (kernel : α → α) (c : α) :
    kernelTaps 5 kernel c =
      [kernel (Int.fract c + 4), kernel (Int.fract c + 3), kernel (Int.fract c + 2),
       kernel (Int.fract c + 1), kernel (Int.fract c), kernel (Int.fract c - 1),
       kernel (Int.fract c - 2), kernel (Int.fract c - 3), kernel (Int.fract c - 4),
       kernel (Int.fract c - 5)] := by
  have hr : List.range (2 * 5) = [0, 1, 2, 3, 4, 5, 6, 7, 8, 9] := rfl
  unfold kernelTaps
  simp only [hr, List.map_cons, List.map_nil, Int.fract]
  push_cast
  ring_nf

theorem kernelValues_five {α : Type} [LinearOrderedField α] [FloorRing α] (kernel : α → α) (c : α) :
    kernelValues 5 kernel c =
      [toFloat32 (kernel (Int.fract c + 4)), toFloat32 (kernel (Int.fract c + 3)),
       toFloat32 (kernel (Int.fract c + 2)), toFloat32 (kernel (Int.fract c + 1)),
       toFloat32 (kernel (Int.fract c)), toFloat32 (kernel (Int.fract c - 1)),
       toFloat32 (kernel (Int.fract c - 2)), toFloat32 (kernel (Int.fract c - 3)),
       toFloat32 (kernel (Int.fract c - 4)), toFloat32 (kernel (Int.fract c - 5))] := by
  unfold kernelValues
  rw [kernelTaps_five]
  rfl

/-- On `(0, 5]` the function `x ↦ sin(π x / 5) / x²` is decreasing. -/
theorem sin_div_sq_anti {a b : ℝ} (ha : 0 < a) (hab : a ≤ b) (hb : b ≤ 5) :
    sin (π * b / 5) / b ^ 2 ≤ sin (π * a / 5) / a ^ 2 := by
  have hb0 : 0 < b := lt_of_lt_of_le ha hab
  have hv0 : 0 ≤ π * b / 5 := by positivity
  have hvpi : π * b / 5 ≤ π := by nlinarith [pi_pos]
  have hsv : 0 ≤ sin (π * b / 5) := sin_nonneg_of_nonneg_of_le_pi hv0 hvpi
  have hq0 : 0 ≤ a / b := by positivity
  have hq1 : a / b ≤ 1 := (div_le_one hb0).mpr hab
  have hconc := strictConcaveOn_sin_Icc.concaveOn.2
    (show (0 : ℝ) ∈ Set.Icc 0 π from ⟨le_refl _, pi_pos.le⟩)
    (show π * b / 5 ∈ Set.Icc 0 π from ⟨hv0, hvpi⟩)
    (show 0 ≤ 1 - a / b by linarith) hq0 (by ring)
  simp only [smul_eq_mul, sin_zero, mul_zero, zero_add] at hconc
  have harg : a / b * (π * b / 5) = π * a / 5 := by field_simp; ring
  rw [harg] at hconc
  rw [div_le_div_iff₀ (by positivity) (by positivity)]
  have h1 : a / b * sin (π * b / 5) * b ^ 2 = a * b * sin (π * b / 5) := by
    field_simp; ring
  have h2 : a * b * sin (π * b / 5) ≤ sin (π * a / 5) * b ^ 2 := by
    rw [← h1]
    exact mul_le_mul_of_nonneg_right hconc (by positivity)
  have h3 : sin (π * b / 5) * a ^ 2 ≤ a * b * sin (π * b / 5) := by
    have : a ^ 2 ≤ a * b := by nlinarith
    nlinarith
  linarith

theorem sin_div_sq_pos {a : ℝ} (ha : 0 < a) (hb : a < 5) : 0 < sin (π * a / 5) / a ^ 2 := by
  have h1 : 0 < π * a / 5 := by positivity
  have h2 : π * a / 5 < π := by nlinarith [pi_pos]
  have := sin_pos_of_pos_of_lt_pi h1 h2
  positivity

/-- The Lanczos kernel away from zero, with the sign of `sin(π x)` made explicit. -/
theorem lanczosKernel_shift (t : ℝ) (m : ℤ) (h : t + m ≠ 0) :
    createPixelCopier.lanczosKernel realMath (t + m) =
      5 * sin (π * t) / π ^ 2 * ((-1) ^ m * (sin (π * (t + m) / 5) / (t + m) ^ 2)) := by
  unfold createPixelCopier.lanczosKernel
  simp only [if_neg h]
  show 5 * sin (π * (t + m)) * sin (π * (t + m) / 5) / (π * (t + m) * (π * (t + m))) = _
  have hs : sin (π * (t + m)) = (-1) ^ m * sin (π * t) := by
    rw [mul_add, mul_comm π (m : ℝ), sin_add_int_mul_pi]
  rw [hs]
  have hpi : π ≠ 0 := pi_ne_zero
  field_simp
  ring

theorem lanczosKernel_int (m : ℤ) (h : m ≠ 0) :
    createPixelCopier.lanczosKernel realMath (m : ℝ) = 0 := by
  unfold createPixelCopier.lanczosKernel
  have hm : (m : ℝ) ≠ 0 := Int.cast_ne_zero.mpr h
  simp only [if_neg hm]
  show 5 * sin (π * m) * sin (π * m / 5) / (π * m * (π * m)) = 0
  rw [mul_comm π (m : ℝ), sin_int_mul_pi]
  simp

theorem lanczosKernel_zero : createPixelCopier.lanczosKernel realMath (0 : ℝ) = 1 := by
  unfold createPixelCopier.lanczosKernel
  simp


theorem lanczosKernel_add_nat (t : ℝ) (n : ℕ) (ht : 0 < t) :
    createPixelCopier.lanczosKernel realMath (t + n) =
      5 * sin (π * t) / π ^ 2 * ((-1) ^ n * (sin (π * (t + n) / 5) / (t + n) ^ 2)) := by
  have h := lanczosKernel_shift t (n : ℤ) (by push_cast; positivity)
  rw [zpow_natCast] at h
  exact_mod_cast h

theorem lanczosKernel_sub_nat (t : ℝ) (n : ℕ) (ht : t < 1) (hn : 1 ≤ n) :
    createPixelCopier.lanczosKernel realMath (t - n) =
      5 * sin (π * t) / π ^ 2 * ((-1) ^ (n + 1) * (sin (π * (n - t) / 5) / (n - t) ^ 2)) := by
  have hn' : (1 : ℝ) ≤ n := by exact_mod_cast hn
  have h := lanczosKernel_shift t (-(n : ℤ)) (by push_cast; linarith)
  have e1 : t + ((-(n : ℤ) : ℤ) : ℝ) = t - n := by push_cast; ring
  have e2 : ((-1 : ℝ)) ^ (-(n : ℤ)) = (-1) ^ n := by
    rw [zpow_neg, zpow_natCast, ← inv_pow]
    norm_num
  have e3 : sin (π * (t - n) / 5) = -sin (π * (n - t) / 5) := by
    rw [← sin_neg]; congr 1; ring
  have e4 : (t - (n : ℝ)) ^ 2 = ((n : ℝ) - t) ^ 2 := by ring
  rw [e1, e2, e3, e4] at h
  rw [h, pow_succ]
  ring

/-- From one tap to the next the function `x ↦ sin(π x / 5) / x²` loses at least the
factor `a / b`. -/
theorem sin_div_sq_step {a b : ℝ} (ha : 0 < a) (hab : a ≤ b) (hb : b ≤ 5) :
    sin (π * b / 5) / b ^ 2 ≤ a / b * (sin (π * a / 5) / a ^ 2) := by
  have hb0 : 0 < b := lt_of_lt_of_le ha hab
  have hv0 : 0 ≤ π * b / 5 := by positivity
  have hvpi : π * b / 5 ≤ π := by nlinarith [pi_pos]
  have hq0 : 0 ≤ a / b := by positivity
  have hconc := strictConcaveOn_sin_Icc.concaveOn.2
    (show (0 : ℝ) ∈ Set.Icc 0 π from ⟨le_refl _, pi_pos.le⟩)
    (show π * b / 5 ∈ Set.Icc 0 π from ⟨hv0, hvpi⟩)
    (show 0 ≤ 1 - a / b by
      have : a / b ≤ 1 := (div_le_one hb0).mpr hab
      linarith) hq0 (by ring)
  simp only [smul_eq_mul, sin_zero, mul_zero, zero_add] at hconc
  have harg : a / b * (π * b / 5) = π * a / 5 := by field_simp; ring
  rw [harg] at hconc
  have e1 : sin (π * b / 5) / b ^ 2 = a / b * sin (π * b / 5) / (a * b) := by
    field_simp
    ring
  have e2 : a / b * (sin (π * a / 5) / a ^ 2) = sin (π * a / 5) / (a * b) := by
    field_simp
    ring
  rw [e1, e2]
  exact div_le_div_of_nonneg_right hconc (by positivity)

/-- The Lanczos kernel is at least `4 / π²` on `(0, 1 / 2]`. -/
theorem lanczos_centre_ge {s : ℝ} (hs : 0 < s) (hs' : s ≤ 1 / 2) :
    4 / π ^ 2 ≤ 5 * sin (π * s) / π ^ 2 * (sin (π * s / 5) / s ^ 2) := by
  have hpi := pi_pos
  have h1 : 2 * s ≤ sin (π * s) := by
    have := mul_le_sin (x := π * s) (by positivity) (by nlinarith)
    have e : 2 / π * (π * s) = 2 * s := by field_simp; ring
    rwa [e] at this
  have h2 : 2 * s / 5 ≤ sin (π * s / 5) := by
    have := mul_le_sin (x := π * s / 5) (by positivity) (by nlinarith)
    have e : 2 / π * (π * s / 5) = 2 * s / 5 := by field_simp; ring
    rwa [e] at this
  have h3 : 2 * s * (2 * s / 5) ≤ sin (π * s) * sin (π * s / 5) :=
    mul_le_mul h1 h2 (by positivity) (le_trans (by positivity) h1)
  have e : 5 * sin (π * s) / π ^ 2 * (sin (π * s / 5) / s ^ 2) =
      5 * (sin (π * s) * sin (π * s / 5)) / (π ^ 2 * s ^ 2) := by
    field_simp
    ring
  rw [e, div_le_div_iff₀ (by positivity) (by positivity)]
  nlinarith [mul_nonneg (sq_nonneg π) (sq_nonneg s), sq_nonneg (π * s)]

theorem two_fifths_le_four_div_pi_sq : (2 : ℝ) / 5 ≤ 4 / π ^ 2 := by
  have h1 := pi_lt_d2
  have h2 := pi_pos
  have hpi2 : π ^ 2 ≤ 10 := by nlinarith
  rw [div_le_div_iff₀ (by norm_num) (by positivity)]
  linarith

/-- The alternating sum behind the ten Lanczos taps is at least `1 / 5`. -/
theorem lanczos_alternating_ge {t : ℝ} (ht : 0 < t) (h1 : t < 1) :
    1 / 5 ≤ 5 * sin (π * t) / π ^ 2 *
        (sin (π * (t + 4) / 5) / (t + 4) ^ 2 - sin (π * (t + 3) / 5) / (t + 3) ^ 2 +
        sin (π * (t + 2) / 5) / (t + 2) ^ 2 - sin (π * (t + 1) / 5) / (t + 1) ^ 2 +
        sin (π * t / 5) / t ^ 2 + sin (π * (1 - t) / 5) / (1 - t) ^ 2 -
        sin (π * (2 - t) / 5) / (2 - t) ^ 2 + sin (π * (3 - t) / 5) / (3 - t) ^ 2 -
        sin (π * (4 - t) / 5) / (4 - t) ^ 2 + sin (π * (5 - t) / 5) / (5 - t) ^ 2) := by
  have hs : 0 < sin (π * t) :=
    sin_pos_of_pos_of_lt_pi (by positivity) (by nlinarith [pi_pos])
  have hA : 0 < 5 * sin (π * t) / π ^ 2 := by positivity
  have d01 := sin_div_sq_step (a := t) (b := t + 1) ht (by linarith) (by linarith)
  have d23 := sin_div_sq_anti (a := t + 2) (b := t + 3) (by linarith) (by linarith)
    (by linarith)
  have e12 := sin_div_sq_step (a := 1 - t) (b := 2 - t) (by linarith) (by linarith)
    (by linarith)
  have e34 := sin_div_sq_anti (a := 3 - t) (b := 4 - t) (by linarith) (by linarith)
    (by linarith)
  have g0 := sin_div_sq_pos (a := t) ht (by linarith)
  have g1 := sin_div_sq_pos (a := 1 - t) (by linarith) (by linarith)
  have g4 := sin_div_sq_pos (a := t + 4) (by linarith) (by linarith)
  have g5 := sin_div_sq_pos (a := 5 - t) (by linarith) (by linarith)
  have f0 : t / (t + 1) * (sin (π * t / 5) / t ^ 2) ≤ 1 / 2 * (sin (π * t / 5) / t ^ 2) := by
    apply mul_le_mul_of_nonneg_right _ g0.le
    rw [div_le_iff₀ (by linarith)]
    linarith
  have f1 : (1 - t) / (2 - t) * (sin (π * (1 - t) / 5) / (1 - t) ^ 2) ≤
      1 / 2 * (sin (π * (1 - t) / 5) / (1 - t) ^ 2) := by
    apply mul_le_mul_of_nonneg_right _ g1.le
    rw [div_le_iff₀ (by linarith)]
    linarith
  have key : 1 / 2 * (sin (π * t / 5) / t ^ 2 + sin (π * (1 - t) / 5) / (1 - t) ^ 2) ≤
      sin (π * (t + 4) / 5) / (t + 4) ^ 2 - sin (π * (t + 3) / 5) / (t + 3) ^ 2 +
      sin (π * (t + 2) / 5) / (t + 2) ^ 2 - sin (π * (t + 1) / 5) / (t + 1) ^ 2 +
      sin (π * t / 5) / t ^ 2 + sin (π * (1 - t) / 5) / (1 - t) ^ 2 -
      sin (π * (2 - t) / 5) / (2 - t) ^ 2 + sin (π * (3 - t) / 5) / (3 - t) ^ 2 -
      sin (π * (4 - t) / 5) / (4 - t) ^ 2 + sin (π * (5 - t) / 5) / (5 - t) ^ 2 := by
    linarith only [d01, d23, e12, e34, g4, g5, f0, f1]
  have hmul := mul_le_mul_of_nonneg_left key hA.le
  have hfour := two_fifths_le_four_div_pi_sq
  have hcentre : 4 / π ^ 2 ≤ 5 * sin (π * t) / π ^ 2 *
      (sin (π * t / 5) / t ^ 2 + sin (π * (1 - t) / 5) / (1 - t) ^ 2) := by
    rw [mul_add]
    have n0 : 0 ≤ 5 * sin (π * t) / π ^ 2 * (sin (π * t / 5) / t ^ 2) :=
      mul_nonneg hA.le g0.le
    have n1 : 0 ≤ 5 * sin (π * t) / π ^ 2 * (sin (π * (1 - t) / 5) / (1 - t) ^ 2) :=
      mul_nonneg hA.le g1.le
    rcases le_total t (1 / 2) with hh | hh
    · have := lanczos_centre_ge ht hh
      linarith only [this, n1]
    · have := lanczos_centre_ge (s := 1 - t) (by linarith) (by linarith)
      have es : sin (π * (1 - t)) = sin (π * t) := by
        rw [show π * (1 - t) = π - π * t by ring, sin_pi_sub]
      rw [es] at this
      linarith only [this, n0]
  have hsplit : 5 * sin (π * t) / π ^ 2 *
      (1 / 2 * (sin (π * t / 5) / t ^ 2 + sin (π * (1 - t) / 5) / (1 - t) ^ 2)) =
      1 / 2 * (5 * sin (π * t) / π ^ 2 *
        (sin (π * t / 5) / t ^ 2 + sin (π * (1 - t) / 5) / (1 - t) ^ 2)) := by ring
  rw [hsplit] at hmul
  linarith only [hmul, hcentre, hfour]

/-- The ten numbers computed by the Lanczos kernel for a window sum to at least `1 / 5`
(they sum to about `1`; the bound is what the rounding analysis needs). -/
theorem lanczos_taps_sum_ge (c : ℝ) :
    1 / 5 ≤ (kernelTaps 5 (createPixelCopier.lanczosKernel realMath) c).sum := by
  rw [kernelTaps_five]
  have h0 := Int.fract_nonneg c
  have h1 := Int.fract_lt_one c
  generalize Int.fract c = t at h0 h1
  simp only [List.sum_cons, List.sum_nil, add_zero]
  rcases eq_or_lt_of_le h0 with ht | ht
  · subst ht
    have z : ∀ m : ℤ, m ≠ 0 → createPixelCopier.lanczosKernel realMath (m : ℝ) = 0 :=
      lanczosKernel_int
    have z4 := z 4 (by decide)
    have z3 := z 3 (by decide)
    have z2 := z 2 (by decide)
    have z1 := z 1 (by decide)
    have y1 := z (-1) (by decide)
    have y2 := z (-2) (by decide)
    have y3 := z (-3) (by decide)
    have y4 := z (-4) (by decide)
    have y5 := z (-5) (by decide)
    push_cast at z4 z3 z2 z1 y1 y2 y3 y4 y5
    simp only [zero_add, zero_sub, z4, z3, z2, z1, y1, y2, y3, y4, y5, lanczosKernel_zero]
    norm_num
  · have p0 := lanczosKernel_add_nat t 0 ht
    have p1 := lanczosKernel_add_nat t 1 ht
    have p2 := lanczosKernel_add_nat t 2 ht
    have p3 := lanczosKernel_add_nat t 3 ht
    have p4 := lanczosKernel_add_nat t 4 ht
    have q1 := lanczosKernel_sub_nat t 1 h1 (by norm_num)
    have q2 := lanczosKernel_sub_nat t 2 h1 (by norm_num)
    have q3 := lanczosKernel_sub_nat t 3 h1 (by norm_num)
    have q4 := lanczosKernel_sub_nat t 4 h1 (by norm_num)
    have q5 := lanczosKernel_sub_nat t 5 h1 (by norm_num)
    norm_num at p0 p1 p2 p3 p4 q1 q2 q3 q4 q5
    rw [p0, p1, p2, p3, p4, q1, q2, q3, q4, q5]
    have hfin := lanczos_alternating_ge ht h1
    linarith only [hfin]

/-- The Lanczos kernel has absolute value at most one. -/
theorem lanczosKernel_abs_le_one (x : ℝ) :
    |createPixelCopier.lanczosKernel realMath x| ≤ 1 := by
  unfold createPixelCopier.lanczosKernel
  by_cases hx : x = 0
  · simp [hx]
  simp only [if_neg hx]
  show |5 * sin (π * x) * sin (π * x / 5) / (π * x * (π * x))| ≤ 1
  have hpx : π * x ≠ 0 := mul_ne_zero pi_ne_zero hx
  have hden : 0 < π * x * (π * x) := mul_self_pos.mpr hpx
  rw [abs_div, abs_of_pos hden, div_le_one hden, abs_mul, abs_mul]
  have h1 := Real.abs_sin_le_abs (x := π * x)
  have h2 := Real.abs_sin_le_abs (x := π * x / 5)
  have h3 : |sin (π * x)| * |sin (π * x / 5)| ≤ |π * x| * |π * x / 5| :=
    mul_le_mul h1 h2 (abs_nonneg _) (abs_nonneg _)
  have e : |π * x| * |π * x / 5| = π * x * (π * x) / 5 := by
    rw [← abs_mul, abs_of_nonneg]
    · ring
    · have : π * x * (π * x / 5) = (π * x) ^ 2 / 5 := by ring
      rw [this]
      positivity
  rw [e] at h3
  have e5 : |(5 : ℝ)| = 5 := abs_of_pos (by norm_num)
  rw [e5]
  nlinarith [abs_nonneg (sin (π * x)), abs_nonneg (sin (π * x / 5))]

/-- The absolute values of the ten numbers computed by the Lanczos kernel sum to at most
`10`. -/
theorem lanczos_taps_abs (c : ℝ) :
    ((kernelTaps 5 (createPixelCopier.lanczosKernel realMath) c).map (fun v => |v|)).sum ≤
      10 := by
  rw [kernelTaps_five]
  simp only [List.map_cons, List.map_nil, List.sum_cons, List.sum_nil, add_zero]
  have h := lanczosKernel_abs_le_one
  linarith [h (Int.fract c + 4), h (Int.fract c + 3), h (Int.fract c + 2), h (Int.fract c + 1),
    h (Int.fract c), h (Int.fract c - 1), h (Int.fract c - 2), h (Int.fract c - 3),
    h (Int.fract c - 4), h (Int.fract c - 5)]

end Lanczos

/-! ## Kernel weights: normalisation, constant images, integer coordinates -/

section StoredSums

variable {α : Type} [LinearOrderedField α] [FloorRing α]

theorem kernelWeights_getD_sum (filterSize : ℕ) (kernel : α → α) (coord : α) :
    ((List.range (2 * filterSize)).map
      (fun j => (kernelWeights filterSize kernel coord).getD j 0)).sum =
      kernelSum (kernelWeights filterSize kernel coord) := by
  have := map_getD_range (kernelWeights filterSize kernel coord)
  rw [kernelWeights_length] at this
  rw [this, kernelSum_eq_sum]

/-- The bicubic kernel values as stored: their sum is within `2 ^ -23` of `1`, hence
positive, their absolute values sum to at most `5 / 4 + 2 ^ -23`, and the stored weights
sum to within `2 ^ -23` of `1`. -/
theorem bicubic_values_sum (c : α) :
    |kernelSum (kernelValues 2 createPixelCopier.bicubicKernel c) - 1| ≤ 1 / 2 ^ 23 ∧
    0 < kernelSum (kernelValues 2 createPixelCopier.bicubicKernel c) ∧
    ((kernelValues 2 createPixelCopier.bicubicKernel c).map (fun v => |v|)).sum ≤
      5 / 4 + 1 / 2 ^ 23 ∧
    |kernelSum (kernelWeights 2 createPixelCopier.bicubicKernel c) - 1| ≤ 1 / 2 ^ 23 := by
  obtain ⟨h1, h2, h3, h4⟩ := kernelWeights_sum_near 2 createPixelCopier.bicubicKernel c (5 / 4) 1
    (bicubic_taps_abs c) (bicubic_taps_sum c).ge (by norm_num)
  rw [bicubic_taps_sum] at h1
  have d : (5 / 4 : α) / 2 ^ 24 + ((2 * 2 : ℕ) : α) / 2 ^ 150 ≤ 1 / 2 ^ 23 := by norm_num
  have d' : (1 : α) / 2 < 1 - ((5 / 4 : α) / 2 ^ 24 + ((2 * 2 : ℕ) : α) / 2 ^ 150) := by norm_num
  have w : ((5 / 4 : α) + ((5 / 4 : α) / 2 ^ 24 + ((2 * 2 : ℕ) : α) / 2 ^ 150)) /
      (1 - ((5 / 4 : α) / 2 ^ 24 + ((2 * 2 : ℕ) : α) / 2 ^ 150)) / 2 ^ 24 +
      ((2 * 2 : ℕ) : α) / 2 ^ 150 ≤ 1 / 2 ^ 23 := by norm_num
  exact ⟨le_trans h1 d, by linarith, by linarith, le_trans h4 w⟩

end StoredSums

/-- The Lanczos kernel values as stored: their sum is within `2 ^ -20` of the exact sum
and at least `1 / 6`, hence positive, and the stored weights sum to within `2 ^ -18` of
`1`. -/
theorem lanczos_values_sum (c : ℝ) :
    |kernelSum (kernelValues 5 (createPixelCopier.lanczosKernel realMath) c) -
      (kernelTaps 5 (createPixelCopier.lanczosKernel realMath) c).sum| ≤ 1 / 2 ^ 20 ∧
    1 / 6 ≤ kernelSum (kernelValues 5 (createPixelCopier.lanczosKernel realMath) c) ∧
    |kernelSum (kernelWeights 5 (createPixelCopier.lanczosKernel realMath) c) - 1| ≤
      1 / 2 ^ 18 := by
  obtain ⟨h1, h2, -, h4⟩ := kernelWeights_sum_near 5 (createPixelCopier.lanczosKernel realMath)
    c 10 (1 / 5) (lanczos_taps_abs c) (lanczos_taps_sum_ge c) (by norm_num)
  have d : (10 : ℝ) / 2 ^ 24 + ((2 * 5 : ℕ) : ℝ) / 2 ^ 150 ≤ 1 / 2 ^ 20 := by norm_num
  have d' : (1 : ℝ) / 6 ≤ 1 / 5 - ((10 : ℝ) / 2 ^ 24 + ((2 * 5 : ℕ) : ℝ) / 2 ^ 150) := by
    norm_num
  have w : ((10 : ℝ) + ((10 : ℝ) / 2 ^ 24 + ((2 * 5 : ℕ) : ℝ) / 2 ^ 150)) /
      (1 / 5 - ((10 : ℝ) / 2 ^ 24 + ((2 * 5 : ℕ) : ℝ) / 2 ^ 150)) / 2 ^ 24 +
      ((2 * 5 : ℕ) : ℝ) / 2 ^ 150 ≤ 1 / 2 ^ 18 := by norm_num
  exact ⟨le_trans h1 d, le_trans d' h2, le_trans h4 w⟩

/-! ### The stored weights at a concrete coordinate -/

theorem bicubic_values_256 :
    kernelValues 2 createPixelCopier.bicubicKernel (1 / 256 : ℚ) =
      [-65025 / 33554432, 8388289 / 8388608, 66557 / 33554432, -255 / 33554432] := by
  have hf : Int.fract (1 / 256 : ℚ) = 1 / 256 := Int.fract_eq_self.mpr ⟨by norm_num, by norm_num⟩
  obtain ⟨t0, t1, t2, t3⟩ := bicubic_taps (1 / 256 : ℚ) (by norm_num) (by norm_num)
  have k0 : createPixelCopier.bicubicKernel (1 / 256 + 1 : ℚ) = -65025 / 33554432 := by
    rw [t0]
    norm_num
  have v0 : toFloat32 (-65025 / 33554432 : ℚ) = -65025 / 33554432 := by
    rw [toFloat32_eval (-65025 / 33554432 : ℚ) (-10) (-16646400) (by norm_num)
      (by rw [abs_of_nonpos (by norm_num)]; norm_num)
      (by rw [abs_of_nonpos (by norm_num)]; norm_num)
      (roundTiesToEven_of_near _ _ (by rw [abs_lt]; norm_num))]
    norm_num
  have k1 : createPixelCopier.bicubicKernel (1 / 256 : ℚ) = 33553155 / 33554432 := by
    rw [t1]
    norm_num
  have v1 : toFloat32 (33553155 / 33554432 : ℚ) = 8388289 / 8388608 := by
    rw [toFloat32_eval (33553155 / 33554432 : ℚ) (-1) (16776578) (by norm_num)
      (by rw [abs_of_nonneg (by norm_num)]; norm_num)
      (by rw [abs_of_nonneg (by norm_num)]; norm_num)
      (roundTiesToEven_of_tie _ _ (by norm_num) (by norm_num [abs_of_nonneg, abs_of_nonpos]))]
    norm_num
  have k2 : createPixelCopier.bicubicKernel (1 / 256 - 1 : ℚ) = 66557 / 33554432 := by
    rw [t2]
    norm_num
  have v2 : toFloat32 (66557 / 33554432 : ℚ) = 66557 / 33554432 := by
    rw [toFloat32_eval (66557 / 33554432 : ℚ) (-9) (8519296) (by norm_num)
      (by rw [abs_of_nonneg (by norm_num)]; norm_num)
      (by rw [abs_of_nonneg (by norm_num)]; norm_num)
      (roundTiesToEven_of_near _ _ (by rw [abs_lt]; norm_num))]
    norm_num
  have k3 : createPixelCopier.bicubicKernel (1 / 256 - 2 : ℚ) = -255 / 33554432 := by
    rw [t3]
    norm_num
  have v3 : toFloat32 (-255 / 33554432 : ℚ) = -255 / 33554432 := by
    rw [toFloat32_eval (-255 / 33554432 : ℚ) (-18) (-16711680) (by norm_num)
      (by rw [abs_of_nonpos (by norm_num)]; norm_num)
      (by rw [abs_of_nonpos (by norm_num)]; norm_num)
      (roundTiesToEven_of_near _ _ (by rw [abs_lt]; norm_num))]
    norm_num
  rw [kernelValues_two, hf, k0, k1, k2, k3, v0, v1, v2, v3]

theorem bicubic_weights_256 :
    kernelSum (kernelValues 2 createPixelCopier.bicubicKernel (1 / 256 : ℚ)) = 33554433 / 33554432 ∧
    kernelWeights 2 createPixelCopier.bicubicKernel (1 / 256 : ℚ) =
      [-65025 / 33554432, 8388289 / 8388608, 66557 / 33554432, -255 / 33554432] := by
  have hs : kernelSum (kernelValues 2 createPixelCopier.bicubicKernel (1 / 256 : ℚ)) = 33554433 / 33554432 := by
    rw [bicubic_values_256, kernelSum_eq_sum]
    norm_num
  have w0 : toFloat32 (-65025 / 33554432 / (33554433 / 33554432) : ℚ) = -65025 / 33554432 := by
    rw [toFloat32_eval (-65025 / 33554432 / (33554433 / 33554432) : ℚ) (-10) (-16646400) (by norm_num)
      (by rw [abs_of_nonpos (by norm_num)]; norm_num)
      (by rw [abs_of_nonpos (by norm_num)]; norm_num)
      (roundTiesToEven_of_near _ _ (by rw [abs_lt]; norm_num))]
    norm_num
  have w1 : toFloat32 (8388289 / 8388608 / (33554433 / 33554432) : ℚ) = 8388289 / 8388608 := by
    rw [toFloat32_eval (8388289 / 8388608 / (33554433 / 33554432) : ℚ) (-1) (16776578) (by norm_num)
      (by rw [abs_of_nonneg (by norm_num)]; norm_num)
      (by rw [abs_of_nonneg (by norm_num)]; norm_num)
      (roundTiesToEven_of_near _ _ (by rw [abs_lt]; norm_num))]
    norm_num
  have w2 : toFloat32 (66557 / 33554432 / (33554433 / 33554432) : ℚ) = 66557 / 33554432 := by
    rw [toFloat32_eval (66557 / 33554432 / (33554433 / 33554432) : ℚ) (-9) (8519296) (by norm_num)
      (by rw [abs_of_nonneg (by norm_num)]; norm_num)
      (by rw [abs_of_nonneg (by norm_num)]; norm_num)
      (roundTiesToEven_of_near _ _ (by rw [abs_lt]; norm_num))]
    norm_num
  have w3 : toFloat32 (-255 / 33554432 / (33554433 / 33554432) : ℚ) = -255 / 33554432 := by
    rw [toFloat32_eval (-255 / 33554432 / (33554433 / 33554432) : ℚ) (-18) (-16711680) (by norm_num)
      (by rw [abs_of_nonpos (by norm_num)]; norm_num)
      (by rw [abs_of_nonpos (by norm_num)]; norm_num)
      (roundTiesToEven_of_near _ _ (by rw [abs_lt]; norm_num))]
    norm_num
  refine ⟨hs, ?_⟩
  unfold kernelWeights
  simp only
  rw [hs, bicubic_values_256]
  simp only [List.map_cons, List.map_nil]
  rw [w0, w1, w2, w3]

/-- C8, as stated, fails: at `xFrom = 1 / 256` the four bicubic kernel values are
`-65025 / 2 ^ 25`, `33553155 / 2 ^ 25`, `66557 / 2 ^ 25` and `-255 / 2 ^ 25`; the second
needs 25 significant bits and is stored in the `Float32Array` as `8388289 / 2 ^ 23`, so
that `xSum = 1 + 2 ^ -25`; each quotient by `xSum` rounds back to the stored value, and
the weights after the normalisation step sum to `1 + 2 ^ -25`, not to `1`. -/
theorem kernel_weights_sum_not_one :
    kernelValues 2 createPixelCopier.bicubicKernel (1 / 256 : ℚ) =
      [-65025 / 33554432, 8388289 / 8388608, 66557 / 33554432, -255 / 33554432] ∧
    kernelSum (kernelValues 2 createPixelCopier.bicubicKernel (1 / 256 : ℚ)) =
      1 + 1 / 2 ^ 25 ∧
    kernelWeights 2 createPixelCopier.bicubicKernel (1 / 256 : ℚ) =
      [-65025 / 33554432, 8388289 / 8388608, 66557 / 33554432, -255 / 33554432] ∧
    kernelSum (kernelWeights 2 createPixelCopier.bicubicKernel (1 / 256 : ℚ)) =
      1 + 1 / 2 ^ 25 ∧
    kernelSum (kernelWeights 2 createPixelCopier.bicubicKernel (1 / 256 : ℚ)) ≠ 1 := by
  have hw : kernelSum (kernelWeights 2 createPixelCopier.bicubicKernel (1 / 256 : ℚ)) =
      1 + 1 / 2 ^ 25 := by
    rw [bicubic_weights_256.2, kernelSum_eq_sum]
    norm_num
  refine ⟨bicubic_values_256, ?_, bicubic_weights_256.2, hw, ?_⟩
  · rw [bicubic_weights_256.1]
    norm_num
  · rw [hw]
    norm_num

/-- C8, amended: for the bicubic kernel (radius 2) and the Lanczos kernel (radius 5) and
every real source coordinate `(xFrom, yFrom)`, whether or not the tap window leaves the
image: the sum of the kernel values stored by `createKernelResampler` is positive on
each axis, so the normalisation step divides by a non-zero number; the quotients
`v / xSum` and `v / ySum` sum to exactly `1`; and the weight vectors kept after the
normalisation step, which are these quotients rounded to binary32 by the store into the
`Float32Array`, sum to `1` up to that rounding: to within `2 ^ -23` for the bicubic
kernel and to within `2 ^ -18` for the Lanczos kernel. -/
theorem kernel_weights_sum_near_one (xFrom yFrom : ℝ) :
    (0 < kernelSum (kernelValues 2 createPixelCopier.bicubicKernel xFrom) ∧
      0 < kernelSum (kernelValues 2 createPixelCopier.bicubicKernel yFrom) ∧
      0 < kernelSum (kernelValues 5 (createPixelCopier.lanczosKernel realMath) xFrom) ∧
      0 < kernelSum (kernelValues 5 (createPixelCopier.lanczosKernel realMath) yFrom)) ∧
    (((kernelValues 2 createPixelCopier.bicubicKernel xFrom).map
        (fun v => v / kernelSum (kernelValues 2 createPixelCopier.bicubicKernel xFrom))).sum = 1 ∧
      ((kernelValues 2 createPixelCopier.bicubicKernel yFrom).map
        (fun v => v / kernelSum (kernelValues 2 createPixelCopier.bicubicKernel yFrom))).sum = 1 ∧
      ((kernelValues 5 (createPixelCopier.lanczosKernel realMath) xFrom).map
        (fun v => v / kernelSum
          (kernelValues 5 (createPixelCopier.lanczosKernel realMath) xFrom))).sum = 1 ∧
      ((kernelValues 5 (createPixelCopier.lanczosKernel realMath) yFrom).map
        (fun v => v / kernelSum
          (kernelValues 5 (createPixelCopier.lanczosKernel realMath) yFrom))).sum = 1) ∧
    (|kernelSum (kernelWeights 2 createPixelCopier.bicubicKernel xFrom) - 1| ≤ 1 / 2 ^ 23 ∧
      |kernelSum (kernelWeights 2 createPixelCopier.bicubicKernel yFrom) - 1| ≤ 1 / 2 ^ 23 ∧
      |kernelSum (kernelWeights 5 (createPixelCopier.lanczosKernel realMath) xFrom) - 1| ≤
        1 / 2 ^ 18 ∧
      |kernelSum (kernelWeights 5 (createPixelCopier.lanczosKernel realMath) yFrom) - 1| ≤
        1 / 2 ^ 18) := by
  have hb : ∀ c : ℝ, 0 < kernelSum (kernelValues 2 createPixelCopier.bicubicKernel c) :=
    fun c => (bicubic_values_sum c).2.1
  have hl : ∀ c : ℝ,
      0 < kernelSum (kernelValues 5 (createPixelCopier.lanczosKernel realMath) c) :=
    fun c => lt_of_lt_of_le (by norm_num) (lanczos_values_sum c).2.1
  exact ⟨⟨hb xFrom, hb yFrom, hl xFrom, hl yFrom⟩,
    ⟨kernelQuotients_sum _ (hb xFrom).ne', kernelQuotients_sum _ (hb yFrom).ne',
      kernelQuotients_sum _ (hl xFrom).ne', kernelQuotients_sum _ (hl yFrom).ne'⟩,
    ⟨(bicubic_values_sum xFrom).2.2.2, (bicubic_values_sum yFrom).2.2.2,
      (lanczos_values_sum xFrom).2.2, (lanczos_values_sum yFrom).2.2⟩⟩

section KernelGray

variable {α : Type} [LinearOrderedField α] [FloorRing α]

theorem channel_gray (read : ImageData) (hwf : read.WellFormed) (hg : read.IsGray) {x y : ℤ}
    (hx0 : 0 ≤ x) (hx1 : x ≤ (read.width : ℤ) - 1) (hy0 : 0 ≤ y) (hy1 : y ≤ (read.height : ℤ) - 1)
    (c : ℕ) (hc : c < 3) : read.channel x y c = 128 := by
  have h1 := (getByte_channel read hwf hx0 hx1 hy0 hy1 c (by omega)).2.1
  have hk : y.toNat * read.width + x.toNat < read.width * read.height := by
    have := pixel_index_lt (w := read.width) (h := read.height) (x := x.toNat) (y := y.toNat)
      (c := 0) (by omega) (by omega) (by norm_num)
    have e : 4 * read.width * read.height = 4 * (read.width * read.height) := by ring
    omega
  rw [hg _ hk c hc] at h1
  exact (Option.some.inj h1).symm

theorem jsRound_128 : jsRound (128 : α) = 128 := by
  have := @jsRound_natCast α _ _ 128
  exact_mod_cast this

/-- Rounding `128 a b` gives `128` when `a` and `b` are within `2 ^ -18` of `1`. -/
theorem jsRound_gray (a b : α) (ha : |a - 1| ≤ 1 / 2 ^ 18) (hb : |b - 1| ≤ 1 / 2 ^ 18) :
    jsRound (128 * a * b) = 128 := by
  obtain ⟨a1, a2⟩ := abs_le.mp ha
  obtain ⟨b1, b2⟩ := abs_le.mp hb
  have e : (128 : α) * a * b = 128 + 128 * ((a - 1) + (b - 1) + (a - 1) * (b - 1)) := by ring
  have p1 : (a - 1) * (b - 1) ≤ 1 / 2 ^ 18 * (1 / 2 ^ 18) := by
    have := abs_mul (a - 1) (b - 1)
    have h := mul_le_mul ha hb (abs_nonneg _) (by positivity)
    exact le_trans (le_abs_self _) (by rw [this]; exact h)
  have p2 : -(1 / 2 ^ 18 * (1 / 2 ^ 18)) ≤ (a - 1) * (b - 1) := by
    have := abs_mul (a - 1) (b - 1)
    have h := mul_le_mul ha hb (abs_nonneg _) (by positivity)
    have := neg_abs_le ((a - 1) * (b - 1))
    linarith
  unfold jsRound
  rw [Int.floor_eq_iff, e]
  push_cast
  constructor
  · norm_num at a1 b1 p2 ⊢
    linarith
  · norm_num at a2 b2 p1 ⊢
    linarith

/-- On a gray image the kernel resampler computes `128`, whenever the stored weights of
both axes sum to within `2 ^ -18` of `1`. -/
theorem kernelChannel_gray (read : ImageData) (hwf : read.WellFormed) (hg : read.IsGray)
    (filterSize : ℕ) (kernel : α → α) (xFrom yFrom : α)
    (hx : |kernelSum (kernelWeights filterSize kernel xFrom) - 1| ≤ 1 / 2 ^ 18)
    (hy : |kernelSum (kernelWeights filterSize kernel yFrom) - 1| ≤ 1 / 2 ^ 18)
    (c : ℕ) (hc : c < 3) :
    kernelChannel read filterSize kernel xFrom yFrom c = some 128 := by
  have hw : (0 : ℤ) ≤ (read.width : ℤ) - 1 := by have := hwf.1; omega
  have hh : (0 : ℤ) ≤ (read.height : ℤ) - 1 := by have := hwf.2.1; omega
  have hch : ∀ i j : ℕ,
      ((read.channel (clamp (⌊xFrom⌋ - (filterSize : ℤ) + 1 + (j : ℤ)) 0 ((read.width : ℤ) - 1))
        (clamp (⌊yFrom⌋ - (filterSize : ℤ) + 1 + (i : ℤ)) 0 ((read.height : ℤ) - 1)) c : ℕ) : α)
        = 128 := by
    intro i j
    rw [channel_gray read hwf hg (clamp_bounds hw _).1 (clamp_bounds hw _).2
      (clamp_bounds hh _).1 (clamp_bounds hh _).2 c hc]
    norm_num
  rw [kernelChannel_eq read hwf filterSize kernel xFrom yFrom c (by omega)]
  simp only [hch]
  rw [sum_map_mul_left, kernelWeights_getD_sum filterSize kernel yFrom,
    sum_map_mul_left, kernelWeights_getD_sum filterSize kernel xFrom,
    jsRound_gray _ _ hx hy]

end KernelGray

/-! ## Constant images -/

section Gray

variable {α : Type} [LinearOrderedField α] [FloorRing α]

theorem writes_of_channels (write : List ℕ) (toIdx : ℕ) (f : ℕ → Option ℤ)
    (v : ℕ) (hto : toIdx + 3 ≤ write.length) (hf : ∀ c, c < 3 → storedByte (f c) = v) :
    ∃ buf, (Except.ok ((List.range 3).foldl
        (fun w channel => setByte w (toIdx + channel) (f channel)) write) : Except JsError _) =
          .ok buf ∧
      buf.length = write.length ∧ (∀ i, i < toIdx ∨ toIdx + 3 ≤ i → buf[i]? = write[i]?) ∧
      ∀ c, c < 3 → buf[toIdx + c]? = some v := by
  refine ⟨_, rfl, ?_⟩
  rw [foldl_setByte_eq write toIdx f hto, hf 0 (by norm_num), hf 1 (by norm_num),
    hf 2 (by norm_num)]
  obtain ⟨h1, h2, h3⟩ := take_append_drop_frame write [v, v, v] toIdx rfl hto
  refine ⟨h1, h3, ?_⟩
  intro c hc
  rw [h2 c hc]
  obtain rfl | rfl | rfl : c = 0 ∨ c = 1 ∨ c = 2 := by omega
  all_goals rfl

theorem nearest_gray (read : ImageData) (hwf : read.WellFormed) (hg : read.IsGray) :
    (createPixelCopier.nearest read : Sampler α).Writes 128 := by
  intro write xFrom yFrom toIdx hto
  obtain ⟨h1, h2⟩ := nearest_sample_eq read hwf write xFrom yFrom toIdx hto
  obtain ⟨hX, hY, -, -⟩ := nearestIndex_spec read hwf xFrom yFrom
  obtain ⟨g1, g2, g3⟩ := take_append_drop_frame write _ toIdx h2 hto
  refine ⟨_, h1, g1, g3, ?_⟩
  intro c hc
  rw [g2 c hc, List.getElem?_take_of_lt hc, List.getElem?_drop]
  refine hg _ ?_ c hc
  have := pixel_index_lt hX hY (show 0 < 4 by norm_num)
  have e : 4 * read.width * read.height = 4 * (read.width * read.height) := by ring
  omega

theorem bilinearChannel_gray (read : ImageData) (hwf : read.WellFormed) (hg : read.IsGray)
    (xFrom yFrom : α) (c : ℕ) (hc : c < 3) :
    createPixelCopier.bilinearChannel read xFrom yFrom c = some 128 := by
  have hw : (0 : ℤ) ≤ (read.width : ℤ) - 1 := by have := hwf.1; omega
  have hh : (0 : ℤ) ≤ (read.height : ℤ) - 1 := by have := hwf.2.1; omega
  obtain ⟨d00, d10, d01, d11, h00, h10, h01, h11, hv⟩ :=
    bilinearChannel_eq read hwf xFrom yFrom c (by omega)
  have key : ∀ (x y : ℤ) (d : ℕ), 0 ≤ x → x ≤ (read.width : ℤ) - 1 → 0 ≤ y →
      y ≤ (read.height : ℤ) - 1 →
      read.data[4 * (y.toNat * read.width + x.toNat) + c]? = some d → d = 128 := by
    intro x y d hx0 hx1 hy0 hy1 hd
    have h1 := (getByte_channel read hwf hx0 hx1 hy0 hy1 c (by omega)).2.1
    rw [hd] at h1
    rw [Option.some.inj h1]
    exact channel_gray read hwf hg hx0 hx1 hy0 hy1 c hc
  obtain rfl := key _ _ _ (clamp_bounds hw _).1 (clamp_bounds hw _).2 (clamp_bounds hh _).1
    (clamp_bounds hh _).2 h00
  obtain rfl := key _ _ _ (clamp_bounds hw _).1 (clamp_bounds hw _).2 (clamp_bounds hh _).1
    (clamp_bounds hh _).2 h10
  obtain rfl := key _ _ _ (clamp_bounds hw _).1 (clamp_bounds hw _).2 (clamp_bounds hh _).1
    (clamp_bounds hh _).2 h01
  obtain rfl := key _ _ _ (clamp_bounds hw _).1 (clamp_bounds hw _).2 (clamp_bounds hh _).1
    (clamp_bounds hh _).2 h11
  rw [hv]
  congr 1
  rw [Int.ceil_eq_iff]
  push_cast
  constructor
  · ring_nf; norm_num
  · ring_nf; norm_num

theorem bilinear_gray (read : ImageData) (hwf : read.WellFormed) (hg : read.IsGray) :
    (createPixelCopier.bilinear read : Sampler α).Writes 128 := by
  intro write xFrom yFrom toIdx hto
  exact writes_of_channels write toIdx _ 128 hto
    (fun c hc => by rw [bilinearChannel_gray read hwf hg xFrom yFrom c hc]; rfl)

theorem createKernelResampler_gray (read : ImageData) (hwf : read.WellFormed) (hg : read.IsGray)
    (filterSize : ℕ) (kernel : α → α)
    (hk : ∀ coord, |kernelSum (kernelWeights filterSize kernel coord) - 1| ≤ 1 / 2 ^ 18) :
    (createKernelResampler read filterSize kernel).Writes 128 := by
  intro write xFrom yFrom toIdx hto
  exact writes_of_channels write toIdx _ 128 hto
    (fun c hc => by
      rw [kernelChannel_gray read hwf hg filterSize kernel xFrom yFrom (hk _) (hk _) c hc]; rfl)


/-- The pixel step with a face of the table, a non-zero `r` and a sampler that stores `v`. -/
theorem renderPixel_writes (M : JSMath α) (read : ImageData) (rotation : α)
    (f : Orientation α) (s : Sampler α) (v : ℕ) (hs : s.Writes v)
    (hr : ∀ cube x y, M.sqrt ((f cube x y).x * (f cube x y).x + (f cube x y).y * (f cube x y).y +
      (f cube x y).z * (f cube x y).z) ≠ 0)
    (n y x : ℕ) (hy : y < n) (hx : x < n) (st : Vec3 α × List ℕ)
    (hlen : st.2.length = 4 * n * n) :
    ∃ st', renderPixel M read rotation (.own f) (.fn s) n n y x st = .ok st' ∧
      st'.2.length = 4 * n * n ∧
      (∀ i, i < 4 * (y * n + x) ∨ 4 * (y * n + x) + 4 ≤ i → st'.2[i]? = st.2[i]?) ∧
      (∀ c, c < 3 → st'.2[4 * (y * n + x) + c]? = some v) ∧
      st'.2[4 * (y * n + x) + 3]? = some 255 := by
  have hlt : 4 * (y * n + x) + 3 < 4 * n * n := pixel_index_lt hx hy (by norm_num)
  have hlen' : (st.2.set (4 * (y * n + x) + 3) 255).length = 4 * n * n := by
    rw [List.length_set, hlen]
  have hset : ∀ i, i ≠ 4 * (y * n + x) + 3 →
      (st.2.set (4 * (y * n + x) + 3) 255)[i]? = st.2[i]? := by
    intro i hi
    rw [List.getElem?_set_ne (Ne.symm hi)]
  have halpha : (st.2.set (4 * (y * n + x) + 3) 255)[4 * (y * n + x) + 3]? = some 255 := by
    rw [List.getElem?_set_self]
    omega
  have hr' := hr st.1 (2 / (n : α) * ((x : α) + 1 / 2) - 1) (2 / (n : α) * ((y : α) + 1 / 2) - 1)
  obtain ⟨buf, hb, h1, h2, h3⟩ := hs (st.2.set (4 * (y * n + x) + 3) 255)
    (longitude M (f st.1 (2 / (n : α) * ((x : α) + 1 / 2) - 1)
        (2 / (n : α) * ((y : α) + 1 / 2) - 1)) rotation * ((read.width : α) / (2 * M.PI)) - 1 / 2)
    (M.acos ((f st.1 (2 / (n : α) * ((x : α) + 1 / 2) - 1)
        (2 / (n : α) * ((y : α) + 1 / 2) - 1)).z /
      M.sqrt ((f st.1 (2 / (n : α) * ((x : α) + 1 / 2) - 1)
          (2 / (n : α) * ((y : α) + 1 / 2) - 1)).x *
        (f st.1 (2 / (n : α) * ((x : α) + 1 / 2) - 1) (2 / (n : α) * ((y : α) + 1 / 2) - 1)).x +
        (f st.1 (2 / (n : α) * ((x : α) + 1 / 2) - 1) (2 / (n : α) * ((y : α) + 1 / 2) - 1)).y *
        (f st.1 (2 / (n : α) * ((x : α) + 1 / 2) - 1) (2 / (n : α) * ((y : α) + 1 / 2) - 1)).y +
        (f st.1 (2 / (n : α) * ((x : α) + 1 / 2) - 1) (2 / (n : α) * ((y : α) + 1 / 2) - 1)).z *
        (f st.1 (2 / (n : α) * ((x : α) + 1 / 2) - 1) (2 / (n : α) * ((y : α) + 1 / 2) - 1)).z)) *
        ((read.height : α) / M.PI) - 1 / 2)
    (4 * (y * n + x)) (by omega)
  refine ⟨(f st.1 (2 / (n : α) * ((x : α) + 1 / 2) - 1)
    (2 / (n : α) * ((y : α) + 1 / 2) - 1), buf), ?_, (by show buf.length = _; omega), ?_, ?_, ?_⟩
  · unfold renderPixel callOrientation
    show (if _ then _ else _) = _
    rw [if_neg hr']
    show (do let data ← s.sample _ _ _ _; pure (_, data)) = _
    rw [hb]
    rfl
  · intro i hi
    show buf[i]? = _
    rw [h2 i (by omega), hset i (by omega)]
  · intro c hc
    exact h3 c hc
  · show buf[_]? = _
    rw [h2 _ (by omega), halpha]

end Gray

/-- Every face of the table yields a direction vector of non-zero length. -/
theorem own_orientation_norm_ne_zero (face : String) (f : Orientation ℝ)
    (hf : faceOrientations face = Property.own f) (cube : Vec3 ℝ) (x y : ℝ) :
    realMath.sqrt ((f cube x y).x * (f cube x y).x + (f cube x y).y * (f cube x y).y +
      (f cube x y).z * (f cube x y).z) ≠ 0 := by
  have hpos : 0 < (f cube x y).x * (f cube x y).x + (f cube x y).y * (f cube x y).y +
      (f cube x y).z * (f cube x y).z := by
    unfold faceOrientations at hf
    split_ifs at hf <;>
      first
      | (obtain rfl : _ = f := by simpa using hf
         simp only [faceOrientations.pz, faceOrientations.nz, faceOrientations.px,
           faceOrientations.nx, faceOrientations.py, faceOrientations.ny]
         nlinarith [mul_self_nonneg x, mul_self_nonneg y])
      | (exfalso; unfold Property.notOwn at hf; split_ifs at hf)
  exact (Real.sqrt_pos.mpr hpos).ne'

/-- C3: for every well-formed source image of width at least 4 whose every pixel has
`R = G = B = 128`, each of the six faces, every real rotation, every interpolation
choice (`nearest`, `bilinear`, `bicubic`, `lanczos`, or absent) and every size cap
(absent or a positive integer), `renderFace` returns an image every pixel of which is
exactly `(128, 128, 128, 255)`. -/
theorem gray_render (req : RenderRequest ℝ) (hwf : req.data.WellFormed)
    (hW : 4 ≤ req.data.width) (hg : req.data.IsGray)
    (hface : req.face ∈ ["pz", "nz", "px", "nx", "py", "ny"])
    (hint : req.interpolation ∈
      [none, some "nearest", some "bilinear", some "bicubic", some "lanczos"])
    (hcap : req.maxWidth ≠ some 0) :
    ∃ r, renderFace realMath req = .ok r ∧
      ∀ k, k < r.width * r.height →
        r.data.data[4 * k]? = some 128 ∧ r.data.data[4 * k + 1]? = some 128 ∧
        r.data.data[4 * k + 2]? = some 128 ∧ r.data.data[4 * k + 3]? = some 255 := by
  have hn : 1 ≤ faceSize req.maxWidth req.data.width := by
    unfold faceSize
    cases hm : req.maxWidth with
    | none => simp only; omega
    | some m =>
      have : m ≠ 0 := fun h => hcap (by rw [hm, h])
      simp only
      have : 1 ≤ req.data.width / 4 := by omega
      exact le_min (by omega) this
  have havail : copierAvailable (req.interpolation.getD "lanczos") := by
    simp only [List.mem_cons, List.mem_singleton, List.not_mem_nil, or_false] at hint
    rcases hint with h | h | h | h | h <;> rw [h] <;> decide
  obtain ⟨f, hf⟩ : ∃ f : Orientation ℝ, faceOrientations req.face = Property.own f := by
    simp only [List.mem_cons, List.mem_singleton, List.not_mem_nil, or_false] at hface
    rcases hface with h | h | h | h | h | h <;> rw [h] <;>
      exact ⟨_, by simp [faceOrientations]; rfl⟩
  obtain ⟨s, hsel, hs⟩ :=
    selectCopier_available realMath (req.interpolation.getD "lanczos") req.data havail
  have hwr : s.Writes 128 := by
    rcases hs with rfl | rfl | rfl | rfl
    · exact nearest_gray req.data hwf hg
    · exact bilinear_gray req.data hwf hg
    · exact createKernelResampler_gray req.data hwf hg 2 _
        (fun c => le_trans (bicubic_values_sum c).2.2.2 (by norm_num))
    · exact createKernelResampler_gray req.data hwf hg 5 _ (fun c => (lanczos_values_sum c).2.2)
  obtain ⟨st, hloop, hlen, hP⟩ := renderLoop_spec realMath req.data req.rotation
    (faceOrientations req.face) (.fn s) (faceSize req.maxWidth req.data.width)
    (fun k buf => (∀ c, c < 3 → buf[4 * k + c]? = some 128) ∧ buf[4 * k + 3]? = some 255)
    (fun k buf buf' h hb => by
      refine ⟨fun c hc => ?_, ?_⟩
      · rw [h c (by omega)]; exact hb.1 c hc
      · rw [h 3 (by norm_num)]; exact hb.2)
    (fun y x st hy hx hl => by
      rw [hf]
      obtain ⟨st', h1, h2, h3, h4, h5⟩ := renderPixel_writes realMath req.data req.rotation f s
        128 hwr (own_orientation_norm_ne_zero req.face f hf) _ y x hy hx st hl
      exact ⟨st', h1, h2, h3, h4, h5⟩)
    ({ x := 0, y := 0, z := 0 },
      List.replicate (4 * faceSize req.maxWidth req.data.width *
        faceSize req.maxWidth req.data.width) 0) (by simp)
  refine ⟨_, renderFace_of_loop realMath req (.fn s) st hn hsel hloop, ?_⟩
  intro k hk
  obtain ⟨h1, h2⟩ := hP k hk
  exact ⟨h1 0 (by norm_num), h1 1 (by norm_num), h1 2 (by norm_num), h2⟩


theorem gray_render_witness :
    imageGray.WellFormed ∧ imageGray.IsGray ∧
    ∃ r, renderFace realMath
        { data := imageGray, face := "py", rotation := 1, interpolation := some "lanczos",
          maxWidth := none } = .ok r ∧
      ∀ k, k < r.width * r.height →
        r.data.data[4 * k]? = some 128 ∧ r.data.data[4 * k + 1]? = some 128 ∧
        r.data.data[4 * k + 2]? = some 128 ∧ r.data.data[4 * k + 3]? = some 255 :=
  ⟨by decide, by unfold ImageData.IsGray; decide,
   gray_render
     { data := imageGray, face := "py", rotation := 1, interpolation := some "lanczos",
       maxWidth := none } (by decide) (by decide) (by unfold ImageData.IsGray; decide)
     (by decide) (by decide) (by decide)⟩

/-! ## Integer coordinates -/

section IntegerCoordinates

variable {α : Type} [LinearOrderedField α] [FloorRing α]

theorem drop_take_three (l : List ℕ) (i a b c : ℕ) (ha : l[i]? = some a)
    (hb : l[i + 1]? = some b) (hc : l[i + 2]? = some c) : (l.drop i).take 3 = [a, b, c] := by
  apply List.ext_getElem?
  intro n
  rcases Nat.lt_or_ge n 3 with h | h
  · rw [List.getElem?_take_of_lt h, List.getElem?_drop]
    obtain rfl | rfl | rfl : n = 0 ∨ n = 1 ∨ n = 2 := by omega
    · simpa using ha
    · simpa using hb
    · simpa using hc
  · rw [List.getElem?_take_eq_none h, List.getElem?_eq_none (by simpa using h)]

theorem sum_mul_indicator {β : Type} [LinearOrderedField β] (n p : ℕ) (f w : ℕ → β)
    (hw : ∀ j, j < n → w j = if j = p then 1 else 0) :
    ((List.range n).map (fun j => f j * w j)).sum = if p < n then f p else 0 := by
  induction n with
  | zero => simp
  | succ n ih =>
    rw [List.range_succ, List.map_append, List.sum_append, ih (fun j hj => hw j (by omega))]
    simp only [List.map_cons, List.map_nil, List.sum_cons, List.sum_nil, add_zero]
    rw [hw n (by omega)]
    by_cases h1 : p < n
    · rw [if_pos h1, if_neg (by omega), if_pos (by omega)]; ring
    · rw [if_neg h1]
      by_cases h2 : n = p
      · rw [if_pos h2, if_pos (by omega), h2]; ring
      · rw [if_neg h2, if_neg (by omega)]; ring

/-- The nearest strategy at integer coordinates, in terms of the channels of the pixel. -/
theorem nearest_int (read : ImageData) (hwf : read.WellFormed) (write : List ℕ) (toIdx : ℕ)
    (hto : toIdx + 3 ≤ write.length) (x y : ℕ) (hx : x < read.width) (hy : y < read.height) :
    (createPixelCopier.nearest read : Sampler α).sample write (x : α) (y : α) toIdx =
      .ok (write.take toIdx ++ [read.channel x y 0, read.channel x y 1, read.channel x y 2] ++
        write.drop (toIdx + 3)) := by
  have h := (nearest_copies_pixel read hwf write toIdx hto x y hx hy (0 : α) 0).1.1
  have g : ∀ c, c < 4 → read.data[4 * (y * read.width + x) + c]? =
      some (read.channel (x : ℤ) (y : ℤ) c) := by
    intro c hc
    have := (getByte_channel read hwf (x := (x : ℤ)) (y := (y : ℤ)) (by omega) (by omega)
      (by omega) (by omega) c hc).2.1
    simpa using this
  rw [h, drop_take_three read.data _ _ _ _ (by simpa using g 0 (by norm_num))
    (g 1 (by norm_num)) (g 2 (by norm_num))]

theorem channel_stored (read : ImageData) (hwf : read.WellFormed) (x y : ℕ)
    (hx : x < read.width) (hy : y < read.height) (c : ℕ) (hc : c < 4) :
    storedByte (some ((read.channel (x : ℤ) (y : ℤ) c : ℕ) : ℤ)) = read.channel x y c := by
  have := (getByte_channel read hwf (x := (x : ℤ)) (y := (y : ℤ)) (by omega) (by omega)
      (by omega) (by omega) c hc).2.2
  exact toUint8Clamped_natCast this

/-- A sampler storing the rounded channels of the pixel `(x, y)` agrees with nearest. -/
theorem sample_of_channels (read : ImageData) (hwf : read.WellFormed) (write : List ℕ)
    (toIdx : ℕ) (hto : toIdx + 3 ≤ write.length) (x y : ℕ) (hx : x < read.width)
    (hy : y < read.height) (f : ℕ → Option ℤ)
    (hf : ∀ c, c < 3 → f c = some ((read.channel (x : ℤ) (y : ℤ) c : ℕ) : ℤ)) :
    (Except.ok ((List.range 3).foldl
        (fun w channel => setByte w (toIdx + channel) (f channel)) write) : Except JsError _) =
      (createPixelCopier.nearest read : Sampler α).sample write (x : α) (y : α) toIdx := by
  rw [nearest_int read hwf write toIdx hto x y hx hy, foldl_setByte_eq write toIdx f hto,
    hf 0 (by norm_num), hf 1 (by norm_num), hf 2 (by norm_num),
    channel_stored read hwf x y hx hy 0 (by norm_num),
    channel_stored read hwf x y hx hy 1 (by norm_num),
    channel_stored read hwf x y hx hy 2 (by norm_num)]

theorem bilinearChannel_int (read : ImageData) (hwf : read.WellFormed) (x y : ℕ)
    (hx : x < read.width) (hy : y < read.height) (c : ℕ) (hc : c < 4) :
    createPixelCopier.bilinearChannel read (x : α) (y : α) c =
      some ((read.channel (x : ℤ) (y : ℤ) c : ℕ) : ℤ) := by
  obtain ⟨d00, d10, d01, d11, h00, h10, h01, h11, hv⟩ :=
    bilinearChannel_eq read hwf (x : α) (y : α) c hc
  have c1 : clamp (x : ℤ) 0 ((read.width : ℤ) - 1) = x := clamp_of_mem (by omega) (by omega)
  have c3 : clamp (y : ℤ) 0 ((read.height : ℤ) - 1) = y := clamp_of_mem (by omega) (by omega)
  simp only [Int.floor_natCast, Int.ceil_natCast, c1, c3] at h00 h10 h01 h11 hv
  have g := (getByte_channel read hwf (x := (x : ℤ)) (y := (y : ℤ)) (by omega) (by omega)
      (by omega) (by omega) c hc).2.1
  rw [g] at h00 h10 h01 h11
  obtain rfl := Option.some.inj h00
  obtain rfl := Option.some.inj h10
  obtain rfl := Option.some.inj h01
  obtain rfl := Option.some.inj h11
  rw [hv]
  congr 1
  rw [Int.ceil_eq_iff]
  push_cast
  constructor
  · ring_nf; norm_num
  · ring_nf; norm_num

/-- The kernel resampler at integer coordinates, when the weights of each axis are
`1` at the tap of the pixel itself and `0` elsewhere. -/
theorem kernelChannel_int (read : ImageData) (hwf : read.WellFormed) (filterSize : ℕ)
    (hR : 1 ≤ filterSize) (kernel : α → α) (x y : ℕ) (hx : x < read.width)
    (hy : y < read.height)
    (hwx : ∀ j, j < 2 * filterSize →
      (kernelWeights filterSize kernel (x : α)).getD j 0 = if j = filterSize - 1 then 1 else 0)
    (hwy : ∀ j, j < 2 * filterSize →
      (kernelWeights filterSize kernel (y : α)).getD j 0 = if j = filterSize - 1 then 1 else 0)
    (c : ℕ) (hc : c < 4) :
    kernelChannel read filterSize kernel (x : α) (y : α) c =
      some ((read.channel (x : ℤ) (y : ℤ) c : ℕ) : ℤ) := by
  rw [kernelChannel_eq read hwf filterSize kernel (x : α) (y : α) c hc]
  have e : ∀ z : ℕ, (z : ℤ) - (filterSize : ℤ) + 1 + ((filterSize - 1 : ℕ) : ℤ) = z := by
    intro z; omega
  have c1 : clamp (x : ℤ) 0 ((read.width : ℤ) - 1) = x := clamp_of_mem (by omega) (by omega)
  have c3 : clamp (y : ℤ) 0 ((read.height : ℤ) - 1) = y := clamp_of_mem (by omega) (by omega)
  simp only [Int.floor_natCast]
  rw [sum_mul_indicator (2 * filterSize) (filterSize - 1) _ _ hwy, if_pos (by omega),
    sum_mul_indicator (2 * filterSize) (filterSize - 1) _ _ hwx, if_pos (by omega),
    e x, e y, c1, c3]
  congr 1
  exact jsRound_natCast _

theorem toFloat32_one : toFloat32 (1 : α) = 1 := by
  have := @toFloat32_representable α _ _ 1 0 (by norm_num) (by norm_num)
  simpa using this

theorem bicubic_values_int (x : ℕ) :
    kernelValues 2 createPixelCopier.bicubicKernel (x : α) = [0, 1, 0, 0] := by
  rw [kernelValues_two, Int.fract_natCast]
  have e1 : |(0 : α) + 1| = 1 := by norm_num
  have e2 : |(0 : α) - 1| = 1 := by norm_num
  have e3 : |(0 : α) - 2| = 2 := by norm_num
  unfold createPixelCopier.bicubicKernel
  simp only [e1, e2, e3, abs_zero]
  norm_num [toFloat32_zero, toFloat32_one]

theorem bicubic_weights_int (x : ℕ) :
    kernelWeights 2 createPixelCopier.bicubicKernel (x : α) = [0, 1, 0, 0] := by
  unfold kernelWeights
  simp only
  rw [bicubic_values_int]
  have : kernelSum ([0, 1, 0, 0] : List α) = 1 := by
    rw [kernelSum_eq_sum]; norm_num
  rw [this]
  norm_num [toFloat32_zero, toFloat32_one]

theorem lanczos_values_int (x : ℕ) :
    kernelValues 5 (createPixelCopier.lanczosKernel realMath) (x : ℝ) =
      [0, 0, 0, 0, 1, 0, 0, 0, 0, 0] := by
  rw [kernelValues_five, Int.fract_natCast]
  have z : ∀ m : ℤ, m ≠ 0 → createPixelCopier.lanczosKernel realMath (m : ℝ) = 0 :=
    lanczosKernel_int
  have z4 := z 4 (by decide)
  have z3 := z 3 (by decide)
  have z2 := z 2 (by decide)
  have z1 := z 1 (by decide)
  have y1 := z (-1) (by decide)
  have y2 := z (-2) (by decide)
  have y3 := z (-3) (by decide)
  have y4 := z (-4) (by decide)
  have y5 := z (-5) (by decide)
  push_cast at z4 z3 z2 z1 y1 y2 y3 y4 y5
  simp only [zero_add, zero_sub, z4, z3, z2, z1, y1, y2, y3, y4, y5, lanczosKernel_zero,
    toFloat32_zero, toFloat32_one]

theorem lanczos_weights_int (x : ℕ) :
    kernelWeights 5 (createPixelCopier.lanczosKernel realMath) (x : ℝ) =
      [0, 0, 0, 0, 1, 0, 0, 0, 0, 0] := by
  unfold kernelWeights
  simp only
  rw [lanczos_values_int]
  have : kernelSum ([0, 0, 0, 0, 1, 0, 0, 0, 0, 0] : List ℝ) = 1 := by
    rw [kernelSum_eq_sum]; norm_num
  rw [this]
  norm_num [toFloat32_zero, toFloat32_one]

end IntegerCoordinates

/-- C6: for a well-formed source image and integer coordinates `(x, y)` inside it, the
bilinear, bicubic and Lanczos strategies called with `(xFrom, yFrom) = (x, y)` return
the same destination as the nearest strategy, whose three bytes at `to` are the `R`,
`G`, `B` of the source pixel `(x, y)`. -/
theorem integer_coordinates_agree (read : ImageData) (hwf : read.WellFormed) (write : List ℕ)
    (toIdx : ℕ) (hto : toIdx + 3 ≤ write.length) (x y : ℕ) (hx : x < read.width)
    (hy : y < read.height) :
    (createPixelCopier.bilinear read : Sampler ℝ).sample write (x : ℝ) (y : ℝ) toIdx =
      (createPixelCopier.nearest read : Sampler ℝ).sample write (x : ℝ) (y : ℝ) toIdx ∧
    (createPixelCopier.bicubic read : Sampler ℝ).sample write (x : ℝ) (y : ℝ) toIdx =
      (createPixelCopier.nearest read : Sampler ℝ).sample write (x : ℝ) (y : ℝ) toIdx ∧
    (createPixelCopier.lanczos realMath read).sample write (x : ℝ) (y : ℝ) toIdx =
      (createPixelCopier.nearest read : Sampler ℝ).sample write (x : ℝ) (y : ℝ) toIdx ∧
    (createPixelCopier.nearest read : Sampler ℝ).sample write (x : ℝ) (y : ℝ) toIdx =
      .ok (write.take toIdx ++ (read.data.drop (4 * (y * read.width + x))).take 3 ++
        write.drop (toIdx + 3)) := by
  have hb : ∀ z : ℕ, ∀ j, j < 2 * 2 →
      (kernelWeights 2 createPixelCopier.bicubicKernel (z : ℝ)).getD j 0 =
        if j = 2 - 1 then 1 else 0 := by
    intro z j hj
    rw [bicubic_weights_int]
    interval_cases j <;> simp
  have hl : ∀ z : ℕ, ∀ j, j < 2 * 5 →
      (kernelWeights 5 (createPixelCopier.lanczosKernel realMath) (z : ℝ)).getD j 0 =
        if j = 5 - 1 then 1 else 0 := by
    intro z j hj
    rw [lanczos_weights_int]
    interval_cases j <;> simp
  refine ⟨?_, ?_, ?_, (nearest_copies_pixel read hwf write toIdx hto x y hx hy (0 : ℝ) 0).1.1⟩
  · exact sample_of_channels read hwf write toIdx hto x y hx hy _
      (fun c hc => bilinearChannel_int read hwf x y hx hy c (by omega))
  · exact sample_of_channels read hwf write toIdx hto x y hx hy _
      (fun c hc => kernelChannel_int read hwf 2 (by norm_num) _ x y hx hy (hb x) (hb y) c
        (by omega))
  · exact sample_of_channels read hwf write toIdx hto x y hx hy _
      (fun c hc => kernelChannel_int read hwf 5 (by norm_num) _ x y hx hy (hl x) (hl y) c
        (by omega))

theorem integer_coordinates_agree_witness :
    imageStep.WellFormed ∧
    (createPixelCopier.bilinear imageStep : Sampler ℝ).sample [7, 7, 7, 255] ((1 : ℕ) : ℝ)
        ((0 : ℕ) : ℝ) 0 =
      (createPixelCopier.nearest imageStep : Sampler ℝ).sample [7, 7, 7, 255] ((1 : ℕ) : ℝ)
        ((0 : ℕ) : ℝ) 0 ∧
    (createPixelCopier.bicubic imageStep : Sampler ℝ).sample [7, 7, 7, 255] ((1 : ℕ) : ℝ)
        ((0 : ℕ) : ℝ) 0 =
      (createPixelCopier.nearest imageStep : Sampler ℝ).sample [7, 7, 7, 255] ((1 : ℕ) : ℝ)
        ((0 : ℕ) : ℝ) 0 ∧
    (createPixelCopier.lanczos realMath imageStep).sample [7, 7, 7, 255] ((1 : ℕ) : ℝ)
        ((0 : ℕ) : ℝ) 0 =
      (createPixelCopier.nearest imageStep : Sampler ℝ).sample [7, 7, 7, 255] ((1 : ℕ) : ℝ)
        ((0 : ℕ) : ℝ) 0 ∧
    (createPixelCopier.nearest imageStep : Sampler ℝ).sample [7, 7, 7, 255] ((1 : ℕ) : ℝ)
        ((0 : ℕ) : ℝ) 0 = .ok [100, 100, 100, 255] :=
  ⟨by decide,
   integer_coordinates_agree imageStep (by decide) [7, 7, 7, 255] 0 (by decide) 1 0
     (by decide) (by decide)⟩


/-! ## No source read is out of bounds -/

section ReadsTheorems

variable {α : Type} [LinearOrderedField α] [FloorRing α]

theorem inImage_bounds {width height : ℕ} (hw : 1 ≤ width) (hh : 1 ≤ height) {idx : ℤ}
    (h : InImage width height idx) : 0 ≤ idx ∧ idx < 4 * (width : ℤ) * (height : ℤ) := by
  obtain ⟨x, y, c, hx, hy, hc, rfl⟩ := h
  have := pixel_index_lt (w := width) (h := height) (x := x) (y := y) (c := c)
    (by omega) (by omega) (by omega)
  constructor
  · positivity
  · exact_mod_cast this

theorem readIndex_inImage {width height : ℕ} (hw : 1 ≤ width) (hh : 1 ≤ height) (x y : ℤ)
    (c : ℕ) (hc : c < 3) :
    InImage width height
      (readIndex width (clamp x 0 ((width : ℤ) - 1)) (clamp y 0 ((height : ℤ) - 1)) + (c : ℤ)) := by
  have hX := @clamp_bounds 0 ((width : ℤ) - 1) (by omega) x
  have hY := @clamp_bounds 0 ((height : ℤ) - 1) (by omega) y
  obtain ⟨h0, h1⟩ := readIndex_toNat width hX.1 hY.1 c
  refine ⟨(clamp x 0 ((width : ℤ) - 1)).toNat, (clamp y 0 ((height : ℤ) - 1)).toNat, c,
    by omega, by omega, hc, ?_⟩
  rw [← h1, Int.toNat_of_nonneg h0]


theorem nearestReads_inImage (read : ImageData) (hw : 1 ≤ read.width) (hh : 1 ≤ read.height)
    (xFrom yFrom : α) (idx : ℤ) (h : idx ∈ createPixelCopier.nearestReads read xFrom yFrom) :
    InImage read.width read.height idx := by
  unfold createPixelCopier.nearestReads createPixelCopier.nearestIndex at h
  simp only [List.mem_cons, List.mem_singleton, List.not_mem_nil, or_false] at h
  have g := fun c hc => readIndex_inImage hw hh (jsRound xFrom) (jsRound yFrom) c hc
  rcases h with rfl | rfl | rfl
  · simpa using g 0 (by norm_num)
  · simpa using g 1 (by norm_num)
  · simpa using g 2 (by norm_num)

theorem bilinearReads_inImage (read : ImageData) (hw : 1 ≤ read.width) (hh : 1 ≤ read.height)
    (xFrom yFrom : α) (idx : ℤ) (h : idx ∈ createPixelCopier.bilinearReads read xFrom yFrom) :
    InImage read.width read.height idx := by
  unfold createPixelCopier.bilinearReads at h
  simp only [List.mem_flatMap, List.mem_range, List.mem_cons, List.mem_singleton,
    List.not_mem_nil, or_false] at h
  obtain ⟨c, hc, rfl | rfl | rfl | rfl⟩ := h <;> exact readIndex_inImage hw hh _ _ c hc

theorem kernelReads_inImage (read : ImageData) (hw : 1 ≤ read.width) (hh : 1 ≤ read.height)
    (filterSize : ℕ) (xFrom yFrom : α) (idx : ℤ)
    (h : idx ∈ kernelReads read filterSize xFrom yFrom) :
    InImage read.width read.height idx := by
  unfold kernelReads at h
  simp only [List.mem_flatMap, List.mem_range, List.mem_map] at h
  obtain ⟨c, hc, i, -, j, -, rfl⟩ := h
  exact readIndex_inImage hw hh _ _ c hc

theorem getByte_isSome_of_inImage (read : ImageData)
    (hlen : read.data.length = 4 * read.width * read.height) (hw : 1 ≤ read.width)
    (hh : 1 ≤ read.height) {idx : ℤ} (h : InImage read.width read.height idx) :
    (getByte read.data idx).isSome = true := by
  obtain ⟨h0, h1⟩ := inImage_bounds hw hh h
  rw [getByte_of_nonneg read.data h0]
  have : idx.toNat < read.data.length := by
    rw [hlen]
    have : (idx.toNat : ℤ) < ((4 * read.width * read.height : ℕ) : ℤ) := by
      rw [Int.toNat_of_nonneg h0]; exact_mod_cast h1
    exact_mod_cast this
  rw [List.getElem?_eq_getElem this]
  rfl

/-- C11: for every source image with `width ≥ 1` and `height ≥ 1` and every
`(xFrom, yFrom)`, every source index read by the nearest, bilinear, bicubic (radius 2)
and Lanczos (radius 5) strategies is `4 * (y * width + x) + c` with `0 ≤ x ≤ width - 1`,
`0 ≤ y ≤ height - 1` and `c < 3`, hence lies in `[0, 4 * width * height)`; with a source
array of that length every such read yields a byte. -/
theorem reads_in_bounds (read : ImageData) (hw : 1 ≤ read.width) (hh : 1 ≤ read.height)
    (xFrom yFrom : α) (idx : ℤ)
    (h : idx ∈ createPixelCopier.nearestReads read xFrom yFrom ∨
      idx ∈ createPixelCopier.bilinearReads read xFrom yFrom ∨
      idx ∈ kernelReads read 2 xFrom yFrom ∨ idx ∈ kernelReads read 5 xFrom yFrom) :
    InImage read.width read.height idx ∧
    (0 ≤ idx ∧ idx < 4 * (read.width : ℤ) * (read.height : ℤ)) ∧
    (read.data.length = 4 * read.width * read.height →
      (getByte read.data idx).isSome = true) := by
  have hin : InImage read.width read.height idx := by
    rcases h with h | h | h | h
    · exact nearestReads_inImage read hw hh xFrom yFrom idx h
    · exact bilinearReads_inImage read hw hh xFrom yFrom idx h
    · exact kernelReads_inImage read hw hh 2 xFrom yFrom idx h
    · exact kernelReads_inImage read hw hh 5 xFrom yFrom idx h
  exact ⟨hin, inImage_bounds hw hh hin, fun hlen => getByte_isSome_of_inImage read hlen hw hh hin⟩

theorem reads_in_bounds_witness :
    (1 ≤ imageStep.width ∧ 1 ≤ imageStep.height) ∧
    (6 : ℤ) ∈ kernelReads imageStep 2 (1000 / 3 : ℚ) (-40) ∧
    InImage imageStep.width imageStep.height 6 ∧
    ((0 : ℤ) ≤ 6 ∧ (6 : ℤ) < 4 * (imageStep.width : ℤ) * (imageStep.height : ℤ)) ∧
    (imageStep.data.length = 4 * imageStep.width * imageStep.height →
      (getByte imageStep.data 6).isSome = true) := by
  have f1 : ⌊(1000 / 3 : ℚ)⌋ = 333 := by
    rw [Int.floor_eq_iff]; constructor <;> norm_num
  have f2 : ⌊(-40 : ℚ)⌋ = -40 := by
    rw [Int.floor_eq_iff]; constructor <;> norm_num
  have hmem : (6 : ℤ) ∈ kernelReads imageStep 2 (1000 / 3 : ℚ) (-40) := by
    unfold kernelReads
    simp only [List.mem_flatMap, List.mem_range, List.mem_map, f1, f2]
    exact ⟨2, by norm_num, 0, by norm_num, 0, by norm_num, by decide⟩
  exact ⟨⟨by decide, by decide⟩, hmem,
    reads_in_bounds imageStep (by decide) (by decide) (1000 / 3 : ℚ) (-40) 6
      (Or.inr (Or.inr (Or.inl hmem)))⟩

end ReadsTheorems

/-! ## The six faces tile the cube -/

section Tiling

variable {α : Type} [LinearOrderedField α]

/-- The own members of `faceOrientations` are the six orientation functions. -/
theorem faceOrientations_own_cases (face : String) (f : Orientation α)
    (hf : faceOrientations face = Property.own f) :
    (face = "pz" ∧ f = faceOrientations.pz) ∨ (face = "nz" ∧ f = faceOrientations.nz) ∨
    (face = "px" ∧ f = faceOrientations.px) ∨ (face = "nx" ∧ f = faceOrientations.nx) ∨
    (face = "py" ∧ f = faceOrientations.py) ∨ (face = "ny" ∧ f = faceOrientations.ny) := by
  unfold faceOrientations at hf
  split_ifs at hf with h1 h2 h3 h4 h5 h6
  · exact Or.inl ⟨h1, by simpa using hf.symm⟩
  · exact Or.inr (Or.inl ⟨h2, by simpa using hf.symm⟩)
  · exact Or.inr (Or.inr (Or.inl ⟨h3, by simpa using hf.symm⟩))
  · exact Or.inr (Or.inr (Or.inr (Or.inl ⟨h4, by simpa using hf.symm⟩)))
  · exact Or.inr (Or.inr (Or.inr (Or.inr (Or.inl ⟨h5, by simpa using hf.symm⟩))))
  · exact Or.inr (Or.inr (Or.inr (Or.inr (Or.inr ⟨h6, by simpa using hf.symm⟩))))
  · exfalso
    unfold Property.notOwn at hf
    split_ifs at hf

theorem abs_eq_one_cases {a : α} (h : |a| = 1) : a = 1 ∨ a = -1 := by
  rcases abs_cases a with ⟨h1, _⟩ | ⟨h1, _⟩
  · left; linarith
  · right; linarith

/-- C12: the six orientation functions tile the surface of the cube `[-1,1]³`: every
point with `max(|a|,|b|,|c|) = 1` is the image of some `(x, y)` in `[-1,1]²` under one of
them; each maps `[-1,1]²` into that surface and is injective; and two different faces
can produce the same point only on an edge or at a corner (at least two coordinates of
absolute value `1`). -/
theorem faces_tile_cube :
    (∀ a b c : α, max |a| (max |b| |c|) = 1 →
      ∃ (face : String) (f : Orientation α) (x y : α),
        faceOrientations face = Property.own f ∧ |x| ≤ 1 ∧ |y| ≤ 1 ∧
        ∀ out, f out x y = { x := a, y := b, z := c }) ∧
    (∀ (face : String) (f : Orientation α), faceOrientations face = Property.own f →
      ∀ (out : Vec3 α) (x y : α), |x| ≤ 1 → |y| ≤ 1 →
        max |(f out x y).x| (max |(f out x y).y| |(f out x y).z|) = 1) ∧
    (∀ (face : String) (f : Orientation α), faceOrientations face = Property.own f →
      ∀ (out out' : Vec3 α) (x y x' y' : α), f out x y = f out' x' y' → x = x' ∧ y = y') ∧
    (∀ (face face' : String) (f f' : Orientation α),
      faceOrientations face = Property.own f → faceOrientations face' = Property.own f' →
      face ≠ face' →
      ∀ (out out' : Vec3 α) (x y x' y' : α), f out x y = f' out' x' y' →
        Vec3.OnEdge (f out x y)) := by
  refine ⟨?_, ?_, ?_, ?_⟩
  · intro a b c h
    have ha : |a| ≤ 1 := h ▸ le_max_left _ _
    have hb : |b| ≤ 1 := h ▸ le_trans (le_max_left _ _) (le_max_right _ _)
    have hc : |c| ≤ 1 := h ▸ le_trans (le_max_right _ _) (le_max_right _ _)
    have hone : |a| = 1 ∨ |b| = 1 ∨ |c| = 1 := by
      rcases max_choice |a| (max |b| |c|) with h1 | h1
      · left; rw [← h1]; exact h
      · rcases max_choice |b| |c| with h2 | h2
        · right; left; rw [← h2, ← h1]; exact h
        · right; right; rw [← h2, ← h1]; exact h
    rcases hone with h1 | h1 | h1 <;> rcases abs_eq_one_cases h1 with h2 | h2 <;> subst h2
    · exact ⟨"nz", faceOrientations.nz, b, -c, by simp [faceOrientations], hb,
        by rwa [abs_neg], fun out => by simp [faceOrientations.nz]⟩
    · exact ⟨"pz", faceOrientations.pz, -b, -c, by simp [faceOrientations],
        by rwa [abs_neg], by rwa [abs_neg], fun out => by simp [faceOrientations.pz]⟩
    · exact ⟨"nx", faceOrientations.nx, -a, -c, by simp [faceOrientations],
        by rwa [abs_neg], by rwa [abs_neg], fun out => by simp [faceOrientations.nx]⟩
    · exact ⟨"px", faceOrientations.px, a, -c, by simp [faceOrientations], ha,
        by rwa [abs_neg], fun out => by simp [faceOrientations.px]⟩
    · exact ⟨"py", faceOrientations.py, -b, -a, by simp [faceOrientations],
        by rwa [abs_neg], by rwa [abs_neg], fun out => by simp [faceOrientations.py]⟩
    · exact ⟨"ny", faceOrientations.ny, -b, a, by simp [faceOrientations],
        by rwa [abs_neg], ha, fun out => by simp [faceOrientations.ny]⟩
  · intro face f hf out x y hx hy
    rcases faceOrientations_own_cases face f hf with
      ⟨-, rfl⟩ | ⟨-, rfl⟩ | ⟨-, rfl⟩ | ⟨-, rfl⟩ | ⟨-, rfl⟩ | ⟨-, rfl⟩ <;>
    simp [faceOrientations.pz, faceOrientations.nz, faceOrientations.px,
      faceOrientations.nx, faceOrientations.py, faceOrientations.ny, hx, hy]
  · intro face f hf out out' x y x' y' h
    rcases faceOrientations_own_cases face f hf with
      ⟨-, rfl⟩ | ⟨-, rfl⟩ | ⟨-, rfl⟩ | ⟨-, rfl⟩ | ⟨-, rfl⟩ | ⟨-, rfl⟩ <;>
    (simp only [faceOrientations.pz, faceOrientations.nz, faceOrientations.px,
      faceOrientations.nx, faceOrientations.py, faceOrientations.ny, Vec3.mk.injEq,
      neg_inj, true_and, and_true] at h
     constructor <;> linarith [h.1, h.2])
  · intro face face' f f' hf hf' hne out out' x y x' y' h
    rcases faceOrientations_own_cases face f hf with
      ⟨rfl, rfl⟩ | ⟨rfl, rfl⟩ | ⟨rfl, rfl⟩ | ⟨rfl, rfl⟩ | ⟨rfl, rfl⟩ | ⟨rfl, rfl⟩ <;>
    rcases faceOrientations_own_cases face' f' hf' with
      ⟨rfl, rfl⟩ | ⟨rfl, rfl⟩ | ⟨rfl, rfl⟩ | ⟨rfl, rfl⟩ | ⟨rfl, rfl⟩ | ⟨rfl, rfl⟩ <;>
    first
    | exact absurd rfl hne
    | (simp only [faceOrientations.pz, faceOrientations.nz, faceOrientations.px,
        faceOrientations.nx, faceOrientations.py, faceOrientations.ny, Vec3.mk.injEq] at h
       obtain ⟨h1, h2, h3⟩ := h
       unfold Vec3.OnEdge
       simp only [faceOrientations.pz, faceOrientations.nz, faceOrientations.px,
        faceOrientations.nx, faceOrientations.py, faceOrientations.ny]
       first
       | (exfalso; linarith)
       | (left; constructor <;>
            (rw [abs_eq zero_le_one]; first | (left; linarith) | (right; linarith)))
       | (right; left; constructor <;>
            (rw [abs_eq zero_le_one]; first | (left; linarith) | (right; linarith)))
       | (right; right; constructor <;>
            (rw [abs_eq zero_le_one]; first | (left; linarith) | (right; linarith))))

end Tiling

/-! ## Frame of the strategies, for any offset and any source -/

section Frames

variable {α : Type} [LinearOrderedField α] [FloorRing α]

theorem subarray_length_le (data : List ℕ) (b : ℤ) : (subarray data b (b + 3)).length ≤ 3 := by
  unfold subarray
  simp only [List.length_take, List.length_drop]
  refine le_trans (Nat.min_le_left _ _) ?_
  split_ifs <;> omega

theorem typedArraySet_frame (target source : List ℕ) (offset : ℕ) (buf : List ℕ)
    (h : typedArraySet target source offset = .ok buf) :
    buf.length = target.length ∧
      ∀ i, i < offset ∨ offset + source.length ≤ i → buf[i]? = target[i]? := by
  have hfit : source.length + offset ≤ target.length := by
    by_contra hc
    unfold typedArraySet at h
    rw [if_pos (by omega)] at h
    cases h
  obtain ⟨buf', hb, h1, -, h3⟩ := typedArraySet_spec target source offset hfit
  rw [h] at hb
  obtain rfl := Except.ok.inj hb
  exact ⟨h1, h3⟩

theorem nearest_frames (read : ImageData) : (createPixelCopier.nearest read : Sampler α).Frames := by
  constructor
  · intro write xFrom yFrom toIdx buf h
    obtain ⟨h1, h2⟩ := typedArraySet_frame write _ toIdx buf h
    have := subarray_length_le read.data (createPixelCopier.nearestIndex read xFrom yFrom)
    exact ⟨h1, fun i hi => h2 i (by omega)⟩
  · intro write toIdx buf h
    obtain ⟨h1, h2⟩ := typedArraySet_frame write [] toIdx buf h
    exact ⟨h1, fun i hi => h2 i (by simp only [List.length_nil]; omega)⟩

theorem foldl_setByte_frame (write : List ℕ) (toIdx : ℕ) (f : ℕ → Option ℤ) :
    ((List.range 3).foldl (fun w channel => setByte w (toIdx + channel) (f channel))
      write).length = write.length ∧
    ∀ i, i < toIdx ∨ toIdx + 3 ≤ i →
      ((List.range 3).foldl (fun w channel => setByte w (toIdx + channel) (f channel))
        write)[i]? = write[i]? := by
  have hr : List.range 3 = [0, 1, 2] := rfl
  rw [hr]
  simp only [List.foldl_cons, List.foldl_nil, setByte, add_zero, List.length_set, true_and]
  intro i hi
  rw [List.getElem?_set_ne (by omega), List.getElem?_set_ne (by omega),
    List.getElem?_set_ne (by omega)]

theorem foldl_setByte_frames (write : List ℕ) (toIdx : ℕ) (f : ℕ → Option ℤ) (buf : List ℕ)
    (h : (Except.ok ((List.range 3).foldl
        (fun w channel => setByte w (toIdx + channel) (f channel)) write) : Except JsError _) =
          .ok buf) :
    buf.length = write.length ∧ ∀ i, i < toIdx ∨ toIdx + 3 ≤ i → buf[i]? = write[i]? := by
  obtain rfl := Except.ok.inj h
  exact foldl_setByte_frame write toIdx f

theorem bilinear_frames (read : ImageData) :
    (createPixelCopier.bilinear read : Sampler α).Frames :=
  ⟨fun write _ _ toIdx buf h => foldl_setByte_frames write toIdx _ buf h,
   fun write toIdx buf h => foldl_setByte_frames write toIdx _ buf h⟩

theorem createKernelResampler_frames (read : ImageData) (filterSize : ℕ) (kernel : α → α) :
    (createKernelResampler read filterSize kernel).Frames :=
  ⟨fun write _ _ toIdx buf h => foldl_setByte_frames write toIdx _ buf h,
   fun write toIdx buf h => foldl_setByte_frames write toIdx _ buf h⟩

/-- C14: for each of the four strategies (bound to any source image) and every call
`sample(xFrom, yFrom, to)` that returns, the destination after the call has the
length of the destination before and differs from it at most at the indices `to`,
`to + 1`, `to + 2` (the alpha byte at `to + 3` and every other pixel are unchanged); on
a well-formed source every call whose three bytes lie in the destination returns.  The
source is an argument the samplers only read: they return nothing but the destination. -/
theorem strategies_frame (M : JSMath α) (read : ImageData) :
    ((createPixelCopier.nearest read : Sampler α).Frames ∧
     (createPixelCopier.bilinear read : Sampler α).Frames ∧
     (createPixelCopier.bicubic read : Sampler α).Frames ∧
     (createPixelCopier.lanczos M read).Frames) ∧
    (read.WellFormed →
     (createPixelCopier.nearest read : Sampler α).Framed ∧
     (createPixelCopier.bilinear read : Sampler α).Framed ∧
     (createPixelCopier.bicubic read : Sampler α).Framed ∧
     (createPixelCopier.lanczos M read).Framed) :=
  ⟨⟨nearest_frames read, bilinear_frames read, createKernelResampler_frames read 2 _,
      createKernelResampler_frames read 5 _⟩,
   fun hwf => ⟨nearest_framed read hwf, bilinear_framed read,
      createKernelResampler_framed read 2 _, createKernelResampler_framed read 5 _⟩⟩

end Frames

/-! ## Alpha channel of every successful render -/

section Alpha

variable {α : Type} [LinearOrderedField α] [FloorRing α]

/-- An invariant of a loop `for (i = 0; i < n; i++)` that returned normally. -/
theorem foldlM_range_inv_ok {σ ε : Type} (f : σ → ℕ → Except ε σ) (I : ℕ → σ → Prop) (n : ℕ)
    (hstep : ∀ i s s', i < n → I i s → f s i = .ok s' → I (i + 1) s')
    (s0 s : σ) (h0 : I 0 s0) (h : (List.range n).foldlM f s0 = .ok s) : I n s := by
  induction n generalizing s with
  | zero =>
    obtain rfl : s0 = s := Except.ok.inj h
    exact h0
  | succ n ih =>
    rw [List.range_succ, List.foldlM_append] at h
    cases h1 : (List.range n).foldlM f s0 with
    | error e =>
      rw [h1] at h
      cases h
    | ok s1 =>
      rw [h1] at h
      have hI := ih (fun i s s' hi => hstep i s s' (by omega)) s1 h1
      have h2 : f s1 n = .ok s := by
        have h' : (List.foldlM f s1 [n]) = .ok s := h
        rw [List.foldlM_cons] at h'
        cases h3 : f s1 n with
        | error e => rw [h3] at h'; cases h'
        | ok s2 =>
          rw [h3] at h'
          have h'' : (Except.ok s2 : Except ε σ) = .ok s := h'
          rw [h'']
      exact hstep n s1 s (by omega) hI h2

/-- Whatever the interpolation name, a selected `copyPixel` is either not a function
or one of the four samplers. -/
theorem selectCopier_ok_cases (M : JSMath α) (interpolation : String) (read : ImageData)
    (cp : CopyPixel α) (h : selectCopier M interpolation read = .ok cp) :
    cp = .notCallable ∨ ∃ s : Sampler α, cp = .fn s ∧ s.Frames := by
  unfold selectCopier createPixelCopier at h
  split_ifs at h with h1 h2 h3 h4
  · exact Or.inr ⟨_, (Except.ok.inj h).symm, nearest_frames read⟩
  · exact Or.inr ⟨_, (Except.ok.inj h).symm, bilinear_frames read⟩
  · exact Or.inr ⟨_, (Except.ok.inj h).symm, createKernelResampler_frames read 2 _⟩
  · exact Or.inr ⟨_, (Except.ok.inj h).symm, createKernelResampler_frames read 5 _⟩
  · unfold Property.notOwn at h
    split_ifs at h with h5
    · simp only at h
      split_ifs at h with h6 h7
      · exact Or.inl (Except.ok.inj h).symm
      · exact Or.inr ⟨_, (Except.ok.inj h).symm, nearest_frames read⟩
    · exact Or.inr ⟨_, (Except.ok.inj h).symm, nearest_frames read⟩

/-- A pixel step that returned normally kept the length, changed at most the four
bytes of its pixel and set the alpha byte to `255`. -/
theorem renderPixel_ok_frames (M : JSMath α) (read : ImageData) (rotation : α)
    (orientation : Property (Orientation α)) (cp : CopyPixel α)
    (hcp : cp = .notCallable ∨ ∃ s : Sampler α, cp = .fn s ∧ s.Frames)
    (n y x : ℕ) (st st' : Vec3 α × List ℕ)
    (h : renderPixel M read rotation orientation cp n n y x st = .ok st') :
    st'.2.length = st.2.length ∧
    (∀ i, i < 4 * (y * n + x) ∨ 4 * (y * n + x) + 4 ≤ i → st'.2[i]? = st.2[i]?) ∧
    (4 * (y * n + x) + 3 < st.2.length → st'.2[4 * (y * n + x) + 3]? = some 255) := by
  have hset : ∀ i, i ≠ 4 * (y * n + x) + 3 →
      (st.2.set (4 * (y * n + x) + 3) 255)[i]? = st.2[i]? := by
    intro i hi
    rw [List.getElem?_set_ne (Ne.symm hi)]
  have halpha : 4 * (y * n + x) + 3 < st.2.length →
      (st.2.set (4 * (y * n + x) + 3) 255)[4 * (y * n + x) + 3]? = some 255 := by
    intro hlt
    rw [List.getElem?_set_self]
    exact hlt
  have key : ∀ buf : List ℕ,
      (buf.length = (st.2.set (4 * (y * n + x) + 3) 255).length ∧
        ∀ i, i < 4 * (y * n + x) ∨ 4 * (y * n + x) + 3 ≤ i →
          buf[i]? = (st.2.set (4 * (y * n + x) + 3) 255)[i]?) →
      buf.length = st.2.length ∧
      (∀ i, i < 4 * (y * n + x) ∨ 4 * (y * n + x) + 4 ≤ i → buf[i]? = st.2[i]?) ∧
      (4 * (y * n + x) + 3 < st.2.length → buf[4 * (y * n + x) + 3]? = some 255) := by
    intro buf ⟨h1, h2⟩
    refine ⟨by rw [h1, List.length_set], fun i hi => ?_, fun hlt => ?_⟩
    · rw [h2 i (by omega), hset i (by omega)]
    · rw [h2 _ (by omega), halpha hlt]
  unfold renderPixel at h
  cases hc : callOrientation orientation st.1 (2 / (n : α) * ((x : α) + 1 / 2) - 1)
      (2 / (n : α) * ((y : α) + 1 / 2) - 1) with
  | error e =>
    simp only [hc] at h
    cases h
  | ok cube =>
    simp only [hc] at h
    rcases hcp with rfl | ⟨s, rfl, hs⟩
    · cases h
    · have h' : (if M.sqrt (cube.x * cube.x + cube.y * cube.y + cube.z * cube.z) = 0 then
          (do let data ← s.sampleNaN (st.2.set (4 * (y * n + x) + 3) 255) (4 * (y * n + x))
              pure (cube, data))
        else
          (do let data ← s.sample (st.2.set (4 * (y * n + x) + 3) 255)
                (longitude M cube rotation * ((read.width : α) / (2 * M.PI)) - 1 / 2)
                (M.acos (cube.z / M.sqrt (cube.x * cube.x + cube.y * cube.y + cube.z * cube.z))
                  * ((read.height : α) / M.PI) - 1 / 2) (4 * (y * n + x))
              pure (cube, data))) = Except.ok st' := h
      split_ifs at h' with hr
      · cases hb : s.sampleNaN (st.2.set (4 * (y * n + x) + 3) 255) (4 * (y * n + x)) with
        | error e => rw [hb] at h'; cases h'
        | ok buf =>
          rw [hb] at h'
          obtain rfl : (cube, buf) = st' := Except.ok.inj h'
          exact key buf (hs.2 _ _ buf hb)
      · cases hb : s.sample (st.2.set (4 * (y * n + x) + 3) 255)
            (longitude M cube rotation * ((read.width : α) / (2 * M.PI)) - 1 / 2)
            (M.acos (cube.z / M.sqrt (cube.x * cube.x + cube.y * cube.y + cube.z * cube.z))
              * ((read.height : α) / M.PI) - 1 / 2) (4 * (y * n + x)) with
        | error e => rw [hb] at h'; cases h'
        | ok buf =>
          rw [hb] at h'
          obtain rfl : (cube, buf) = st' := Except.ok.inj h'
          exact key buf (hs.1 _ _ _ _ buf hb)

/-- Loops that returned normally left the alpha byte of every pixel at `255`. -/
theorem renderLoop_ok_alpha (M : JSMath α) (read : ImageData) (rotation : α)
    (orientation : Property (Orientation α)) (cp : CopyPixel α)
    (hcp : cp = .notCallable ∨ ∃ s : Sampler α, cp = .fn s ∧ s.Frames)
    (n : ℕ) (st0 st : Vec3 α × List ℕ) (hlen : st0.2.length = 4 * n * n)
    (h : renderLoop M read rotation orientation cp n n st0 = .ok st) :
    st.2.length = 4 * n * n ∧ ∀ k, k < n * n → st.2[4 * k + 3]? = some 255 := by
  unfold renderLoop at h
  refine foldlM_range_inv_ok
    (fun st y => (List.range n).foldlM
      (fun st x => renderPixel M read rotation orientation cp n n y x st) st)
    (fun y (st : Vec3 α × List ℕ) =>
      st.2.length = 4 * n * n ∧ ∀ k, k < y * n → st.2[4 * k + 3]? = some 255)
    n ?_ st0 st ⟨hlen, fun k hk => by simp at hk⟩ h
  intro y s s' hy hI hrow
  have := foldlM_range_inv_ok
    (fun st x => renderPixel M read rotation orientation cp n n y x st)
    (fun x (st : Vec3 α × List ℕ) =>
      st.2.length = 4 * n * n ∧ ∀ k, k < y * n + x → st.2[4 * k + 3]? = some 255)
    n ?_ s s' ⟨hI.1, fun k hk => hI.2 k (by omega)⟩ hrow
  · refine ⟨this.1, fun k hk => this.2 k ?_⟩
    have : (y + 1) * n = y * n + n := by ring
    omega
  · intro x s1 s2 hx hI1 hpix
    obtain ⟨h1, h2, h3⟩ := renderPixel_ok_frames M read rotation orientation cp hcp n y x s1 s2 hpix
    have hlt : 4 * (y * n + x) + 3 < 4 * n * n := pixel_index_lt hx hy (by norm_num)
    refine ⟨by rw [h1, hI1.1], fun k hk => ?_⟩
    rcases Nat.lt_or_ge k (y * n + x) with hk' | hk'
    · rw [h2 _ (Or.inl (by omega))]
      exact hI1.2 k hk'
    · obtain rfl : k = y * n + x := by omega
      exact h3 (by rw [hI1.1]; exact hlt)

/-- C13: for every render that succeeds (any source image, face, rotation,
interpolation and cap), the destination has `4 * width * height` bytes and every pixel
has alpha byte `255`: `data[4 * k + 3] = 255` for every `k < width * height`. -/
theorem renderFace_alpha (M : JSMath α) (req : RenderRequest α) (r : RenderResult)
    (h : renderFace M req = .ok r) :
    r.data.data.length = 4 * r.width * r.height ∧
    ∀ k, k < r.width * r.height → r.data.data[4 * k + 3]? = some 255 := by
  unfold renderFace ImageData.create at h
  by_cases h0 : faceSize req.maxWidth req.data.width = 0 ∨
      faceSize req.maxWidth req.data.width = 0
  · simp only [h0, if_true] at h
    cases h
  · simp only [h0, if_false] at h
    cases hsel : selectCopier M (req.interpolation.getD "lanczos") req.data with
    | error e =>
      rw [hsel] at h
      cases h
    | ok cp =>
      rw [hsel] at h
      simp only [bind, Except.bind] at h
      split at h
      · cases h
      · next st hloop =>
        have h' : r = _ := (Except.ok.inj h).symm
        subst h'
        exact renderLoop_ok_alpha M req.data req.rotation (faceOrientations req.face) cp
          (selectCopier_ok_cases M _ req.data cp hsel) _ _ st (by simp) hloop

theorem renderFace_alpha_witness :
    ∃ r, renderFace realMath
        { data := image400, face := "nx", rotation := 2, interpolation := some "bicubic",
          maxWidth := some 50 } = .ok r ∧
      r.data.data.length = 4 * r.width * r.height ∧
      ∀ k, k < r.width * r.height → r.data.data[4 * k + 3]? = some 255 := by
  obtain ⟨data, h, -⟩ := renderFace_ok realMath
    { data := image400, face := "nx", rotation := 2, interpolation := some "bicubic",
      maxWidth := some 50 } image400_wellFormed (by decide) (by decide) (by decide)
  exact ⟨_, h, renderFace_alpha realMath _ _ h⟩

end Alpha

/-! ## When rendering raises, and what the handler reports -/

theorem callOrientation_not_callable {α : Type} [LinearOrderedField α] (face : String) (h : ¬ faceCallable face) (cube : Vec3 α)
    (x y : α) : callOrientation (faceOrientations face) cube x y = .error .typeError := by
  unfold faceCallable at h
  simp only [List.mem_cons, List.mem_singleton, List.not_mem_nil, or_false, not_or] at h
  obtain ⟨h1, h2, h3, h4, h5, h6, h7, h8⟩ := h
  unfold faceOrientations
  rw [if_neg h1, if_neg h2, if_neg h3, if_neg h4, if_neg h5, if_neg h6]
  unfold Property.notOwn
  split_ifs
  · simp [callOrientation, h7, h8]
  · rfl

section Handler

variable {α : Type} [LinearOrderedField α] [FloorRing α]

theorem renderPixel_error_of_face (M : JSMath α) (read : ImageData) (rotation : α)
    (face : String) (h : ¬ faceCallable face) (cp : CopyPixel α) (n m y x : ℕ)
    (st : Vec3 α × List ℕ) :
    renderPixel M read rotation (faceOrientations face) cp n m y x st = .error .typeError := by
  unfold renderPixel
  simp only [callOrientation_not_callable face h]
  rfl

theorem renderPixel_error_notCallable (M : JSMath α) (read : ImageData) (rotation : α)
    (orientation : Property (Orientation α)) (n m y x : ℕ) (st : Vec3 α × List ℕ) :
    renderPixel M read rotation orientation .notCallable n m y x st = .error .typeError := by
  unfold renderPixel
  cases hc : callOrientation orientation st.1 (2 / (n : α) * ((x : α) + 1 / 2) - 1)
      (2 / (m : α) * ((y : α) + 1 / 2) - 1) with
  | error e =>
    have he : e = .typeError := by
      unfold callOrientation at hc
      split at hc
      · cases hc
      · split_ifs at hc
        exact (Except.error.inj hc).symm
      · exact (Except.error.inj hc).symm
    subst he
    simp only [hc]
    rfl
  | ok cube =>
    simp only [hc]
    rfl

/-- Loops over at least one pixel whose body raises at every pixel raise. -/
theorem renderLoop_error (M : JSMath α) (read : ImageData) (rotation : α)
    (orientation : Property (Orientation α)) (cp : CopyPixel α) (n : ℕ) (hn : 1 ≤ n) (e : JsError)
    (hpix : ∀ y x st, renderPixel M read rotation orientation cp n n y x st = .error e)
    (st0 : Vec3 α × List ℕ) :
    renderLoop M read rotation orientation cp n n st0 = .error e := by
  obtain ⟨m, rfl⟩ : ∃ m, n = m + 1 := ⟨n - 1, by omega⟩
  unfold renderLoop
  rw [List.range_succ_eq_map, List.foldlM_cons, List.foldlM_cons, hpix]
  rfl

theorem selectCopier_unavailable (M : JSMath α) (interpolation : String) (read : ImageData)
    (h : ¬ copierAvailable interpolation) :
    selectCopier M interpolation read = .error .typeError ∨
      selectCopier M interpolation read = .ok .notCallable := by
  unfold copierAvailable at h
  simp only [List.mem_cons, List.mem_singleton, List.not_mem_nil, or_false, not_not] at h
  rcases h with rfl | rfl | rfl | rfl | rfl | rfl | rfl
  · left; simp [selectCopier, createPixelCopier, Property.notOwn, objectPrototypeKeys]
  · left; simp [selectCopier, createPixelCopier, Property.notOwn, objectPrototypeKeys]
  · left; simp [selectCopier, createPixelCopier, Property.notOwn, objectPrototypeKeys]
  · right; simp [selectCopier, createPixelCopier, Property.notOwn, objectPrototypeKeys]
  · right; simp [selectCopier, createPixelCopier, Property.notOwn, objectPrototypeKeys]
  · right; simp [selectCopier, createPixelCopier, Property.notOwn, objectPrototypeKeys]
  · right; simp [selectCopier, createPixelCopier, Property.notOwn, objectPrototypeKeys]

theorem renderFace_size_zero (M : JSMath α) (req : RenderRequest α)
    (h : faceSize req.maxWidth req.data.width = 0) :
    renderFace M req = .error .indexSizeError := by
  unfold renderFace ImageData.create
  simp only [h, or_self, if_true]
  rfl

/-- With a face size of at least one, a face that cannot be called or an interpolation
whose value is not a sampler makes `renderFace` raise a `TypeError`. -/
theorem renderFace_raises (M : JSMath α) (req : RenderRequest α)
    (hn : 1 ≤ faceSize req.maxWidth req.data.width)
    (h : ¬ faceCallable req.face ∨ ¬ copierAvailable (req.interpolation.getD "lanczos")) :
    renderFace M req = .error .typeError := by
  have h0 : ¬ (faceSize req.maxWidth req.data.width = 0 ∨
      faceSize req.maxWidth req.data.width = 0) := by omega
  unfold renderFace ImageData.create
  simp only [h0, if_false]
  cases hsel : selectCopier M (req.interpolation.getD "lanczos") req.data with
  | error e =>
    have he : e = .typeError := by
      by_cases ha : copierAvailable (req.interpolation.getD "lanczos")
      · obtain ⟨s, hs, -⟩ := selectCopier_available M _ req.data ha
        rw [hs] at hsel
        cases hsel
      · rcases selectCopier_unavailable M _ req.data ha with h1 | h1
        · rw [h1] at hsel
          exact (Except.error.inj hsel).symm
        · rw [h1] at hsel
          cases hsel
    subst he
    rfl
  | ok cp =>
    have hloop : renderLoop M req.data req.rotation (faceOrientations req.face) cp
        (faceSize req.maxWidth req.data.width) (faceSize req.maxWidth req.data.width)
        ({ x := 0, y := 0, z := 0 },
          List.replicate (4 * faceSize req.maxWidth req.data.width *
            faceSize req.maxWidth req.data.width) 0) = .error .typeError := by
      apply renderLoop_error M req.data req.rotation _ cp _ hn
      intro y x st
      by_cases hf : faceCallable req.face
      · have ha : ¬ copierAvailable (req.interpolation.getD "lanczos") := by tauto
        rcases selectCopier_unavailable M _ req.data ha with h1 | h1
        · rw [h1] at hsel
          cases hsel
        · rw [h1] at hsel
          obtain rfl := Except.ok.inj hsel
          exact renderPixel_error_notCallable M req.data req.rotation _ _ _ y x st
      · exact renderPixel_error_of_face M req.data req.rotation req.face hf cp _ _ y x st
    show (do
      let st ← renderLoop M req.data req.rotation (faceOrientations req.face) cp _ _ _
      pure _) = _
    rw [hloop]
    rfl

/-- On a well-formed source, `renderFace` returns exactly when the face size is at
least one, the face can be called and the interpolation yields a sampler. -/
theorem renderFace_ok_iff (M : JSMath α) (req : RenderRequest α) (hwf : req.data.WellFormed) :
    (∃ r, renderFace M req = .ok r) ↔
      (1 ≤ faceSize req.maxWidth req.data.width ∧ faceCallable req.face ∧
        copierAvailable (req.interpolation.getD "lanczos")) := by
  constructor
  · rintro ⟨r, hr⟩
    have hn := (renderFace_result M req r hr).2.2.2.2.2
    refine ⟨hn, ?_, ?_⟩
    · by_contra hf
      rw [renderFace_raises M req hn (Or.inl hf)] at hr
      cases hr
    · by_contra ha
      rw [renderFace_raises M req hn (Or.inr ha)] at hr
      cases hr
  · rintro ⟨hn, hf, ha⟩
    obtain ⟨data, h, -⟩ := renderFace_ok M req hwf hn hf ha
    exact ⟨_, h⟩

/-- C15: for every request, the handler posts exactly one message: if rendering raises
an exception, the error result carrying the exception's message (and no image);
otherwise the success result.  Rendering raises, for example, for every face that is
not callable when the face size is at least one. -/
theorem onmessage_reports (M : JSMath α) (message : JsError → String) (req : RenderRequest α) :
    ((∃ e, renderFace M req = .error e ∧
        onmessage M message req = [WorkerMessage.error (message e)]) ∨
     (∃ r, renderFace M req = .ok r ∧ onmessage M message req = [WorkerMessage.result r])) ∧
    (onmessage M message req).length = 1 ∧
    (1 ≤ faceSize req.maxWidth req.data.width → ¬ faceCallable req.face →
      onmessage M message req = [WorkerMessage.error (message .typeError)]) := by
  refine ⟨?_, ?_, ?_⟩
  · cases h : renderFace M req with
    | error e => exact Or.inl ⟨e, rfl, by unfold onmessage; rw [h]⟩
    | ok r => exact Or.inr ⟨r, rfl, by unfold onmessage; rw [h]⟩
  · unfold onmessage
    cases renderFace M req <;> rfl
  · intro hn hf
    unfold onmessage
    rw [renderFace_raises M req hn (Or.inl hf)]

end Handler

/-! ## Bilinear: the blend of the specification -/

section BilinearSpec

variable {α : Type} [LinearOrderedField α] [FloorRing α]

/-- When the floor of a coordinate is moved by the clamp, floor and ceiling are clamped
to the same pixel. -/
theorem clamp_ceil_eq_of_floor_moved (x : α) {hi : ℤ} (hhi : 0 ≤ hi)
    (h : clamp ⌊x⌋ 0 hi ≠ ⌊x⌋) : clamp ⌈x⌉ 0 hi = clamp ⌊x⌋ 0 hi := by
  have h1 := Int.floor_le_ceil x
  have h2 := Int.ceil_le_floor_add_one x
  unfold clamp at h ⊢
  rcases lt_or_le ⌊x⌋ 0 with hneg | hpos
  · rw [max_eq_right (by omega), max_eq_right (by omega)]
  · rw [max_eq_left hpos] at h ⊢
    rcases le_or_lt ⌊x⌋ hi with hle | hgt
    · exact absurd (min_eq_right hle) h
    · rw [max_eq_left (by omega), min_eq_left (by omega), min_eq_left (by omega)]

theorem bilinearChannel_channels (read : ImageData) (hwf : read.WellFormed) (xFrom yFrom : α)
    (c : ℕ) (hc : c < 4) :
    createPixelCopier.bilinearChannel read xFrom yFrom c =
      some ⌈((read.channel (clamp ⌊xFrom⌋ 0 ((read.width : ℤ) - 1))
                (clamp ⌊yFrom⌋ 0 ((read.height : ℤ) - 1)) c : α) *
              (1 - (xFrom - ((clamp ⌊xFrom⌋ 0 ((read.width : ℤ) - 1) : ℤ) : α))) +
            (read.channel (clamp ⌈xFrom⌉ 0 ((read.width : ℤ) - 1))
                (clamp ⌊yFrom⌋ 0 ((read.height : ℤ) - 1)) c : α) *
              (xFrom - ((clamp ⌊xFrom⌋ 0 ((read.width : ℤ) - 1) : ℤ) : α))) *
          (1 - (yFrom - ((clamp ⌊yFrom⌋ 0 ((read.height : ℤ) - 1) : ℤ) : α))) +
        ((read.channel (clamp ⌊xFrom⌋ 0 ((read.width : ℤ) - 1))
                (clamp ⌈yFrom⌉ 0 ((read.height : ℤ) - 1)) c : α) *
              (1 - (xFrom - ((clamp ⌊xFrom⌋ 0 ((read.width : ℤ) - 1) : ℤ) : α))) +
            (read.channel (clamp ⌈xFrom⌉ 0 ((read.width : ℤ) - 1))
                (clamp ⌈yFrom⌉ 0 ((read.height : ℤ) - 1)) c : α) *
              (xFrom - ((clamp ⌊xFrom⌋ 0 ((read.width : ℤ) - 1) : ℤ) : α))) *
          (yFrom - ((clamp ⌊yFrom⌋ 0 ((read.height : ℤ) - 1) : ℤ) : α))⌉ := by
  have hw : (0 : ℤ) ≤ (read.width : ℤ) - 1 := by have := hwf.1; omega
  have hh : (0 : ℤ) ≤ (read.height : ℤ) - 1 := by have := hwf.2.1; omega
  obtain ⟨d00, d10, d01, d11, h00, h10, h01, h11, hv⟩ :=
    bilinearChannel_eq read hwf xFrom yFrom c hc
  have key : ∀ (x y : ℤ) (d : ℕ), 0 ≤ x → x ≤ (read.width : ℤ) - 1 → 0 ≤ y →
      y ≤ (read.height : ℤ) - 1 →
      read.data[4 * (y.toNat * read.width + x.toNat) + c]? = some d →
      d = read.channel x y c := by
    intro x y d hx0 hx1 hy0 hy1 hd
    have h1 := (getByte_channel read hwf hx0 hx1 hy0 hy1 c hc).2.1
    rw [hd] at h1
    exact Option.some.inj h1
  rw [hv,
    key _ _ _ (clamp_bounds hw _).1 (clamp_bounds hw _).2 (clamp_bounds hh _).1
      (clamp_bounds hh _).2 h00,
    key _ _ _ (clamp_bounds hw _).1 (clamp_bounds hw _).2 (clamp_bounds hh _).1
      (clamp_bounds hh _).2 h10,
    key _ _ _ (clamp_bounds hw _).1 (clamp_bounds hw _).2 (clamp_bounds hh _).1
      (clamp_bounds hh _).2 h01,
    key _ _ _ (clamp_bounds hw _).1 (clamp_bounds hw _).2 (clamp_bounds hh _).1
      (clamp_bounds hh _).2 h11]


theorem blend_bounds {β : Type} [LinearOrderedField β] (a b c d : ℕ) (ha : a ≤ 255) (hb : b ≤ 255) (hc : c ≤ 255) (hd : d ≤ 255)
    (xf yf : β) (hx0 : 0 ≤ xf) (hx1 : xf ≤ 1) (hy0 : 0 ≤ yf) (hy1 : yf ≤ 1) :
    0 ≤ (a : β) * ((1 - xf) * (1 - yf)) + (b : β) * (xf * (1 - yf)) +
        (c : β) * ((1 - xf) * yf) + (d : β) * (xf * yf) ∧
    (a : β) * ((1 - xf) * (1 - yf)) + (b : β) * (xf * (1 - yf)) +
        (c : β) * ((1 - xf) * yf) + (d : β) * (xf * yf) ≤ 255 := by
  have w1 : 0 ≤ (1 - xf) * (1 - yf) := mul_nonneg (by linarith) (by linarith)
  have w2 : 0 ≤ xf * (1 - yf) := mul_nonneg hx0 (by linarith)
  have w3 : 0 ≤ (1 - xf) * yf := mul_nonneg (by linarith) hy0
  have w4 : 0 ≤ xf * yf := mul_nonneg hx0 hy0
  have a0 : (0 : β) ≤ a := Nat.cast_nonneg a
  have b0 : (0 : β) ≤ b := Nat.cast_nonneg b
  have c0 : (0 : β) ≤ c := Nat.cast_nonneg c
  have d0 : (0 : β) ≤ d := Nat.cast_nonneg d
  have a1 : (a : β) ≤ 255 := by exact_mod_cast ha
  have b1 : (b : β) ≤ 255 := by exact_mod_cast hb
  have c1 : (c : β) ≤ 255 := by exact_mod_cast hc
  have d1 : (d : β) ≤ 255 := by exact_mod_cast hd
  constructor
  · have := mul_nonneg a0 w1
    have := mul_nonneg b0 w2
    have := mul_nonneg c0 w3
    have := mul_nonneg d0 w4
    linarith
  · have e1 := mul_le_mul_of_nonneg_right a1 w1
    have e2 := mul_le_mul_of_nonneg_right b1 w2
    have e3 := mul_le_mul_of_nonneg_right c1 w3
    have e4 := mul_le_mul_of_nonneg_right d1 w4
    have hsum : (255 : β) * ((1 - xf) * (1 - yf)) + 255 * (xf * (1 - yf)) +
        255 * ((1 - xf) * yf) + 255 * (xf * yf) = 255 := by ring
    linarith

/-- C16: for a well-formed source image and every `(xFrom, yFrom)`, inside or outside
the image, each channel value the bilinear strategy computes is the ceiling of the blend
`c00 (1-xf)(1-yf) + c10 xf (1-yf) + c01 (1-xf) yf + c11 xf yf` with
`xf = xFrom - floor(xFrom)`, `yf = yFrom - floor(yFrom)` and the four samples at the
floor/ceiling coordinates clamped independently; the value lies in `[0, 255]` and is
the byte stored. -/
theorem bilinear_is_blend (read : ImageData) (hwf : read.WellFormed) (write : List ℕ)
    (toIdx : ℕ) (hto : toIdx + 3 ≤ write.length) (xFrom yFrom : α) :
    (∀ c, c < 3 →
      createPixelCopier.bilinearChannel read xFrom yFrom c = some (bilinearSpec read xFrom yFrom c) ∧
      0 ≤ bilinearSpec read xFrom yFrom c ∧ bilinearSpec read xFrom yFrom c ≤ 255) ∧
    (createPixelCopier.bilinear read).sample write xFrom yFrom toIdx =
      .ok (write.take toIdx ++
        [(bilinearSpec read xFrom yFrom 0).toNat, (bilinearSpec read xFrom yFrom 1).toNat,
         (bilinearSpec read xFrom yFrom 2).toNat] ++ write.drop (toIdx + 3)) := by
  have hw : (0 : ℤ) ≤ (read.width : ℤ) - 1 := by have := hwf.1; omega
  have hh : (0 : ℤ) ≤ (read.height : ℤ) - 1 := by have := hwf.2.1; omega
  have hch : ∀ c, c < 3 →
      createPixelCopier.bilinearChannel read xFrom yFrom c =
        some (bilinearSpec read xFrom yFrom c) := by
    intro c hc
    rw [bilinearChannel_channels read hwf xFrom yFrom c (by omega)]
    unfold bilinearSpec
    simp only
    have hx : ((clamp ⌊xFrom⌋ 0 ((read.width : ℤ) - 1) : ℤ) : α) = (⌊xFrom⌋ : α) ∨
        clamp ⌈xFrom⌉ 0 ((read.width : ℤ) - 1) = clamp ⌊xFrom⌋ 0 ((read.width : ℤ) - 1) := by
      by_cases h : clamp ⌊xFrom⌋ 0 ((read.width : ℤ) - 1) = ⌊xFrom⌋
      · left; rw [h]
      · right; exact clamp_ceil_eq_of_floor_moved xFrom hw h
    have hy : ((clamp ⌊yFrom⌋ 0 ((read.height : ℤ) - 1) : ℤ) : α) = (⌊yFrom⌋ : α) ∨
        clamp ⌈yFrom⌉ 0 ((read.height : ℤ) - 1) = clamp ⌊yFrom⌋ 0 ((read.height : ℤ) - 1) := by
      by_cases h : clamp ⌊yFrom⌋ 0 ((read.height : ℤ) - 1) = ⌊yFrom⌋
      · left; rw [h]
      · right; exact clamp_ceil_eq_of_floor_moved yFrom hh h
    rcases hx with hx | hx <;> rcases hy with hy | hy <;> rw [hx, hy] <;> congr 2 <;> ring
  have hrange : ∀ c, c < 3 →
      0 ≤ bilinearSpec read xFrom yFrom c ∧ bilinearSpec read xFrom yFrom c ≤ 255 := by
    intro c hc
    have hb := blend_bounds
      (read.channel (clamp ⌊xFrom⌋ 0 ((read.width : ℤ) - 1))
        (clamp ⌊yFrom⌋ 0 ((read.height : ℤ) - 1)) c)
      (read.channel (clamp ⌈xFrom⌉ 0 ((read.width : ℤ) - 1))
        (clamp ⌊yFrom⌋ 0 ((read.height : ℤ) - 1)) c)
      (read.channel (clamp ⌊xFrom⌋ 0 ((read.width : ℤ) - 1))
        (clamp ⌈yFrom⌉ 0 ((read.height : ℤ) - 1)) c)
      (read.channel (clamp ⌈xFrom⌉ 0 ((read.width : ℤ) - 1))
        (clamp ⌈yFrom⌉ 0 ((read.height : ℤ) - 1)) c)
      (getByte_channel read hwf (clamp_bounds hw _).1 (clamp_bounds hw _).2
        (clamp_bounds hh _).1 (clamp_bounds hh _).2 c (by omega)).2.2
      (getByte_channel read hwf (clamp_bounds hw _).1 (clamp_bounds hw _).2
        (clamp_bounds hh _).1 (clamp_bounds hh _).2 c (by omega)).2.2
      (getByte_channel read hwf (clamp_bounds hw _).1 (clamp_bounds hw _).2
        (clamp_bounds hh _).1 (clamp_bounds hh _).2 c (by omega)).2.2
      (getByte_channel read hwf (clamp_bounds hw _).1 (clamp_bounds hw _).2
        (clamp_bounds hh _).1 (clamp_bounds hh _).2 c (by omega)).2.2
      (xFrom - (⌊xFrom⌋ : α)) (yFrom - (⌊yFrom⌋ : α))
      (by have := Int.floor_le xFrom; linarith)
      (by have := Int.lt_floor_add_one xFrom; linarith)
      (by have := Int.floor_le yFrom; linarith)
      (by have := Int.lt_floor_add_one yFrom; linarith)
    unfold bilinearSpec
    simp only
    constructor
    · exact Int.ceil_nonneg hb.1
    · rw [Int.ceil_le]
      exact_mod_cast hb.2
  refine ⟨fun c hc => ⟨hch c hc, hrange c hc⟩, ?_⟩
  have hst : ∀ c, c < 3 →
      storedByte (createPixelCopier.bilinearChannel read xFrom yFrom c) =
        (bilinearSpec read xFrom yFrom c).toNat := by
    intro c hc
    rw [hch c hc]
    obtain ⟨h0, h1⟩ := hrange c hc
    show toUint8Clamped _ = _
    unfold toUint8Clamped
    rw [min_eq_left h1, max_eq_right h0]
  show Except.ok _ = _
  rw [foldl_setByte_eq write toIdx _ hto, hst 0 (by norm_num), hst 1 (by norm_num),
    hst 2 (by norm_num)]

theorem bilinear_is_blend_witness :
    imageStep.WellFormed ∧
    (∀ c, c < 3 →
      createPixelCopier.bilinearChannel imageStep (-(1 / 2) : ℚ) 0 c =
        some (bilinearSpec imageStep (-(1 / 2) : ℚ) 0 c) ∧
      0 ≤ bilinearSpec imageStep (-(1 / 2) : ℚ) 0 c ∧
      bilinearSpec imageStep (-(1 / 2) : ℚ) 0 c ≤ 255) ∧
    (createPixelCopier.bilinear imageStep).sample [7, 7, 7, 255] (-(1 / 2) : ℚ) 0 0 =
      .ok ([7, 7, 7, 255].take 0 ++
        [(bilinearSpec imageStep (-(1 / 2) : ℚ) 0 0).toNat,
         (bilinearSpec imageStep (-(1 / 2) : ℚ) 0 1).toNat,
         (bilinearSpec imageStep (-(1 / 2) : ℚ) 0 2).toNat] ++ [7, 7, 7, 255].drop (0 + 3)) :=
  ⟨by decide,
   bilinear_is_blend imageStep (by decide) [7, 7, 7, 255] 0 (by decide) (-(1 / 2) : ℚ) 0⟩

end BilinearSpec

/-! ## The direction vector and the latitude -/

/-- C17: for each of the six orientation functions and every face-local `(x, y)` (in
particular in `[-1,1]²`), the direction vector has a component of absolute value
exactly `1`, so its length `r` is at least `1` (never zero), `dz / r` lies in `[-1, 1]`
and the latitude `acos(dz / r)` is defined and lies in `[0, π]`; and every pixel-centre
coordinate `2 / faceWidth * (i + 0.5) - 1` with `i < faceWidth` lies strictly inside
`(-1, 1)`. -/
theorem direction_and_latitude (face : String) (f : Orientation ℝ)
    (hf : faceOrientations face = Property.own f) (out : Vec3 ℝ) (x y : ℝ)
    (faceWidth i : ℕ) (hi : i < faceWidth) :
    (|(f out x y).x| = 1 ∨ |(f out x y).y| = 1 ∨ |(f out x y).z| = 1) ∧
    1 ≤ realMath.sqrt ((f out x y).x * (f out x y).x + (f out x y).y * (f out x y).y +
      (f out x y).z * (f out x y).z) ∧
    (-1 ≤ (f out x y).z / realMath.sqrt ((f out x y).x * (f out x y).x +
        (f out x y).y * (f out x y).y + (f out x y).z * (f out x y).z) ∧
     (f out x y).z / realMath.sqrt ((f out x y).x * (f out x y).x +
        (f out x y).y * (f out x y).y + (f out x y).z * (f out x y).z) ≤ 1) ∧
    (0 ≤ realMath.acos ((f out x y).z / realMath.sqrt ((f out x y).x * (f out x y).x +
        (f out x y).y * (f out x y).y + (f out x y).z * (f out x y).z)) ∧
     realMath.acos ((f out x y).z / realMath.sqrt ((f out x y).x * (f out x y).x +
        (f out x y).y * (f out x y).y + (f out x y).z * (f out x y).z)) ≤ realMath.PI) ∧
    (-1 < 2 / (faceWidth : ℝ) * ((i : ℝ) + 1 / 2) - 1 ∧
     2 / (faceWidth : ℝ) * ((i : ℝ) + 1 / 2) - 1 < 1) := by
  have hone : |(f out x y).x| = 1 ∨ |(f out x y).y| = 1 ∨ |(f out x y).z| = 1 := by
    rcases faceOrientations_own_cases face f hf with
      ⟨-, rfl⟩ | ⟨-, rfl⟩ | ⟨-, rfl⟩ | ⟨-, rfl⟩ | ⟨-, rfl⟩ | ⟨-, rfl⟩ <;>
    simp [faceOrientations.pz, faceOrientations.nz, faceOrientations.px,
      faceOrientations.nx, faceOrientations.py, faceOrientations.ny]
  generalize f out x y = v at hone ⊢
  have hs : 1 ≤ v.x * v.x + v.y * v.y + v.z * v.z := by
    have sq : ∀ t : ℝ, |t| = 1 → t * t = 1 := by
      intro t ht
      rw [← abs_mul_abs_self, ht, mul_one]
    rcases hone with h | h | h
    · nlinarith [sq _ h, mul_self_nonneg v.y, mul_self_nonneg v.z]
    · nlinarith [sq _ h, mul_self_nonneg v.x, mul_self_nonneg v.z]
    · nlinarith [sq _ h, mul_self_nonneg v.x, mul_self_nonneg v.y]
  have hr : 1 ≤ Real.sqrt (v.x * v.x + v.y * v.y + v.z * v.z) := by
    rw [Real.le_sqrt' one_pos]
    simpa using hs
  have hrpos : 0 < Real.sqrt (v.x * v.x + v.y * v.y + v.z * v.z) := by linarith
  have hz : |v.z| ≤ Real.sqrt (v.x * v.x + v.y * v.y + v.z * v.z) := by
    apply Real.abs_le_sqrt
    nlinarith [mul_self_nonneg v.x, mul_self_nonneg v.y]
  have hz' := abs_le.mp hz
  have hn : (0 : ℝ) < faceWidth := by exact_mod_cast (by omega : 0 < faceWidth)
  have hin : (i : ℝ) + 1 ≤ faceWidth := by exact_mod_cast hi
  refine ⟨hone, hr, ⟨?_, ?_⟩, ⟨Real.arccos_nonneg _, Real.arccos_le_pi _⟩, ?_, ?_⟩
  · show -1 ≤ v.z / Real.sqrt _
    rw [le_div_iff₀ hrpos]
    linarith
  · show v.z / Real.sqrt _ ≤ 1
    rw [div_le_iff₀ hrpos]
    linarith
  · have : 0 < 2 / (faceWidth : ℝ) * ((i : ℝ) + 1 / 2) := by positivity
    linarith
  · have : 2 / (faceWidth : ℝ) * ((i : ℝ) + 1 / 2) < 2 := by
      rw [div_mul_eq_mul_div, div_lt_iff₀ hn]
      linarith
    linarith

theorem direction_and_latitude_witness :
    (3 < 8) ∧
    (|(faceOrientations.py ({ x := 0, y := 0, z := 0 } : Vec3 ℝ) (1 / 3) (-1)).x| = 1 ∨
      |(faceOrientations.py ({ x := 0, y := 0, z := 0 } : Vec3 ℝ) (1 / 3) (-1)).y| = 1 ∨
      |(faceOrientations.py ({ x := 0, y := 0, z := 0 } : Vec3 ℝ) (1 / 3) (-1)).z| = 1) ∧
    (-1 < 2 / ((8 : ℕ) : ℝ) * (((3 : ℕ) : ℝ) + 1 / 2) - 1 ∧
     2 / ((8 : ℕ) : ℝ) * (((3 : ℕ) : ℝ) + 1 / 2) - 1 < 1) :=
  have h := direction_and_latitude "py" faceOrientations.py (by simp [faceOrientations])
    ({ x := 0, y := 0, z := 0 } : Vec3 ℝ) (1 / 3) (-1) 8 3 (by norm_num)
  ⟨by norm_num, h.1, h.2.2.2.2⟩

/-! ## The arguments of the kernel -/

section KernelArgument

variable {α : Type} [LinearOrderedField α] [FloorRing α]

/-- C18, as stated, fails: with radius `2`, `xFrom = 0` and the last tap `i = 3` the
kernel is evaluated at `-2`, which is not in `(-2, 2]`. -/
theorem kernel_argument_minus_radius :
    kernelValues 2 (fun x : ℚ => x) 0 = [1, 0, -1, -2] ∧
    (0 : ℚ) - (((⌊(0 : ℚ)⌋ - ((2 : ℕ) : ℤ) + 1 + ((3 : ℕ) : ℤ) : ℤ)) : ℚ) = -2 ∧
    ¬ (-(2 : ℚ) < (0 : ℚ) - (((⌊(0 : ℚ)⌋ - ((2 : ℕ) : ℤ) + 1 + ((3 : ℕ) : ℤ) : ℤ)) : ℚ)) := by
  refine ⟨?_, ?_, ?_⟩
  · have r1 := @toFloat32_representable ℚ _ _ (-1) 0 (by norm_num) (by norm_num)
    have r2 := @toFloat32_representable ℚ _ _ (-2) 0 (by norm_num) (by norm_num)
    norm_num at r1 r2
    rw [kernelValues_two]
    norm_num [toFloat32_zero, toFloat32_one, r1, r2]
  · norm_num
  · norm_num

theorem bicubicKernel_eq_spec {β : Type} [LinearOrderedField β] (x : β) (hx : |x| ≤ 2) :
    createPixelCopier.bicubicKernel x = bicubicKernelSpec x := by
  unfold createPixelCopier.bicubicKernel bicubicKernelSpec
  simp only
  split_ifs with h1
  · ring
  · ring

/-- C18, amended: for every filter radius `R`, every coordinate `xFrom` and every tap
`i < 2R`, the kernel argument `xFrom - (floor(xFrom) - R + 1 + i)` evaluated by
`createKernelResampler` (whose result is stored in the `Float32Array`) lies in
`[-R, R)`; consequently the bicubic kernel is only evaluated at `|x| ≤ 2`, where the
two-piece formula of the code (which is `-1`, not `0`, at `3`) coincides with the
three-piece kernel of the specification. -/
theorem kernel_argument_range (filterSize : ℕ) (kernel : α → α) (xFrom : α) (i : ℕ)
    (hi : i < 2 * filterSize) :
    ((kernelTaps filterSize kernel xFrom)[i]? =
        some (kernel (xFrom - (((⌊xFrom⌋ - (filterSize : ℤ) + 1 + (i : ℤ) : ℤ)) : α))) ∧
      (kernelValues filterSize kernel xFrom)[i]? =
        some (toFloat32
          (kernel (xFrom - (((⌊xFrom⌋ - (filterSize : ℤ) + 1 + (i : ℤ) : ℤ)) : α))))) ∧
    (-(filterSize : α) ≤ xFrom - (((⌊xFrom⌋ - (filterSize : ℤ) + 1 + (i : ℤ) : ℤ)) : α) ∧
      xFrom - (((⌊xFrom⌋ - (filterSize : ℤ) + 1 + (i : ℤ) : ℤ)) : α) < (filterSize : α)) ∧
    (∀ x : α, |x| ≤ 2 → createPixelCopier.bicubicKernel x = bicubicKernelSpec x) ∧
    (kernelTaps 2 createPixelCopier.bicubicKernel xFrom = kernelTaps 2 bicubicKernelSpec xFrom ∧
      kernelValues 2 createPixelCopier.bicubicKernel xFrom =
        kernelValues 2 bicubicKernelSpec xFrom) ∧
    (createPixelCopier.bicubicKernel (3 : α) = -1 ∧ bicubicKernelSpec (3 : α) = 0) := by
  have h0 := Int.floor_le xFrom
  have h1 := Int.lt_floor_add_one xFrom
  have hi' : (i : α) + 1 ≤ 2 * (filterSize : α) := by exact_mod_cast hi
  have hi0 : (0 : α) ≤ i := Nat.cast_nonneg i
  have ht : (kernelTaps filterSize kernel xFrom)[i]? =
      some (kernel (xFrom - (((⌊xFrom⌋ - (filterSize : ℤ) + 1 + (i : ℤ) : ℤ)) : α))) := by
    unfold kernelTaps
    simp only
    rw [List.getElem?_map, List.getElem?_range hi]
    rfl
  have hk : kernelTaps 2 createPixelCopier.bicubicKernel xFrom =
      kernelTaps 2 bicubicKernelSpec xFrom := by
    rw [kernelTaps_two, kernelTaps_two]
    have f0 := Int.fract_nonneg xFrom
    have f1 := Int.fract_lt_one xFrom
    rw [bicubicKernel_eq_spec _ (by rw [abs_le]; constructor <;> linarith),
      bicubicKernel_eq_spec _ (by rw [abs_le]; constructor <;> linarith),
      bicubicKernel_eq_spec _ (by rw [abs_le]; constructor <;> linarith),
      bicubicKernel_eq_spec _ (by rw [abs_le]; constructor <;> linarith)]
  refine ⟨⟨ht, ?_⟩, ⟨?_, ?_⟩, bicubicKernel_eq_spec, ⟨hk, ?_⟩, ?_, ?_⟩
  · unfold kernelValues
    rw [List.getElem?_map, ht]
    rfl
  · push_cast
    linarith
  · push_cast
    linarith
  · unfold kernelValues
    rw [hk]
  · unfold createPixelCopier.bicubicKernel
    have : |(3 : α)| = 3 := abs_of_nonneg (by norm_num)
    simp only [this]
    norm_num
  · unfold bicubicKernelSpec
    have : |(3 : α)| = 3 := abs_of_nonneg (by norm_num)
    simp only [this]
    norm_num

theorem kernel_argument_range_witness :
    (3 < 2 * 2) ∧
    (-((2 : ℕ) : ℚ) ≤ (0 : ℚ) - (((⌊(0 : ℚ)⌋ - ((2 : ℕ) : ℤ) + 1 + ((3 : ℕ) : ℤ) : ℤ)) : ℚ) ∧
      (0 : ℚ) - (((⌊(0 : ℚ)⌋ - ((2 : ℕ) : ℤ) + 1 + ((3 : ℕ) : ℤ) : ℤ)) : ℚ) < ((2 : ℕ) : ℚ)) ∧
    kernelValues 2 createPixelCopier.bicubicKernel (0 : ℚ) =
      kernelValues 2 bicubicKernelSpec (0 : ℚ) :=
  have h := kernel_argument_range 2 createPixelCopier.bicubicKernel (0 : ℚ) 3 (by norm_num)
  ⟨by norm_num, h.2.1, h.2.2.2.1.2⟩

end KernelArgument

/-! ## Periodicity in the rotation -/

section Periodic

variable {α : Type} [LinearOrderedField α] [FloorRing α]

theorem jsRem_eq_sub_int (x n : α) : ∃ m : ℤ, jsRem x n = x - n * (m : α) :=
  ⟨jsTrunc (x / n), rfl⟩

/-- For a positive modulus, `mod` is the remainder of the floored division. -/
theorem mod_eq_sub_floor {n : α} (hn : 0 < n) (v : α) : mod v n = v - n * (⌊v / n⌋ : α) := by
  obtain ⟨h0, h1⟩ := mod_nonneg_lt hn v
  obtain ⟨m1, e1⟩ := jsRem_eq_sub_int v n
  obtain ⟨m2, e2⟩ := jsRem_eq_sub_int (jsRem v n + n) n
  have e : mod v n = v - n * ((m1 + m2 - 1 : ℤ) : α) := by
    unfold mod
    rw [e2, e1]
    push_cast
    ring
  have hfl : ⌊v / n⌋ = m1 + m2 - 1 := by
    rw [Int.floor_eq_iff]
    rw [e] at h0 h1
    constructor
    · rw [le_div_iff₀ hn]
      linarith
    · rw [div_lt_iff₀ hn]
      linarith
  rw [e, hfl]

theorem mod_add_int_mul {n : α} (hn : 0 < n) (v : α) (k : ℤ) :
    mod (v + n * (k : α)) n = mod v n := by
  rw [mod_eq_sub_floor hn, mod_eq_sub_floor hn]
  have : (v + n * (k : α)) / n = v / n + (k : α) := by
    field_simp
    ring
  rw [this, Int.floor_add_int]
  push_cast
  ring

end Periodic

theorem longitude_periodic (cube : Vec3 ℝ) (rotation : ℝ) (k : ℤ) :
    longitude realMath cube (rotation + 2 * Real.pi * (k : ℝ)) =
      longitude realMath cube rotation := by
  unfold longitude
  have hpi : (0 : ℝ) < 2 * realMath.PI := by
    show (0 : ℝ) < 2 * Real.pi
    linarith [Real.pi_pos]
  have := mod_add_int_mul hpi (realMath.atan2 cube.y cube.x + rotation) k
  rw [← this]
  congr 1
  show _ = realMath.atan2 cube.y cube.x + rotation + 2 * Real.pi * (k : ℝ)
  ring

theorem renderPixel_periodic (read : ImageData) (rotation : ℝ) (k : ℤ) :
    renderPixel realMath read (rotation + 2 * Real.pi * (k : ℝ)) =
      renderPixel realMath read rotation := by
  funext orientation cp n m y x st
  unfold renderPixel
  simp only [longitude_periodic]

/-- C19: rendering is periodic in the rotation angle: for every direction vector, real
rotation `t` and integer `k`, the longitude `mod(atan2(dy, dx) + t + 2πk, 2π)` equals
`mod(atan2(dy, dx) + t, 2π)`, and for every request `renderFace` with rotation
`t + 2πk` returns what it returns with rotation `t`. -/
theorem renderFace_periodic (req : RenderRequest ℝ) (cube : Vec3 ℝ) (k : ℤ) :
    mod (realMath.atan2 cube.y cube.x + req.rotation + 2 * realMath.PI * (k : ℝ))
        (2 * realMath.PI) =
      mod (realMath.atan2 cube.y cube.x + req.rotation) (2 * realMath.PI) ∧
    longitude realMath cube (req.rotation + 2 * Real.pi * (k : ℝ)) =
      longitude realMath cube req.rotation ∧
    renderFace realMath { req with rotation := req.rotation + 2 * Real.pi * (k : ℝ) } =
      renderFace realMath req := by
  have hpi : (0 : ℝ) < 2 * realMath.PI := by
    show (0 : ℝ) < 2 * Real.pi
    linarith [Real.pi_pos]
  refine ⟨mod_add_int_mul hpi _ k, longitude_periodic cube req.rotation k, ?_⟩
  unfold renderFace renderLoop
  simp only [renderPixel_periodic]

/-! ## The bicubic kernel is a partition of unity -/

section PartitionOfUnity

variable {α : Type} [LinearOrderedField α] [FloorRing α]

theorem abs_le_sum_abs {β : Type} [LinearOrderedField β] {l : List β} {v : β} (h : v ∈ l) :
    |v| ≤ (l.map (fun v => |v|)).sum := by
  induction l with
  | nil => simp at h
  | cons x xs ih =>
    simp only [List.map_cons, List.sum_cons]
    rcases List.mem_cons.mp h with rfl | h
    · have := sum_abs_nonneg xs
      linarith
    · have := ih h
      have := abs_nonneg x
      linarith

/-- The normalisation moves a stored bicubic weight by at most `2 ^ -22`. -/
theorem bicubic_weight_near_value (c v : α)
    (hv : v ∈ kernelValues 2 createPixelCopier.bicubicKernel c) :
    |toFloat32 (v / kernelSum (kernelValues 2 createPixelCopier.bicubicKernel c)) - v| ≤
      1 / 2 ^ 22 := by
  obtain ⟨hs, hpos, hB, -⟩ := bicubic_values_sum c
  generalize kernelSum (kernelValues 2 createPixelCopier.bicubicKernel c) = s at hs hpos
  have hva := le_trans (abs_le_sum_abs hv) hB
  obtain ⟨s1, s2⟩ := abs_le.mp hs
  have hs' : (1 : α) - 1 / 2 ^ 23 ≤ s := by linarith
  have hr : |v| / s ≤ 13 / 10 := by
    rw [div_le_iff₀ hpos]
    have : (5 / 4 : α) + 1 / 2 ^ 23 ≤ 13 / 10 * (1 - 1 / 2 ^ 23) := by norm_num
    have : (13 / 10 : α) * (1 - 1 / 2 ^ 23) ≤ 13 / 10 * s :=
      mul_le_mul_of_nonneg_left hs' (by norm_num)
    linarith
  have hr0 : 0 ≤ |v| / s := div_nonneg (abs_nonneg v) hpos.le
  have e1 := toFloat32_error (v / s)
  rw [abs_div, abs_of_pos hpos] at e1
  have e2 : |v / s - v| ≤ |v| / s * (1 / 2 ^ 23) := by
    have : v / s - v = v / s * (1 - s) := by
      field_simp
      ring
    rw [this, abs_mul, abs_div, abs_of_pos hpos]
    apply mul_le_mul_of_nonneg_left _ hr0
    rw [abs_sub_comm]
    exact hs
  have e3 : |toFloat32 (v / s) - v| ≤ |toFloat32 (v / s) - v / s| + |v / s - v| := by
    have := abs_add (toFloat32 (v / s) - v / s) (v / s - v)
    rwa [sub_add_sub_cancel] at this
  have b1 : |v| / s / 2 ^ 24 ≤ 13 / 10 / 2 ^ 24 := div_le_div_of_nonneg_right hr (by positivity)
  have b2 : |v| / s * (1 / 2 ^ 23) ≤ 13 / 10 * (1 / 2 ^ 23) :=
    mul_le_mul_of_nonneg_right hr (by positivity)
  have b3 : (13 / 10 : α) / 2 ^ 24 + 1 / 2 ^ 150 + 13 / 10 * (1 / 2 ^ 23) ≤ 1 / 2 ^ 22 := by
    norm_num
  linarith

theorem bicubic_weights_getD_near (c : α) (i : ℕ) :
    |(kernelWeights 2 createPixelCopier.bicubicKernel c).getD i 0 -
      (kernelValues 2 createPixelCopier.bicubicKernel c).getD i 0| ≤ 1 / 2 ^ 22 := by
  unfold kernelWeights
  simp only
  rw [List.getD_eq_getElem?_getD, List.getD_eq_getElem?_getD, List.getElem?_map]
  rcases h : (kernelValues 2 createPixelCopier.bicubicKernel c)[i]? with _ | v
  · simp
  · simp only [Option.map_some', Option.getD_some]
    exact bicubic_weight_near_value c v (List.getElem?_mem h)

end PartitionOfUnity

/-! ### The stored values and weights at a concrete coordinate -/

theorem bicubic_values_512 :
    kernelValues 2 createPixelCopier.bicubicKernel (151 / 512 : ℚ) =
      [-2459809 / 33554432, 13774609 / 16777216, 9493917 / 33554432, -8231161 / 268435456] := by
  have hf : Int.fract (151 / 512 : ℚ) = 151 / 512 := Int.fract_eq_self.mpr ⟨by norm_num, by norm_num⟩
  obtain ⟨t0, t1, t2, t3⟩ := bicubic_taps (151 / 512 : ℚ) (by norm_num) (by norm_num)
  have k0 : createPixelCopier.bicubicKernel (151 / 512 + 1 : ℚ) = -19678471 / 268435456 := by
    rw [t0]
    norm_num
  have v0 : toFloat32 (-19678471 / 268435456 : ℚ) = -2459809 / 33554432 := by
    rw [toFloat32_eval (-19678471 / 268435456 : ℚ) (-4) (-9839236) (by norm_num)
      (by rw [abs_of_nonpos (by norm_num)]; norm_num)
      (by rw [abs_of_nonpos (by norm_num)]; norm_num)
      (roundTiesToEven_of_tie _ _ (by norm_num) (by norm_num [abs_of_nonneg, abs_of_nonpos]))]
    norm_num
  have k1 : createPixelCopier.bicubicKernel (151 / 512 : ℚ) = 220393749 / 268435456 := by
    rw [t1]
    norm_num
  have v1 : toFloat32 (220393749 / 268435456 : ℚ) = 13774609 / 16777216 := by
    rw [toFloat32_eval (220393749 / 268435456 : ℚ) (-1) (13774609) (by norm_num)
      (by rw [abs_of_nonneg (by norm_num)]; norm_num)
      (by rw [abs_of_nonneg (by norm_num)]; norm_num)
      (roundTiesToEven_of_near _ _ (by rw [abs_lt]; norm_num))]
    norm_num
  have k2 : createPixelCopier.bicubicKernel (151 / 512 - 1 : ℚ) = 75951339 / 268435456 := by
    rw [t2]
    norm_num
  have v2 : toFloat32 (75951339 / 268435456 : ℚ) = 9493917 / 33554432 := by
    rw [toFloat32_eval (75951339 / 268435456 : ℚ) (-2) (9493917) (by norm_num)
      (by rw [abs_of_nonneg (by norm_num)]; norm_num)
      (by rw [abs_of_nonneg (by norm_num)]; norm_num)
      (roundTiesToEven_of_near _ _ (by rw [abs_lt]; norm_num))]
    norm_num
  have k3 : createPixelCopier.bicubicKernel (151 / 512 - 2 : ℚ) = -8231161 / 268435456 := by
    rw [t3]
    norm_num
  have v3 : toFloat32 (-8231161 / 268435456 : ℚ) = -8231161 / 268435456 := by
    rw [toFloat32_eval (-8231161 / 268435456 : ℚ) (-6) (-16462322) (by norm_num)
      (by rw [abs_of_nonpos (by norm_num)]; norm_num)
      (by rw [abs_of_nonpos (by norm_num)]; norm_num)
      (roundTiesToEven_of_near _ _ (by rw [abs_lt]; norm_num))]
    norm_num
  rw [kernelValues_two, hf, k0, k1, k2, k3, v0, v1, v2, v3]

theorem bicubic_weights_512 :
    kernelSum (kernelValues 2 createPixelCopier.bicubicKernel (151 / 512 : ℚ)) = 268435447 / 268435456 ∧
    kernelWeights 2 createPixelCopier.bicubicKernel (151 / 512 : ℚ) =
      [-2459809 / 33554432, 13774609 / 16777216, 9493917 / 33554432, -16462323 / 536870912] := by
  have hs : kernelSum (kernelValues 2 createPixelCopier.bicubicKernel (151 / 512 : ℚ)) = 268435447 / 268435456 := by
    rw [bicubic_values_512, kernelSum_eq_sum]
    norm_num
  have w0 : toFloat32 (-2459809 / 33554432 / (268435447 / 268435456) : ℚ) = -2459809 / 33554432 := by
    rw [toFloat32_eval (-2459809 / 33554432 / (268435447 / 268435456) : ℚ) (-4) (-9839236) (by norm_num)
      (by rw [abs_of_nonpos (by norm_num)]; norm_num)
      (by rw [abs_of_nonpos (by norm_num)]; norm_num)
      (roundTiesToEven_of_near _ _ (by rw [abs_lt]; norm_num))]
    norm_num
  have w1 : toFloat32 (13774609 / 16777216 / (268435447 / 268435456) : ℚ) = 13774609 / 16777216 := by
    rw [toFloat32_eval (13774609 / 16777216 / (268435447 / 268435456) : ℚ) (-1) (13774609) (by norm_num)
      (by rw [abs_of_nonneg (by norm_num)]; norm_num)
      (by rw [abs_of_nonneg (by norm_num)]; norm_num)
      (roundTiesToEven_of_near _ _ (by rw [abs_lt]; norm_num))]
    norm_num
  have w2 : toFloat32 (9493917 / 33554432 / (268435447 / 268435456) : ℚ) = 9493917 / 33554432 := by
    rw [toFloat32_eval (9493917 / 33554432 / (268435447 / 268435456) : ℚ) (-2) (9493917) (by norm_num)
      (by rw [abs_of_nonneg (by norm_num)]; norm_num)
      (by rw [abs_of_nonneg (by norm_num)]; norm_num)
      (roundTiesToEven_of_near _ _ (by rw [abs_lt]; norm_num))]
    norm_num
  have w3 : toFloat32 (-8231161 / 268435456 / (268435447 / 268435456) : ℚ) = -16462323 / 536870912 := by
    rw [toFloat32_eval (-8231161 / 268435456 / (268435447 / 268435456) : ℚ) (-6) (-16462323) (by norm_num)
      (by rw [abs_of_nonpos (by norm_num)]; norm_num)
      (by rw [abs_of_nonpos (by norm_num)]; norm_num)
      (roundTiesToEven_of_near _ _ (by rw [abs_lt]; norm_num))]
    norm_num
  refine ⟨hs, ?_⟩
  unfold kernelWeights
  simp only
  rw [hs, bicubic_values_512]
  simp only [List.map_cons, List.map_nil]
  rw [w0, w1, w2, w3]

/-- C20, as stated, fails: at `xFrom = 151 / 512` the four bicubic kernel values sum to
`1`, but three of them need more than 24 significant bits and are rounded by the store
into the `Float32Array`, so that `xSum = 1 - 9 / 2 ^ 28`, which is not `1`; and the
normalisation step changes the last weight from `-8231161 / 2 ^ 28` to
`-16462323 / 2 ^ 29`. -/
theorem bicubic_normalisation_changes_weights :
    (kernelTaps 2 createPixelCopier.bicubicKernel (151 / 512 : ℚ)).sum = 1 ∧
    kernelValues 2 createPixelCopier.bicubicKernel (151 / 512 : ℚ) =
      [-2459809 / 33554432, 13774609 / 16777216, 9493917 / 33554432,
        -8231161 / 268435456] ∧
    kernelSum (kernelValues 2 createPixelCopier.bicubicKernel (151 / 512 : ℚ)) =
      1 - 9 / 2 ^ 28 ∧
    kernelSum (kernelValues 2 createPixelCopier.bicubicKernel (151 / 512 : ℚ)) ≠ 1 ∧
    kernelWeights 2 createPixelCopier.bicubicKernel (151 / 512 : ℚ) =
      [-2459809 / 33554432, 13774609 / 16777216, 9493917 / 33554432,
        -16462323 / 536870912] ∧
    kernelWeights 2 createPixelCopier.bicubicKernel (151 / 512 : ℚ) ≠
      kernelValues 2 createPixelCopier.bicubicKernel (151 / 512 : ℚ) := by
  refine ⟨bicubic_taps_sum _, bicubic_values_512, ?_, ?_, bicubic_weights_512.2, ?_⟩
  · rw [bicubic_weights_512.1]
    norm_num
  · rw [bicubic_weights_512.1]
    norm_num
  · rw [bicubic_weights_512.2, bicubic_values_512]
    norm_num

section PartitionOfUnityClaim

variable {α : Type} [LinearOrderedField α] [FloorRing α]

/-- C20, amended: the bicubic kernel with `b = -0.5` is a partition of unity over its
four taps: for every `t` with `0 ≤ t < 1`,
`kernel(t+1) + kernel(t) + kernel(t-1) + kernel(t-2) = 1`, so the four numbers computed
by the kernel for a window sum to `1` at every coordinate.  The sums `xSum` and `ySum`
of `createKernelResampler` are taken over these numbers as stored in the
`Float32Array`, that is rounded to binary32: they are within `2 ^ -23` of `1`, hence
never `0`, and the normalisation step moves each stored weight by at most `2 ^ -22`. -/
theorem bicubic_partition_of_unity (t : α) (h0 : 0 ≤ t) (h1 : t < 1) (xFrom yFrom : α) :
    createPixelCopier.bicubicKernel (t + 1) + createPixelCopier.bicubicKernel t +
      createPixelCopier.bicubicKernel (t - 1) + createPixelCopier.bicubicKernel (t - 2) = 1 ∧
    ((kernelTaps 2 createPixelCopier.bicubicKernel xFrom).sum = 1 ∧
      (kernelTaps 2 createPixelCopier.bicubicKernel yFrom).sum = 1) ∧
    (|kernelSum (kernelValues 2 createPixelCopier.bicubicKernel xFrom) - 1| ≤ 1 / 2 ^ 23 ∧
      |kernelSum (kernelValues 2 createPixelCopier.bicubicKernel yFrom) - 1| ≤ 1 / 2 ^ 23) ∧
    (kernelSum (kernelValues 2 createPixelCopier.bicubicKernel xFrom) ≠ 0 ∧
      kernelSum (kernelValues 2 createPixelCopier.bicubicKernel yFrom) ≠ 0) ∧
    (∀ i : ℕ, |(kernelWeights 2 createPixelCopier.bicubicKernel xFrom).getD i 0 -
        (kernelValues 2 createPixelCopier.bicubicKernel xFrom).getD i 0| ≤ 1 / 2 ^ 22) ∧
    (∀ i : ℕ, |(kernelWeights 2 createPixelCopier.bicubicKernel yFrom).getD i 0 -
        (kernelValues 2 createPixelCopier.bicubicKernel yFrom).getD i 0| ≤ 1 / 2 ^ 22) := by
  refine ⟨?_, ⟨bicubic_taps_sum xFrom, bicubic_taps_sum yFrom⟩,
    ⟨(bicubic_values_sum xFrom).1, (bicubic_values_sum yFrom).1⟩,
    ⟨(bicubic_values_sum xFrom).2.1.ne', (bicubic_values_sum yFrom).2.1.ne'⟩,
    bicubic_weights_getD_near xFrom, bicubic_weights_getD_near yFrom⟩
  have h := bicubic_taps_sum t
  rw [kernelTaps_two, Int.fract_eq_self.mpr ⟨h0, h1⟩] at h
  simpa [add_assoc] using h

theorem bicubic_partition_of_unity_witness :
    ((0 : ℚ) ≤ 1 / 2 ∧ (1 / 2 : ℚ) < 1) ∧
    createPixelCopier.bicubicKernel ((1 / 2 : ℚ) + 1) + createPixelCopier.bicubicKernel (1 / 2 : ℚ) +
      createPixelCopier.bicubicKernel ((1 / 2 : ℚ) - 1) +
      createPixelCopier.bicubicKernel ((1 / 2 : ℚ) - 2) = 1 ∧
    |kernelSum (kernelValues 2 createPixelCopier.bicubicKernel (7 / 3 : ℚ)) - 1| ≤ 1 / 2 ^ 23 :=
  have h := bicubic_partition_of_unity (1 / 2 : ℚ) (by norm_num) (by norm_num) (7 / 3) (7 / 3)
  ⟨⟨by norm_num, by norm_num⟩, h.1, h.2.2.1.1⟩

end PartitionOfUnityClaim

/-! ## The listed reads are the reads of the samplers -/

/-- A loop accumulating `p += g(j, d)` yields a number exactly when every read does. -/
theorem foldl_option_isSome {β γ : Type} [LinearOrderedField γ] (rd : ℕ → Option β)
    (g : ℕ → β → γ) (n : ℕ) (a : γ) :
    ((List.range n).foldl
      (fun (p : Option γ) (j : ℕ) => (rd j).bind fun x => p.bind fun p => some (p + g j x))
      (some a)).isSome = true ↔ ∀ j, j < n → (rd j).isSome = true := by
  induction n with
  | zero => simp
  | succ n ih =>
    rw [List.range_succ, List.foldl_append]
    simp only [List.foldl_cons, List.foldl_nil]
    have hsplit : (∀ j, j < n + 1 → (rd j).isSome = true) ↔
        (∀ j, j < n → (rd j).isSome = true) ∧ (rd n).isSome = true := by
      constructor
      · intro h
        exact ⟨fun j hj => h j (by omega), h n (by omega)⟩
      · rintro ⟨h1, h2⟩ j hj
        rcases Nat.lt_or_ge j n with h | h
        · exact h1 j h
        · obtain rfl : j = n := by omega
          exact h2
    rw [hsplit, ← ih]
    cases rd n <;>
      cases (List.range n).foldl
        (fun (p : Option γ) (j : ℕ) => (rd j).bind fun x => p.bind fun p => some (p + g j x))
        (some a) <;> simp

theorem kernelRow_isSome {γ : Type} [LinearOrderedField γ] (read : ImageData) (filterSize : ℕ)
    (xKernel : List γ) (xStart y : ℤ)
    (c : ℕ) :
    (kernelRow read filterSize xKernel xStart y c).isSome = true ↔
      ∀ j, j < 2 * filterSize →
        (getByte read.data (readIndex read.width
          (clamp (xStart + (j : ℤ)) 0 ((read.width : ℤ) - 1)) y + (c : ℤ))).isSome = true :=
  foldl_option_isSome
    (fun (j : ℕ) => getByte read.data
      (readIndex read.width (clamp (xStart + (j : ℤ)) 0 ((read.width : ℤ) - 1)) y + (c : ℤ)))
    (fun j (d : ℕ) => (d : γ) * xKernel.getD j 0) (2 * filterSize) (0 : γ)

section ReadsLink

variable {α : Type} [LinearOrderedField α] [FloorRing α]

/-- The bilinear value of a channel is a number exactly when its four reads yield bytes. -/
theorem bilinearChannel_isSome (read : ImageData) (xFrom yFrom : α) (c : ℕ) :
    (createPixelCopier.bilinearChannel read xFrom yFrom c).isSome = true ↔
      ∀ idx ∈ [readIndex read.width (clamp ⌊xFrom⌋ 0 ((read.width : ℤ) - 1))
                  (clamp ⌊yFrom⌋ 0 ((read.height : ℤ) - 1)) + (c : ℤ),
               readIndex read.width (clamp ⌈xFrom⌉ 0 ((read.width : ℤ) - 1))
                  (clamp ⌊yFrom⌋ 0 ((read.height : ℤ) - 1)) + (c : ℤ),
               readIndex read.width (clamp ⌊xFrom⌋ 0 ((read.width : ℤ) - 1))
                  (clamp ⌈yFrom⌉ 0 ((read.height : ℤ) - 1)) + (c : ℤ),
               readIndex read.width (clamp ⌈xFrom⌉ 0 ((read.width : ℤ) - 1))
                  (clamp ⌈yFrom⌉ 0 ((read.height : ℤ) - 1)) + (c : ℤ)],
        (getByte read.data idx).isSome = true := by
  unfold createPixelCopier.bilinearChannel
  simp only [List.mem_cons, List.mem_singleton, List.not_mem_nil, or_false, forall_eq_or_imp,
    forall_eq, Option.bind_eq_bind, Option.pure_def]
  cases getByte read.data (readIndex read.width (clamp ⌊xFrom⌋ 0 ((read.width : ℤ) - 1))
      (clamp ⌊yFrom⌋ 0 ((read.height : ℤ) - 1)) + (c : ℤ)) <;>
    cases getByte read.data (readIndex read.width (clamp ⌈xFrom⌉ 0 ((read.width : ℤ) - 1))
      (clamp ⌊yFrom⌋ 0 ((read.height : ℤ) - 1)) + (c : ℤ)) <;>
    cases getByte read.data (readIndex read.width (clamp ⌊xFrom⌋ 0 ((read.width : ℤ) - 1))
      (clamp ⌈yFrom⌉ 0 ((read.height : ℤ) - 1)) + (c : ℤ)) <;>
    cases getByte read.data (readIndex read.width (clamp ⌈xFrom⌉ 0 ((read.width : ℤ) - 1))
      (clamp ⌈yFrom⌉ 0 ((read.height : ℤ) - 1)) + (c : ℤ)) <;> simp

/-- The bilinear strategy computes three numbers exactly when every index of
`bilinearReads` yields a byte. -/
theorem bilinearReads_link (read : ImageData) (xFrom yFrom : α) :
    (∀ c, c < 3 → (createPixelCopier.bilinearChannel read xFrom yFrom c).isSome = true) ↔
      ∀ idx ∈ createPixelCopier.bilinearReads read xFrom yFrom,
        (getByte read.data idx).isSome = true := by
  unfold createPixelCopier.bilinearReads
  simp only [List.mem_flatMap, List.mem_range]
  constructor
  · rintro h idx ⟨c, hc, hmem⟩
    exact (bilinearChannel_isSome read xFrom yFrom c).mp (h c hc) idx hmem
  · intro h c hc
    exact (bilinearChannel_isSome read xFrom yFrom c).mpr (fun idx hmem => h idx ⟨c, hc, hmem⟩)

theorem kernelChannel_isSome (read : ImageData) (filterSize : ℕ) (kernel : α → α)
    (xFrom yFrom : α) (c : ℕ) :
    (kernelChannel read filterSize kernel xFrom yFrom c).isSome = true ↔
      ∀ i, i < 2 * filterSize → ∀ j, j < 2 * filterSize →
        (getByte read.data (readIndex read.width
          (clamp (⌊xFrom⌋ - (filterSize : ℤ) + 1 + (j : ℤ)) 0 ((read.width : ℤ) - 1))
          (clamp (⌊yFrom⌋ - (filterSize : ℤ) + 1 + (i : ℤ)) 0 ((read.height : ℤ) - 1)) +
            (c : ℤ))).isSome = true := by
  have h := foldl_option_isSome
    (fun (i : ℕ) => kernelRow read filterSize (kernelWeights filterSize kernel xFrom)
      (⌊xFrom⌋ - (filterSize : ℤ) + 1)
      (clamp (⌊yFrom⌋ - (filterSize : ℤ) + 1 + (i : ℤ)) 0 ((read.height : ℤ) - 1)) c)
    (fun i (p : α) => p * (kernelWeights filterSize kernel yFrom).getD i 0)
    (2 * filterSize) (0 : α)
  unfold kernelChannel
  simp only [Option.isSome_map']
  rw [show ((List.range (2 * filterSize)).foldl
      (fun (q : Option α) (i : ℕ) => do
        let y := clamp (⌊yFrom⌋ - (filterSize : ℤ) + 1 + (i : ℤ)) 0 ((read.height : ℤ) - 1)
        let p ← kernelRow read filterSize (kernelWeights filterSize kernel xFrom)
          (⌊xFrom⌋ - (filterSize : ℤ) + 1) y c
        let q ← q
        pure (q + p * (kernelWeights filterSize kernel yFrom).getD i 0))
      (some 0)).isSome = true ↔ _ from h]
  simp only [kernelRow_isSome]

/-- The kernel resampler computes three numbers exactly when every index of
`kernelReads` yields a byte. -/
theorem kernelReads_link (read : ImageData) (filterSize : ℕ) (kernel : α → α)
    (xFrom yFrom : α) :
    (∀ c, c < 3 → (kernelChannel read filterSize kernel xFrom yFrom c).isSome = true) ↔
      ∀ idx ∈ kernelReads read filterSize xFrom yFrom, (getByte read.data idx).isSome = true := by
  unfold kernelReads
  simp only [List.mem_flatMap, List.mem_range, List.mem_map, kernelChannel_isSome]
  constructor
  · rintro h idx ⟨c, hc, i, hi, j, hj, rfl⟩
    exact h c hc i hi j hj
  · intro h c hc i hi j hj
    exact h _ ⟨c, hc, i, hi, j, hj, rfl⟩

/-- The bytes the nearest strategy copies are those at the indices of `nearestReads`,
when these lie in the source array. -/
theorem nearestReads_link (read : ImageData) (xFrom yFrom : α)
    (h : ∀ idx ∈ createPixelCopier.nearestReads read xFrom yFrom,
      0 ≤ idx ∧ idx < (read.data.length : ℤ)) :
    (createPixelCopier.nearestReads read xFrom yFrom).map (getByte read.data) =
      (subarray read.data (createPixelCopier.nearestIndex read xFrom yFrom)
        (createPixelCopier.nearestIndex read xFrom yFrom + 3)).map some := by
  unfold createPixelCopier.nearestReads at h ⊢
  simp only [List.mem_cons, List.mem_singleton, List.not_mem_nil, or_false, forall_eq_or_imp,
    forall_eq] at h
  obtain ⟨⟨h0, -⟩, -, ⟨-, h2⟩⟩ := h
  generalize createPixelCopier.nearestIndex read xFrom yFrom = b at h0 h2 ⊢
  rw [subarray_three read.data h0 (by omega)]
  obtain ⟨k, rfl⟩ := Int.eq_ofNat_of_zero_le h0
  have hk : k + 2 < read.data.length := by omega
  simp only [List.map_cons, List.map_nil]
  rw [getByte_of_nonneg _ (by omega), getByte_of_nonneg _ (by omega),
    getByte_of_nonneg _ (by omega)]
  have e1 : ((k : ℤ) + 1).toNat = k + 1 := by omega
  have e2 : ((k : ℤ) + 2).toNat = k + 2 := by omega
  rw [Int.toNat_ofNat, e1, e2,
    drop_take_three read.data k _ _ _ (List.getElem?_eq_getElem (by omega))
      (List.getElem?_eq_getElem (by omega)) (List.getElem?_eq_getElem hk)]
  simp only [List.map_cons, List.map_nil]
  rw [List.getElem?_eq_getElem (by omega), List.getElem?_eq_getElem (by omega),
    List.getElem?_eq_getElem hk]

end ReadsLink

end Blade
